import Mathlib

/-!
# libpod: attach stream multiplexing and `ps` container queries

A shallow embedding of

* `pkg/varlinkapi/virtwriter/virtwriter.go` (the frame writer and the demultiplexing reader),
* `cmd/podman/shared/container.go` (filter compilation, `GetPsContainerOutput`, `PBatch`,
  `NewBatchContainer`, `portsToString`), and
* `pkg/varlinkapi/containers.go` (the `Ps` endpoint),

followed by theorems about them.

Conventions of the embedding:

* a Go `byte` is a `Fin 256`; a Go `[]byte` is a `List Byte`;
* Go `int`, `int32`, `int64` values are `Int` (or `Nat` for lengths), with an explicit
  `% 2 ^ w` wherever the source converts to a narrower type;
* a Go `error` result is an `Option` of an error value, `none` being `nil`;
* a `bufio.Reader` is the finite list of bytes still unread, after which it reports EOF;
* output sinks (`*os.File`, `*io.PipeWriter`) are the list of bytes written to them so far and
  accept every write; the resize channel is the list of values sent on it so far;
* the goroutines of `PBatch` are a pool that moves one goroutine step at a time, a buffered
  channel being the list of the values in it and the `sync.WaitGroup` its counter; the Go
  scheduler is a function that picks the goroutine of each step, and what is proved of
  `PBatch` is proved for every such function.
-/

namespace Virtwriter

/-- A Go byte. -/
abbrev Byte := Fin 256

/-- Conversion of a non-negative integer to a byte, keeping the low eight bits. -/
def byte (n : Nat) : Byte := ⟨n % 256, Nat.mod_lt n (by decide)⟩

/-- Conversion `uint32(n)` of a non-negative integer. -/
def uint32 (n : Nat) : Nat := n % 2 ^ 32

/-- SocketDest is the key to where IO should go on the multiplexed socket (`type SocketDest int`). -/
structure SocketDest where
  val : Int
  deriving DecidableEq, Repr

/-- ToStdout indicates traffic should go to stdout. -/
def ToStdout : SocketDest := ⟨0⟩
/-- ToStdin indicates traffic came from stdin. -/
def ToStdin : SocketDest := ⟨1⟩
/-- ToStderr indicates traffic should go to stderr. -/
def ToStderr : SocketDest := ⟨2⟩
/-- TerminalResize indicates a terminal resize event has occurred. -/
def TerminalResize : SocketDest := ⟨3⟩
/-- Quit and detach. -/
def Quit : SocketDest := ⟨4⟩

/-- Int returns the integer representation of the socket dest. -/
def SocketDest.Int (sd : SocketDest) : Int := sd.val

/-- IntToSocketDest returns a socketdest based on integer input; the cases are tried in the
order of the source `switch`, and the `default` arm answers `ToStderr`. -/
def IntToSocketDest (i : Int) : SocketDest :=
  if i = ToStdout.Int then ToStdout
  else if i = ToStderr.Int then ToStderr
  else if i = ToStdin.Int then ToStdin
  else if i = TerminalResize.Int then TerminalResize
  else if i = Quit.Int then Quit
  else ToStderr

/-- Conversion `byte(d)` of a destination: the low eight bits of its integer value. -/
def SocketDest.toByte (sd : SocketDest) : Byte := byte (sd.val % 256).toNat

/-- Go `binary.BigEndian.PutUint32`: the four bytes of a 32-bit value, most significant first. -/
def PutUint32 (v : Nat) : List Byte :=
  [byte (v / 2 ^ 24), byte (v / 2 ^ 16), byte (v / 2 ^ 8), byte v]

/-- Go `binary.BigEndian.Uint32`: the value of (the first) four bytes, most significant first. -/
def Uint32 (b : List Byte) : Nat :=
  (b.getD 3 0).val + (b.getD 2 0).val * 2 ^ 8 + (b.getD 1 0).val * 2 ^ 16
    + (b.getD 0 0).val * 2 ^ 24

/-- Errors of the `io` layer and of the reader. -/
inductive Error where
  /-- Go `io.EOF`. -/
  | EOF
  /-- Go `io.ErrUnexpectedEOF`. -/
  | ErrUnexpectedEOF
  /-- The error "short read and no full header read". -/
  | shortHeader
  /-- The error "Unknown multiplex destination". -/
  | unknownDestination
  /-- an error of `json.Unmarshal`. -/
  | unmarshal (msg : String)
  /-- an error reported by the `bufio.Writer`. -/
  | writer (msg : String)
  deriving DecidableEq, Repr

/-- A call received by the `bufio.Writer` of a `VirtWriteCloser`. -/
inductive WriterCall where
  | Write (p : List Byte)
  | Flush
  deriving DecidableEq, Repr

/-- The `bufio.Writer` a `VirtWriteCloser` writes to: the calls it has received, oldest first,
and the error (if any) that its `Write` and its `Flush` answer with. -/
structure BufioWriter where
  calls : List WriterCall
  writeErr : Option Error
  flushErr : Option Error
  deriving DecidableEq, Repr

/-- Go `(*bufio.Writer).Write`: records the buffer it is handed and answers `(n, err)`. -/
def BufioWriter.Write (w : BufioWriter) (p : List Byte) : (Nat × Option Error) × BufioWriter :=
  ((if w.writeErr.isSome then 0 else p.length, w.writeErr),
    { w with calls := w.calls ++ [WriterCall.Write p] })

/-- Go `(*bufio.Writer).Flush`. -/
def BufioWriter.Flush (w : BufioWriter) : Option Error × BufioWriter :=
  (w.flushErr, { w with calls := w.calls ++ [WriterCall.Flush] })

/-- The bytes a writer has been handed, in order. -/
def BufioWriter.written (w : BufioWriter) : List Byte :=
  w.calls.flatMap fun c => match c with
    | WriterCall.Write p => p
    | WriterCall.Flush => []

/-- VirtWriteCloser are writers for attach which include the dest of the data. -/
structure VirtWriteCloser where
  writer : BufioWriter
  dest : SocketDest
  deriving DecidableEq, Repr

/-- NewVirtWriteCloser is a constructor. -/
def NewVirtWriteCloser (w : BufioWriter) (dest : SocketDest) : VirtWriteCloser := ⟨w, dest⟩

/-- Write prepends a header to the input message. The header is 8 bytes: position one holds
the destination, positions 5 to 8 the big-endian `uint32` length of the message. Returns the
`(int, error)` result and the writer afterwards. -/
def VirtWriteCloser.Write (v : VirtWriteCloser) (input : List Byte) :
    (Nat × Option Error) × VirtWriteCloser :=
  let header : List Byte := [v.dest.toByte, 0, 0, 0]
  let mlen := PutUint32 (uint32 input.length)
  let msg := header ++ mlen
  let msg := msg ++ input
  let (res, w1) := v.writer.Write msg
  match res.2 with
  | some err => ((0, some err), { v with writer := w1 })
  | none =>
    let (err, w2) := w1.Flush
    ((input.length, err), { v with writer := w2 })

/-- Go `remotecommand.TerminalSize`: two `uint16` fields. -/
structure TerminalSize where
  Width : Nat
  Height : Nat
  deriving DecidableEq, Repr

/-- Go `io.ReadFull(r, buf)` for a buffer of `n` bytes: the bytes read, the error, and the reader
afterwards. Fewer than `n` bytes before the end give `io.EOF` when nothing was read and
`io.ErrUnexpectedEOF` otherwise. -/
def ReadFull (r : List Byte) (n : Nat) : (List Byte × Option Error) × List Byte :=
  if n ≤ r.length then ((r.take n, none), r.drop n)
  else if r.length = 0 then (([], some Error.EOF), [])
  else ((r, some Error.ErrUnexpectedEOF), [])

/-- Go `io.CopyN(dst, r, n)`: the error, the sink afterwards and the reader afterwards. Bytes read
before a premature end of input are still written to the sink; the error is then `io.EOF`. -/
def CopyN (dst r : List Byte) (n : Nat) : Option Error × List Byte × List Byte :=
  if n ≤ r.length then (none, dst ++ r.take n, r.drop n)
  else (some Error.EOF, dst ++ r, [])

/-- What `Reader` reads from and delivers to. -/
structure ReaderState where
  /-- the unread bytes of the `bufio.Reader`. -/
  r : List Byte
  /-- bytes written to `output`. -/
  output : List Byte
  /-- bytes written to `errput`. -/
  errput : List Byte
  /-- bytes written to the `input` pipe. -/
  input : List Byte
  /-- events sent on the `resize` channel. -/
  resize : List TerminalSize
  deriving DecidableEq, Repr

/-- The loop of `Reader`, one iteration per unit of fuel. `jsonUnmarshal` stands for
`json.Unmarshal` into a fresh `TerminalSize`. The result is `none` when the fuel is used up,
and otherwise the returned `error` with the state at the time of the return. -/
def ReaderLoop (jsonUnmarshal : List Byte → Except String TerminalSize) :
    Nat → ReaderState → Option (Option Error × ReaderState)
  | 0, _ => none
  | fuel + 1, s =>
    let (rd, r1) := ReadFull s.r 8
    let headerBytes := rd.1
    match rd.2 with
    | some err => some (some err, { s with r := r1 })
    | none =>
      if headerBytes.length < 8 then
        some (some Error.shortHeader, { s with r := r1 })
      else
        let messageSize := Uint32 (headerBytes.drop 4)
        let dest := IntToSocketDest (headerBytes.getD 0 0).val
        if dest = ToStdout then
          match CopyN s.output r1 messageSize with
          | (some err, out, r2) => some (some err, { s with r := r2, output := out })
          | (none, out, r2) => ReaderLoop jsonUnmarshal fuel { s with r := r2, output := out }
        else if dest = ToStderr then
          match CopyN s.errput r1 messageSize with
          | (some err, out, r2) => some (some err, { s with r := r2, errput := out })
          | (none, out, r2) => ReaderLoop jsonUnmarshal fuel { s with r := r2, errput := out }
        else if dest = ToStdin then
          match CopyN s.input r1 messageSize with
          | (some err, out, r2) => some (some err, { s with r := r2, input := out })
          | (none, out, r2) => ReaderLoop jsonUnmarshal fuel { s with r := r2, input := out }
        else if dest = TerminalResize then
          let (rd2, r2) := if 0 < messageSize then ReadFull r1 messageSize
            else ((List.replicate messageSize 0, none), r1)
          match rd2.2 with
          | some err => some (some err, { s with r := r2 })
          | none =>
            match jsonUnmarshal rd2.1 with
            | Except.error e => some (some (Error.unmarshal e), { s with r := r2 })
            | Except.ok resizeEvent =>
              ReaderLoop jsonUnmarshal fuel { s with r := r2, resize := s.resize ++ [resizeEvent] }
        else if dest = Quit then
          let (rd2, r2) := if 0 < messageSize then ReadFull r1 messageSize
            else ((List.replicate messageSize 0, none), r1)
          match rd2.2 with
          | some err => some (some err, { s with r := r2 })
          | none => some (none, { s with r := r2 })
        else
          some (some Error.unknownDestination, { s with r := r1 })

/-- Reader decodes the content that comes over the wire and directs it to the proper
destination. Every iteration that does not return consumes at least the eight header bytes, so
one unit of fuel per unread byte (and one more) is never used up. -/
def Reader (jsonUnmarshal : List Byte → Except String TerminalSize) (s : ReaderState) :
    Option (Option Error × ReaderState) :=
  ReaderLoop jsonUnmarshal (s.r.length + 1) s

/-! ### Frames, as the properties of the reader speak about them -/

/-- A frame of the wire protocol as a peer may send it: destination, the three reserved header
bytes, and the payload. -/
structure Frame where
  dest : SocketDest
  reserved : Byte × Byte × Byte
  payload : List Byte
  deriving DecidableEq, Repr

/-- The eight header bytes of a frame: tag, reserved bytes, big-endian payload length. -/
def Frame.header (f : Frame) : List Byte :=
  [f.dest.toByte, f.reserved.1, f.reserved.2.1, f.reserved.2.2]
    ++ PutUint32 (uint32 f.payload.length)

/-- The bytes of a frame on the wire: header, then payload. -/
def Frame.wire (f : Frame) : List Byte :=
  f.header ++ f.payload

/-- The payloads of the frames addressed to `d`, concatenated in arrival order. -/
def payloadsFor (d : SocketDest) (frames : List Frame) : List Byte :=
  (frames.filter fun f => f.dest = d).flatMap Frame.payload

/-- The resize records carried by the resize frames, in arrival order. -/
def resizeEvents (jsonUnmarshal : List Byte → Except String TerminalSize)
    (frames : List Frame) : List TerminalSize :=
  frames.flatMap fun f =>
    if f.dest = TerminalResize then
      match jsonUnmarshal f.payload with
      | Except.ok ev => [ev]
      | Except.error _ => []
    else []

/-- A frame that the sequential-delivery property speaks about: payload length below `2 ^ 32`,
destination stdout, stderr, stdin, or resize with a payload that deserializes. -/
def Frame.wellFormed (jsonUnmarshal : List Byte → Except String TerminalSize) (f : Frame) : Prop :=
  f.payload.length < 2 ^ 32 ∧
  (f.dest = ToStdout ∨ f.dest = ToStderr ∨ f.dest = ToStdin ∨
    (f.dest = TerminalResize ∧ ∃ ev, jsonUnmarshal f.payload = Except.ok ev))

/-! ### Relations between inputs, as the properties of the reader speak about them -/

/-- Two inputs differ only in reserved bytes (bytes 1 to 3) of frame headers: they are the same,
or they start with headers that agree outside the reserved bytes and go on the same way, or
they start with complete frames that agree outside the reserved bytes (`len` is the length
field, `p` the payload of that length) and what follows the frames differs only in reserved
bytes of frame headers again. -/
inductive SameButReserved : List Byte → List Byte → Prop
  | same (r : List Byte) : SameButReserved r r
  | header (t a b c a' b' c' : Byte) (rest : List Byte) :
      SameButReserved (t :: a :: b :: c :: rest) (t :: a' :: b' :: c' :: rest)
  | frame (t a b c a' b' c' : Byte) (len p r₁ r₂ : List Byte) (hlen : len.length = 4)
      (hp : p.length = Uint32 len) (hrest : SameButReserved r₁ r₂) :
      SameButReserved (t :: a :: b :: c :: (len ++ (p ++ r₁)))
        (t :: a' :: b' :: c' :: (len ++ (p ++ r₂)))

/-- What the caller of `Reader` observes of a call that returned: the returned error, the
bytes in the three sinks, and the events on the resize channel. -/
def delivered (res : Option Error × ReaderState) :
    Option Error × List Byte × List Byte × List Byte × List TerminalSize :=
  (res.1, res.2.output, res.2.errput, res.2.input, res.2.resize)

/-- The input holds a complete Quit frame at a frame boundary: it starts with an eight-byte
header whose tag decodes to Quit, followed by as many payload bytes as the length field says;
or it starts with any complete frame (`h` the header, `p` the payload) and what follows that
frame holds a complete Quit frame at a frame boundary. -/
inductive HasQuitFrame : List Byte → Prop
  | quit (h p rest : List Byte) (hh : h.length = 8)
      (hd : IntToSocketDest (h.getD 0 0).val = Quit) (hp : p.length = Uint32 (h.drop 4)) :
      HasQuitFrame (h ++ (p ++ rest))
  | next (h p rest : List Byte) (hh : h.length = 8) (hp : p.length = Uint32 (h.drop 4))
      (hrest : HasQuitFrame rest) : HasQuitFrame (h ++ (p ++ rest))

end Virtwriter

namespace Shared

/-! ## `cmd/podman/shared/container.go`

Strings are Lean strings, one character standing for one Go byte. Times are instants counted in
nanoseconds. Log output (`logrus`) is not part of the model. -/

def cidTruncLength : Nat := 12
def podTruncLength : Nat := 12
def cmdTruncLength : Nat := 17

/-- Go errors of this package: `errors.Errorf`, `errors.Wrapf`, and errors handed over by the
runtime or the standard library. -/
inductive Error where
  | Errorf (msg : String)
  | Wrapf (cause : Error) (msg : String)
  | external (msg : String)
  deriving DecidableEq, Repr

/-- PsOptions describes the struct being formed for ps. -/
structure PsOptions where
  All : Bool
  Format : String
  Last : Int
  Latest : Bool
  NoTrunc : Bool
  Pod : Bool
  Quiet : Bool
  Size : Bool
  SortBy : String
  Namespace : Bool
  Sync : Bool
  deriving DecidableEq, Repr

/-- Modelled from the spec: `libpod.ContainerStatus`, the raw lifecycle state of §3 and §4.2
(unknown, configured, created, running, stopped, paused, exited), with one more constructor for
the values of the underlying integer type that name no state. -/
inductive ContainerStatus where
  | ContainerStateUnknown
  | ContainerStateConfigured
  | ContainerStateCreated
  | ContainerStateRunning
  | ContainerStateStopped
  | ContainerStatePaused
  | ContainerStateExited
  | unrecognized (n : Nat)
  deriving DecidableEq, Repr

/-- Modelled from the spec: `ContainerStatus.String`, the name of a raw state (§4.1: the
"configured" raw state, the "stopped" raw state, ...); a value that names no state is a
"bad state". -/
def ContainerStatus.String : ContainerStatus → String
  | ContainerStatus.ContainerStateUnknown => "unknown"
  | ContainerStatus.ContainerStateConfigured => "configured"
  | ContainerStatus.ContainerStateCreated => "created"
  | ContainerStatus.ContainerStateRunning => "running"
  | ContainerStatus.ContainerStateStopped => "stopped"
  | ContainerStatus.ContainerStatePaused => "paused"
  | ContainerStatus.ContainerStateExited => "exited"
  | ContainerStatus.unrecognized _ => "bad state"

/-- Go `specs.Mount`, as far as the filters read it. -/
structure Mount where
  Source : String
  Destination : String
  deriving DecidableEq, Repr

/-- Go `ocicni.PortMapping`; the two ports are `int32`. -/
structure PortMapping where
  HostPort : Int
  ContainerPort : Int
  Protocol : String
  HostIP : String
  deriving DecidableEq, Repr

/-- Go `libpod.ContainerConfig`, as far as this file reads it (`Mounts` is `Spec.Mounts`). -/
structure ContainerConfig where
  RootfsImageID : String
  RootfsImageName : String
  CreatedTime : Int
  Mounts : List Mount
  deriving DecidableEq, Repr

/-- Modelled from the spec: the container handle of the runtime collaborator (§3, §6), given by
what each of its accessors returns. `Labels` is the label map as a list of entries; `BatchErr`
is the error with which `Batch` refuses to run its closure, if any. -/
structure Container where
  ID : String
  Name : String
  Labels : List (String × String)
  Config : ContainerConfig
  State : ContainerStatus × Option Error
  ExitCode : Int × Bool × Option Error
  HealthCheckStatus : String × Option Error
  Command : List String
  StartedTime : Int × Option Error
  FinishedTime : Int × Option Error
  PID : Int × Option Error
  RootFsSize : Int × Option Error
  RWSize : Int × Option Error
  Image : String × String
  PodID : String
  PortMappings : List PortMapping × Option Error
  IsInfra : Bool
  UserVolumes : List String
  Sync : Option Error
  BatchErr : Option Error
  deriving DecidableEq, Repr

/-- Go `(*Container).CreatedTime`. -/
def Container.CreatedTime (c : Container) : Int := c.Config.CreatedTime

/-- A call made on the runtime or on one of its containers. -/
inductive RuntimeCall where
  | LookupContainer (name : String)
  | GetContainers
  | GetLatestContainer
  | Batch (id : String)
  deriving DecidableEq, Repr

/-- Modelled from the spec: the runtime collaborator (§6), given by what its lookups return:
`AllContainers` is what `GetContainers` lists before it applies the filters. -/
structure Runtime where
  AllContainers : Except Error (List Container)
  LookupContainer : String → Except Error Container
  GetLatestContainer : Except Error Container

/-- Modelled from the spec: `(*Runtime).GetContainers(filters...)`, all containers that satisfy
every filter (§4.2 step 2). -/
def Runtime.GetContainers (r : Runtime) (filters : List (Container → Bool)) :
    List Container × Option Error :=
  match r.AllContainers with
  | Except.error e => ([], some e)
  | Except.ok ctrs => (ctrs.filter fun c => filters.all fun f => f c, none)

/-- ContainerSize holds the size of the container's root filesystem and top read-write layer. -/
structure ContainerSize where
  RootFsSize : Int
  RwSize : Int
  deriving DecidableEq, Repr

/-- Namespace describes output for ps namespace. -/
structure Namespace where
  PID : String
  Cgroup : String
  IPC : String
  MNT : String
  NET : String
  PIDNS : String
  User : String
  UTS : String
  deriving DecidableEq, Repr

/-- PsContainerOutput is the struct being returned from a parallel Batch operation. -/
structure PsContainerOutput where
  ID : String
  Image : String
  Command : String
  Created : String
  Ports : String
  Names : String
  IsInfra : Bool
  Status : String
  State : ContainerStatus
  Pid : Int
  Size : Option ContainerSize
  Pod : String
  CreatedAt : Int
  ExitedAt : Int
  StartedAt : Int
  Labels : List (String × String)
  PID : String
  Cgroup : String
  IPC : String
  MNT : String
  NET : String
  PIDNS : String
  User : String
  UTS : String
  Mounts : String
  deriving DecidableEq, Repr

/-- The zero value of `PsContainerOutput`. -/
def PsContainerOutput.zero : PsContainerOutput :=
  ⟨"", "", "", "", "", "", false, "", ContainerStatus.ContainerStateUnknown, 0, none, "", 0, 0, 0,
    [], "", "", "", "", "", "", "", "", ""⟩

/-- What the code takes from its surroundings: the clock, `units.HumanDuration`, what
`GetNamespaces` reports about the links under `/proc`, and the Go scheduler: `schedule n`
picks, among the goroutines that can take a step, the one that takes the `n`-th step. -/
structure Env where
  now : Int
  HumanDuration : Int → String
  GetNamespaces : Int → Namespace
  schedule : Nat → Nat

/-- How a call ends: it returns, it panics, or it never returns. -/
inductive Outcome (α : Type) where
  | returned (a : α)
  | panicked (msg : String)
  | blocked
  deriving Repr

/-! ### String helpers of the Go standard library -/

/-- Go `strings.Contains`. -/
def Contains (s substr : String) : Bool := decide (substr.data <:+: s.data)

/-- Cuts a character list at the first occurrence of `sep`. -/
def cutAt (sep : Char) : List Char → Option (List Char × List Char)
  | [] => none
  | c :: cs =>
    if c = sep then some ([], cs)
    else match cutAt sep cs with
      | none => none
      | some (a, b) => some (c :: a, b)

/-- Go `strings.SplitN(s, sep, 2)` for a one-character separator. -/
def SplitN2 (s : String) (sep : Char) : List String :=
  match cutAt sep s.data with
  | none => [s]
  | some (a, b) => [String.mk a, String.mk b]

/-- Go `strings.Split` on a character list, for a one-character separator. -/
def splitChars (sep : Char) : List Char → List (List Char)
  | [] => [[]]
  | c :: cs =>
    if c = sep then [] :: splitChars sep cs
    else match splitChars sep cs with
      | [] => [[c]]
      | x :: xs => (c :: x) :: xs

/-- Go `strings.Split(s, sep)` for a one-character separator. -/
def Split (s : String) (sep : Char) : List String := (splitChars sep s.data).map String.mk

/-- Go `strings.Join`. -/
def Join (elems : List String) (sep : String) : String := sep.intercalate elems

/-- Go `strconv.ParseInt(s, 10, 32)`: an optional sign, then one or more decimal digits, the value
within the signed 32-bit range; `none` stands for the error. -/
def ParseInt32 (s : String) : Option Int :=
  let (neg, digits) : Bool × List Char :=
    match s.data with
    | '+' :: ds => (false, ds)
    | '-' :: ds => (true, ds)
    | ds => (false, ds)
  if digits = [] ∨ ¬ (digits.all Char.isDigit = true) then none
  else
    let un : Nat := digits.foldl (fun acc c => acc * 10 + (c.toNat - 48)) 0
    if neg = false ∧ 2 ^ 31 ≤ un then none
    else if neg = true ∧ 2 ^ 31 < un then none
    else some (if neg then -(un : Int) else (un : Int))

/-- Go `strconv.Itoa` and the `%d` verb. -/
def Itoa (n : Int) : String := toString n

/-- Go `util.StringInSlice`. -/
def StringInSlice (s : String) (sl : List String) : Bool := sl.contains s

/-- Wrap-around of `int32` arithmetic. -/
def int32 (x : Int) : Int := (x + 2 ^ 31) % 2 ^ 32 - 2 ^ 31


/-! ### Port formatting -/

/-- comparePorts: the order used to sort port mappings. -/
def comparePorts (i j : PortMapping) : Bool :=
  if i.ContainerPort ≠ j.ContainerPort then decide (i.ContainerPort < j.ContainerPort)
  else if i.HostIP ≠ j.HostIP then decide (i.HostIP < j.HostIP)
  else if i.HostPort ≠ j.HostPort then decide (i.HostPort < j.HostPort)
  else decide (i.Protocol < j.Protocol)

/-- formatGroup returns the group as `IP:startPort-lastPort->startPort-lastPort/Proto`. -/
def formatGroup (key : String) (start last : Int) : String :=
  let parts := Split key '/'
  let groupType := parts.getD 0 ""
  let (ip, groupType) : String × String :=
    if 1 < parts.length then (parts.getD 0 "", parts.getD 1 "") else ("", groupType)
  let group := Itoa start
  let group := if start ≠ last then group ++ "-" ++ Itoa last else group
  let group := if ip ≠ "" then ip ++ ":" ++ group ++ "->" ++ group else group
  group ++ "/" ++ groupType

/-- The state of the grouping loop of `portsToString`: the entries emitted so far and the open
groups, one `(key, first, last)` per key in the order of `groupKeyList`. -/
structure PortLoop where
  portDisplay : List String
  groups : List (String × Int × Int)
  deriving DecidableEq, Repr

/-- One iteration of the grouping loop of `portsToString`. -/
def portsToString.step (st : PortLoop) (v : PortMapping) : PortLoop :=
  let hostIP := if v.HostIP = "" then "0.0.0.0" else v.HostIP
  if v.ContainerPort ≠ v.HostPort then
    { st with portDisplay := st.portDisplay ++
        [hostIP ++ ":" ++ Itoa v.HostPort ++ "->" ++ Itoa v.ContainerPort ++ "/" ++ v.Protocol] }
  else
    let portMapKey := hostIP ++ "/" ++ v.Protocol
    match st.groups.find? fun g => g.1 = portMapKey with
    | none => { st with groups := st.groups ++ [(portMapKey, v.ContainerPort, v.ContainerPort)] }
    | some portgroup =>
      if portgroup.2.2 = int32 (v.ContainerPort - 1) then
        { st with groups := st.groups.map fun g =>
            if g.1 = portMapKey then (g.1, g.2.1, v.ContainerPort) else g }
      else st

/-- portsToString converts the ports used to a string of the form "port1, port2" and groups
continuous lists of ports. `sort.Slice` sorts the caller's slice in place: the second component
is that slice after the call. -/
def portsToString (ports : List PortMapping) : String × List PortMapping :=
  if ports.length = 0 then ("", ports)
  else
    let ports := ports.insertionSort fun a b => comparePorts b a = false
    let st := ports.foldl portsToString.step ⟨[], []⟩
    let portDisplay := st.portDisplay ++ st.groups.map fun g => formatGroup g.1 g.2.1 g.2.2
    (Join portDisplay ", ", ports)

/-! ### Batch reads -/

/-- NewBatchContainer runs a batch process under one lock to get container information. -/
def NewBatchContainer (env : Env) (ctr : Container) (opts : PsOptions) :
    Outcome (PsContainerOutput × Option Error) :=
  let pso := PsContainerOutput.zero
  -- the closure handed to `ctr.Batch`
  let batch : Option Error ⊕ (ContainerStatus × String × String × Int × Int × Int × Int
      × Option Namespace × Option ContainerSize) :=
    match ctr.BatchErr with
    | some e => Sum.inl (some e)
    | none =>
      match (if opts.Sync then ctr.Sync else none) with
      | some e => Sum.inl (some e)
      | none =>
        match ctr.State.2 with
        | some e => Sum.inl (some (Error.Wrapf e "unable to obtain container state"))
        | none =>
          let conState := ctr.State.1
          let command := Join ctr.Command " "
          let created := env.HumanDuration (env.now - ctr.CreatedTime) ++ " ago"
          match ctr.ExitCode.2.2 with
          | some e => Sum.inl (some (Error.Wrapf e "unable to obtain container exit code"))
          | none =>
            let exitCode := ctr.ExitCode.1
            let startedAt := ctr.StartedTime.1
            let exitedAt := ctr.FinishedTime.1
            match (if opts.Namespace then ctr.PID.2 else none) with
            | some e => Sum.inl (some (Error.Wrapf e "unable to obtain container pid"))
            | none =>
              let pid := if opts.Namespace then ctr.PID.1 else 0
              let ns := if opts.Namespace then some (env.GetNamespaces pid) else none
              let size : Option ContainerSize :=
                if opts.Size then some ⟨ctr.RootFsSize.1, ctr.RWSize.1⟩ else none
              Sum.inr (conState, command, created, exitCode, startedAt, exitedAt, pid, ns, size)
  match batch with
  | Sum.inl batchErr => Outcome.returned (pso, batchErr)
  | Sum.inr (conState, command, created, exitCode, startedAt, exitedAt, pid, ns, size) =>
    let status : String :=
      if conState.String = ContainerStatus.ContainerStateExited.String
          ∨ conState.String = ContainerStatus.ContainerStateStopped.String then
        "Exited (" ++ Itoa exitCode ++ ") " ++ env.HumanDuration (env.now - exitedAt) ++ " ago"
      else if conState.String = ContainerStatus.ContainerStateRunning.String then
        "Up " ++ env.HumanDuration (env.now - startedAt) ++ " ago"
      else if conState.String = ContainerStatus.ContainerStatePaused.String then
        "Paused"
      else if conState.String = ContainerStatus.ContainerStateCreated.String
          ∨ conState.String = ContainerStatus.ContainerStateConfigured.String then
        "Created"
      else "Error"
    let imageName := ctr.Image.2
    let cid := ctr.ID
    let pod := ctr.PodID
    -- `cid[0:cidTruncLength]` panics when the ID is shorter than that
    if opts.NoTrunc = false ∧ cid.length < cidTruncLength then
      Outcome.panicked "slice bounds out of range"
    else
      let cid := if opts.NoTrunc then cid else String.mk (cid.data.take cidTruncLength)
      let pod := if opts.NoTrunc = false ∧ podTruncLength < pod.length
        then String.mk (pod.data.take podTruncLength) else pod
      let command := if opts.NoTrunc = false ∧ cmdTruncLength < command.length
        then String.mk (command.data.take cmdTruncLength) ++ "..." else command
      let ports := ctr.PortMappings.1
      let pso : PsContainerOutput :=
        { pso with
          ID := cid
          Image := imageName
          Command := command
          Created := created
          Ports := (portsToString ports).1
          Names := ctr.Name
          IsInfra := ctr.IsInfra
          Status := status
          State := conState
          Pid := pid
          Size := size
          Pod := pod
          ExitedAt := exitedAt
          CreatedAt := ctr.CreatedTime
          StartedAt := startedAt
          Labels := ctr.Labels
          Mounts := Join ctr.UserVolumes " " }
      let pso : PsContainerOutput :=
        match ns with
        | some ns =>
          { pso with
            Cgroup := ns.Cgroup
            IPC := ns.IPC
            MNT := ns.MNT
            NET := ns.NET
            User := ns.User
            UTS := ns.UTS
            PIDNS := ns.PIDNS }
        | none => pso
      Outcome.returned (pso, none)

/-! ### The worker pool of `PBatch`

`PBatch` starts goroutines that share three buffered channels and a `sync.WaitGroup`. The
model is the pool of these goroutines with what they share, moved on one goroutine step at a
time; which goroutine takes the next step, among those that can take one, is the choice of the
Go scheduler (`Env.schedule`). The three channels are made with room for one value per
container, so no send on them ever waits. A step takes a goroutine from one point where it
may have to wait, or where another goroutine may come in between, to the next: for a worker
the receive from `jobs`, then the call of the job with the send of what it returned and
`wg.Done()`; for the main goroutine `wg.Add(1)` with the send of a job, then `close(jobs)`,
then `wg.Wait()`. The workers are started before the first job is added and stand at their
receive. -/

/-- The closure type `batchFunc`: calling it gives the `(PsContainerOutput, error)` of a batch
read, or panics. -/
abbrev batchFunc := Unit → Outcome (PsContainerOutput × Option Error)

/-- Go `workerInput`: what travels on the `jobs` channel. -/
structure workerInput where
  parallelFunc : batchFunc
  opts : PsOptions
  cid : String
  job : Nat

/-- Where a `worker` goroutine stands: at the head of `for j := range jobs`, waiting to receive;
in the loop body with the job `j` it received, before the call `j.parallelFunc()`; or past the
loop, which ends when `jobs` is closed and empty. -/
inductive WorkerState where
  | receiving
  | running (j : workerInput)
  | exited

/-- A goroutine of `PBatch`: the one that called it, or the `w`-th worker it started. -/
inductive Goroutine where
  | main
  | worker (w : Nat)
  deriving DecidableEq, Repr

/-- The goroutines of one call of `PBatch` and what they share. -/
structure Pool where
  /-- the containers that the loop "Add jobs to the workers" has not reached yet, as jobs. -/
  pending : List workerInput
  /-- the values in the channel `jobs`, oldest first. -/
  jobs : List workerInput
  /-- whether `close(jobs)` has run. -/
  jobsClosed : Bool
  /-- the values in the channel `results`, oldest first. -/
  results : List PsContainerOutput
  /-- the values in the channel `batchErrors`, oldest first. -/
  batchErrors : List Error
  /-- the counter of the `sync.WaitGroup`. -/
  wg : Int
  /-- the worker goroutines. -/
  workers : List WorkerState
  /-- whether `wg.Wait()` has returned in the main goroutine. -/
  waited : Bool
  /-- the panic that ended the program, if any. -/
  panic : Option String
  /-- the batch reads that have ended so far (returned or panicked), in this order. -/
  calls : List RuntimeCall

/-- worker is a "threaded" worker that takes jobs from the channel "queue": one step of the
`w`-th worker. At the head of its loop it receives the oldest job, or leaves the loop when
`jobs` is closed and empty; in the loop body it calls `j.parallelFunc()`, sends the error on
`errors` if there is one and the result on `results` otherwise, and calls `wg.Done()`. -/
def worker (w : Nat) (p : Pool) : Pool :=
  match p.workers.getD w WorkerState.exited with
  | WorkerState.receiving =>
    match p.jobs with
    | j :: jobs => { p with jobs := jobs, workers := p.workers.set w (WorkerState.running j) }
    | [] =>
      if p.jobsClosed then { p with workers := p.workers.set w WorkerState.exited } else p
  | WorkerState.running j =>
    match j.parallelFunc () with
    | Outcome.returned (r, err) =>
      let p := { p with calls := p.calls ++ [RuntimeCall.Batch j.cid] }
      let p :=
        match err with
        -- If we find an error, we return just the error
        | some err => { p with batchErrors := p.batchErrors ++ [err] }
        -- Return the result
        | none => { p with results := p.results ++ [r] }
      { p with wg := p.wg - 1, workers := p.workers.set w WorkerState.receiving }
    | Outcome.panicked m =>
      { p with calls := p.calls ++ [RuntimeCall.Batch j.cid], panic := some m }
    | Outcome.blocked => p
  | WorkerState.exited => p

/-- One step of the main goroutine of `PBatch` after it has started the workers: it adds the
next job (`wg.Add(1)`, then the send on `jobs`), or closes `jobs` when all are added, or comes
back from `wg.Wait()` when the counter is zero. -/
def PBatch.main (p : Pool) : Pool :=
  match p.pending with
  | j :: pending => { p with wg := p.wg + 1, jobs := p.jobs ++ [j], pending := pending }
  | [] =>
    if p.jobsClosed = false then { p with jobsClosed := true }
    else if p.wg = 0 then { p with waited := true }
    else p

/-- Whether a goroutine can take a step: the main goroutine until it is back from
`wg.Wait()`, where it waits while the counter is not zero; a worker at the head of its loop
when `jobs` holds a job or is closed; a worker in the loop body when its call returns or
panics. -/
def Pool.canStep (p : Pool) : Goroutine → Bool
  | Goroutine.main =>
    match p.pending with
    | _ :: _ => true
    | [] => p.jobsClosed = false ∨ p.wg = 0
  | Goroutine.worker w =>
    match p.workers.getD w WorkerState.exited with
    | WorkerState.receiving =>
      match p.jobs with
      | _ :: _ => true
      | [] => p.jobsClosed
    | WorkerState.running j =>
      match j.parallelFunc () with
      | Outcome.blocked => false
      | _ => true
    | WorkerState.exited => false

/-- The goroutines that can take a step; none once the program has panicked or the main
goroutine is back from `wg.Wait()`, which is where the model stops looking. -/
def Pool.runnable (p : Pool) : List Goroutine :=
  if p.panic.isSome ∨ p.waited = true then []
  else
    (Goroutine.main :: (List.range p.workers.length).map Goroutine.worker).filter p.canStep

/-- The step of goroutine `g`. -/
def Pool.step (p : Pool) : Goroutine → Pool
  | Goroutine.main => PBatch.main p
  | Goroutine.worker w => worker w p

/-- The pool after `fuel` more steps, the `n`-th step being taken by the goroutine that the
scheduler picks among those that can take one; the pool stays as it is when none can. -/
def PBatch.exec (schedule : Nat → Nat) : Nat → Nat → Pool → Pool
  | 0, _, p => p
  | fuel + 1, n, p =>
    match p.runnable with
    | [] => p
    | g :: gs =>
      PBatch.exec schedule fuel (n + 1)
        (p.step ((g :: gs).getD (schedule n % (gs.length + 1)) g))

/-- The jobs that the loop "Add jobs to the workers" makes of the containers, the first with
the job number `i`. -/
def PBatch.inputs (env : Env) (opts : PsOptions) : Nat → List Container → List workerInput
  | _, [] => []
  | i, j :: containers =>
    { parallelFunc := fun _ => NewBatchContainer env j opts, opts := opts, cid := j.ID, job := i }
      :: PBatch.inputs env opts (i + 1) containers

/-- The pool of `PBatch` when the loop "Create the workers" has run: `workers` workers at most
one per container, each at the head of its loop, empty channels, and all jobs still to be
added. -/
def PBatch.pool (env : Env) (containers : List Container) (workers : Int) (opts : PsOptions) :
    Pool :=
  -- If the number of containers in question is less than the number of
  -- proposed parallel operations, we shouldnt spawn so many workers
  let workers := if (containers.length : Int) < workers then (containers.length : Int) else workers
  { pending := PBatch.inputs env opts 0 containers
    jobs := []
    jobsClosed := false
    results := []
    batchErrors := []
    wg := 0
    workers := List.replicate workers.toNat WorkerState.receiving
    waited := false
    panic := none
    calls := [] }

/-- PBatch performs batch operations on containers in parallel. It spawns the number of workers
relative to the number of parallel operations desired. The pool is run until no goroutine can
take a step: no run has more than three steps per container (add, receive, call), one per
worker (leaving the loop) and two of the main goroutine (close, wait). When the main goroutine
is back from `wg.Wait()` the errors are logged and the results are read off `results` in the
order in which they were sent; when it is not, the wait never ends. The second component
lists the batch reads that have ended (returned or panicked), in the order in which they
ended. -/
def PBatch (env : Env) (containers : List Container) (workers : Int) (opts : PsOptions) :
    Outcome (List PsContainerOutput) × List RuntimeCall :=
  let pool := PBatch.pool env containers workers opts
  let p := PBatch.exec env.schedule (3 * containers.length + pool.workers.length + 2) 0 pool
  match p.panic with
  | some m => (Outcome.panicked m, p.calls)
  | none =>
    if p.waited = true then
      (Outcome.returned (p.results.filter fun res =>
        -- We sort out running vs non-running here to save lots of copying later.
        if opts.All = false ∧ opts.Latest = false ∧ opts.Last < 1 then
          res.IsInfra = false ∧ res.State = ContainerStatus.ContainerStateRunning
        else true), p.calls)
    else (Outcome.blocked, p.calls)


/-! ### What the properties of the pool speak about -/

/-- The job that a worker is running, if it is running one. -/
def WorkerState.job : WorkerState → Option workerInput
  | WorkerState.running j => some j
  | _ => none

/-- The jobs in flight: received by a worker that has not finished with them. -/
def inFlight (workers : List WorkerState) : List workerInput :=
  workers.filterMap WorkerState.job

/-- The record that a job delivers on `results`, if its batch read succeeds. -/
def workerInput.record (j : workerInput) : Option PsContainerOutput :=
  match j.parallelFunc () with
  | Outcome.returned (r, none) => some r
  | _ => none

/-- The jobs that are not finished: in flight, in the channel `jobs`, or not yet added. -/
def Pool.unfinished (p : Pool) : List workerInput :=
  inFlight p.workers ++ (p.jobs ++ p.pending)

/-- The steps that a worker has before it: two when it is running a job (the call, and leaving
the loop), one when it is at the head of the loop, none when it has left the loop. -/
def WorkerState.stepsLeft : WorkerState → Nat
  | WorkerState.receiving => 1
  | WorkerState.running _ => 2
  | WorkerState.exited => 0

/-- A bound on the steps that a pool can still take: three for every job not yet added, two
for every job in the channel, those of the workers, one for `close(jobs)` and one for
`wg.Wait()`; none after a panic. -/
def Pool.stepsLeft (p : Pool) : Nat :=
  if p.panic.isSome then 0
  else
    3 * p.pending.length + 2 * p.jobs.length + (p.workers.map WorkerState.stepsLeft).sum
      + (if p.jobsClosed then 0 else 1) + (if p.waited then 0 else 1)

/-- The pool is in order, for the jobs `all` and `n` workers: nothing has panicked, there are
`n` workers, the counter of the WaitGroup counts the jobs in flight and in the channel, the
records on `results` together with those that the unfinished jobs will deliver are those of
all jobs, the batch reads made together with those of the unfinished jobs are those of all
jobs, nothing is left to add once `jobs` is closed, a worker has left its loop only if `jobs`
is closed and empty, the call of every unfinished job returns, and the main goroutine is back
from `wg.Wait()` only if nothing is left to add and the counter is zero. -/
def Pool.InOrder (all : List workerInput) (n : Nat) (p : Pool) : Prop :=
  p.panic = none ∧
  p.workers.length = n ∧
  p.wg = (((inFlight p.workers).length + p.jobs.length : Nat) : Int) ∧
  (p.results ++ p.unfinished.filterMap workerInput.record).Perm
    (all.filterMap workerInput.record) ∧
  (p.calls ++ p.unfinished.map fun j => RuntimeCall.Batch j.cid).Perm
    (all.map fun j => RuntimeCall.Batch j.cid) ∧
  (p.jobsClosed = true → p.pending = []) ∧
  (WorkerState.exited ∈ p.workers → p.jobs = [] ∧ p.jobsClosed = true) ∧
  (∀ j ∈ p.unfinished, ∃ res, j.parallelFunc () = Outcome.returned res) ∧
  (p.waited = true → p.pending = [] ∧ p.wg = 0)

/-- The states of a pool with one worker and the one job `j`: the job is still to be sent, or
is in the channel, or is with the worker (no call logged and nothing delivered so far); or the
job has panicked; or it has returned, its call is logged and its record, if the read
succeeded, is the one result delivered. -/
def Pool.Single (j : workerInput) (p : Pool) : Prop :=
  (p.panic = none ∧ p.waited = false ∧ p.calls = [] ∧ p.results = [] ∧
    (p.pending = [j] ∧ p.jobs = [] ∧ p.jobsClosed = false ∧ p.wg = 0
        ∧ p.workers = [WorkerState.receiving]
      ∨ p.pending = [] ∧ p.jobs = [j] ∧ p.wg = 1 ∧ p.workers = [WorkerState.receiving]
      ∨ p.pending = [] ∧ p.jobs = [] ∧ p.wg = 1 ∧ p.workers = [WorkerState.running j]))
  ∨ (∃ m, j.parallelFunc () = Outcome.panicked m ∧ p.panic = some m
      ∧ p.calls = [RuntimeCall.Batch j.cid])
  ∨ (∃ r err, j.parallelFunc () = Outcome.returned (r, err) ∧ p.panic = none ∧ p.pending = []
      ∧ p.jobs = [] ∧ p.wg = 0 ∧ p.calls = [RuntimeCall.Batch j.cid]
      ∧ p.results = (match err with
          | none => [r]
          | some _ => [])
      ∧ (p.workers = [WorkerState.receiving] ∨ p.workers = [WorkerState.exited]))


/-! ### Filters and `GetPsContainerOutput` -/

/-- The filter of `generateContainerFilterFuncs` for the key `label`. -/
def labelFilter (filterValue : String) : Container → Bool :=
  let filterArray := SplitN2 filterValue '='
  let filterKey := filterArray.getD 0 ""
  let filterValue := if 1 < filterArray.length then filterArray.getD 1 "" else ""
  fun c => c.Labels.any fun l =>
    decide (l.1 = filterKey ∧ ("" = filterValue ∨ l.2 = filterValue))

/-- The filter of `generateContainerFilterFuncs` for the key `status`. -/
def statusFilter (filterValue : String) : Container → Bool := fun c =>
  match c.State.2 with
  | some _ => false
  | none =>
    let status := c.State.1
    let filterValue := if filterValue = "stopped" then "exited" else filterValue
    let state :=
      if status = ContainerStatus.ContainerStateConfigured then "created"
      else if status = ContainerStatus.ContainerStateStopped then "exited"
      else status.String
    decide (state = filterValue)

/-- The filter of `generateContainerFilterFuncs` for the key `volume`. -/
def volumeFilter (filterValue : String) : Container → Bool := fun c =>
  let arr := Split filterValue ':'
  let source := arr.getD 0 ""
  let dest := if arr.length = 2 then arr.getD 1 "" else ""
  c.Config.Mounts.any fun mount =>
    decide ((dest ≠ "" ∧ (mount.Source = source ∧ mount.Destination = dest))
      ∨ (dest = "" ∧ mount.Source = source))

/-- generateContainerFilterFuncs: the predicate for one filter key and operand, or an error;
the second component lists the runtime calls made while compiling. -/
def generateContainerFilterFuncs (filter filterValue : String) (r : Runtime) :
    Except Error (Container → Bool) × List RuntimeCall :=
  if filter = "id" then
    (Except.ok fun c => Contains c.ID filterValue, [])
  else if filter = "label" then
    (Except.ok (labelFilter filterValue), [])
  else if filter = "name" then
    (Except.ok fun c => Contains c.Name filterValue, [])
  else if filter = "exited" then
    match ParseInt32 filterValue with
    | none =>
      (Except.error (Error.Wrapf (Error.external "strconv.ParseInt")
        ("exited code out of range \"" ++ filterValue ++ "\"")), [])
    | some exitCode =>
      (Except.ok fun c =>
        decide (c.ExitCode.1 = int32 exitCode ∧ c.ExitCode.2.2 = none ∧ c.ExitCode.2.1 = true),
        [])
  else if filter = "status" then
    if ¬ (StringInSlice filterValue
        ["created", "running", "paused", "stopped", "exited", "unknown"] = true) then
      (Except.error (Error.Errorf (filterValue ++ " is not a valid status")), [])
    else (Except.ok (statusFilter filterValue), [])
  else if filter = "ancestor" then
    (Except.ok fun c => Contains c.Config.RootfsImageID filterValue
      || Contains c.Config.RootfsImageName filterValue, [])
  else if filter = "before" then
    match r.LookupContainer filterValue with
    | Except.error _ =>
      (Except.error (Error.Errorf ("unable to find container by name or id of " ++ filterValue)),
        [RuntimeCall.LookupContainer filterValue])
    | Except.ok ctr =>
      let createTime := ctr.Config.CreatedTime
      -- `createTime.After(cc.CreatedTime)`
      (Except.ok fun c => decide (c.Config.CreatedTime < createTime),
        [RuntimeCall.LookupContainer filterValue])
  else if filter = "since" then
    match r.LookupContainer filterValue with
    | Except.error _ =>
      (Except.error (Error.Errorf ("unable to find container by name or id of " ++ filterValue)),
        [RuntimeCall.LookupContainer filterValue])
    | Except.ok ctr =>
      let createTime := ctr.Config.CreatedTime
      -- `createTime.Before(cc.CreatedTime)`
      (Except.ok fun c => decide (createTime < c.Config.CreatedTime),
        [RuntimeCall.LookupContainer filterValue])
  else if filter = "volume" then
    (Except.ok (volumeFilter filterValue), [])
  else if filter = "health" then
    (Except.ok fun c =>
      match c.HealthCheckStatus.2 with
      | some _ => false
      | none => decide (c.HealthCheckStatus.1 = filterValue), [])
  else
    (Except.error (Error.Errorf (filter ++ " is an invalid filter")), [])

/-- The loop of `GetPsContainerOutput` over the filter strings: the compiled predicates (added
to `filterFuncs`) or the error of the first string that fails, with the runtime calls made. -/
def GetPsContainerOutput.compile (r : Runtime) :
    List String → List (Container → Bool) →
      (List (Container → Bool) × Option Error) × List RuntimeCall
  | [], filterFuncs => ((filterFuncs, none), [])
  | f :: fs, filterFuncs =>
    let filterSplit := SplitN2 f '='
    if filterSplit.length < 2 then
      (([], some (Error.Errorf
        ("filter input must be in the form of filter=value: " ++ f ++ " is invalid"))), [])
    else
      match generateContainerFilterFuncs (filterSplit.getD 0 "") (filterSplit.getD 1 "") r with
      | (Except.error err, calls) => (([], some (Error.Wrapf err "invalid filter")), calls)
      | (Except.ok generatedFunc, calls) =>
        let (res, calls2) := GetPsContainerOutput.compile r fs (filterFuncs ++ [generatedFunc])
        (res, calls ++ calls2)

/-- GetPsContainerOutput returns a slice of containers specifically for ps output: the
`([]PsContainerOutput, error)` result, and the runtime calls made, in order. -/
def GetPsContainerOutput (env : Env) (r : Runtime) (opts : PsOptions) (filters : List String)
    (maxWorkers : Int) : Outcome (List PsContainerOutput × Option Error) × List RuntimeCall :=
  match GetPsContainerOutput.compile r filters [] with
  | ((_, some err), calls) => (Outcome.returned ([], some err), calls)
  | ((filterFuncs, none), calls) =>
    let sel : (List Container × Option Error) × List RuntimeCall :=
      if opts.Latest = false then
        -- Get all containers
        match r.GetContainers filterFuncs with
        | (_, some err) => (([], some err), [RuntimeCall.GetContainers])
        | (containers, none) =>
          -- We only want the last few containers
          if 0 < opts.Last ∧ opts.Last ≤ (containers.length : Int) then
            (([], some (Error.Errorf "--last not yet supported")), [RuntimeCall.GetContainers])
          else ((containers, none), [RuntimeCall.GetContainers])
      else
        -- Get just the latest container; ignore filters
        match r.GetLatestContainer with
        | Except.error err => (([], some err), [RuntimeCall.GetLatestContainer])
        | Except.ok latestCtr => (([latestCtr], none), [RuntimeCall.GetLatestContainer])
    match sel with
    | ((_, some err), calls2) => (Outcome.returned ([], some err), calls ++ calls2)
    | ((outputContainers, none), calls2) =>
      match PBatch env outputContainers maxWorkers opts with
      | (Outcome.returned pss, calls3) => (Outcome.returned (pss, none), calls ++ calls2 ++ calls3)
      | (Outcome.panicked m, calls3) => (Outcome.panicked m, calls ++ calls2 ++ calls3)
      | (Outcome.blocked, calls3) => (Outcome.blocked, calls ++ calls2 ++ calls3)


/-- The error with which the filter string `f`, taken alone, fails to compile (`none` when it
compiles). -/
def compileError (r : Runtime) (f : String) : Option Error :=
  (GetPsContainerOutput.compile r [f] []).1.2

/-- A runtime call made while compiling filters: a lookup of a reference container. -/
def RuntimeCall.isLookup : RuntimeCall → Bool
  | RuntimeCall.LookupContainer _ => true
  | _ => false

/-- The batch closure of `NewBatchContainer` succeeds on `ctr`: the lock is granted, and every
read whose error the closure returns succeeds (sync when requested, state, exit code, and the
pid when the namespace columns are requested). -/
def Container.readable (ctr : Container) (opts : PsOptions) : Prop :=
  ctr.BatchErr = none ∧ (opts.Sync = true → ctr.Sync = none) ∧ ctr.State.2 = none ∧
    ctr.ExitCode.2.2 = none ∧ (opts.Namespace = true → ctr.PID.2 = none)

/-- Go `err.Error()`: the message of an error; a wrapped error prints its own message, a
colon, and the message of its cause. -/
def Error.text : Error → String
  | Error.Errorf msg => msg
  | Error.Wrapf cause msg => msg ++ ": " ++ cause.text
  | Error.external msg => msg

/-! ### The properties in the words of the spec -/

namespace Spec

/-- The normalized state name of §4.1, in the words of the spec: the "configured" raw state
reports as "created", the "stopped" raw state reports as "exited", every other state under its
own name. -/
def normalizedState : ContainerStatus → String
  | ContainerStatus.ContainerStateConfigured => "created"
  | ContainerStatus.ContainerStateStopped => "exited"
  | s => s.String

/-- The value of a string of decimal digits. -/
def decimalValue (digits : List Char) : Nat :=
  Nat.ofDigits 10 (digits.reverse.map fun c => c.toNat - 48)

/-- The string `s` is a base-10 numeral of the signed 32-bit integer `n`: an optional sign `+`
or `-`, then one or more decimal digits, the value within `[-2^31, 2^31 - 1]`. -/
def IsInt32Numeral (s : String) (n : Int) : Prop :=
  ∃ sign digits : List Char, s.data = sign ++ digits ∧
    (sign = [] ∨ sign = ['+'] ∨ sign = ['-']) ∧
    digits ≠ [] ∧ (∀ c ∈ digits, c.isDigit = true) ∧
    n = (if sign = ['-'] then -(decimalValue digits : Int) else (decimalValue digits : Int)) ∧
    -2 ^ 31 ≤ n ∧ n < 2 ^ 31

/-- The derived status of §4.2 step 4, in the words of the spec. -/
def derivedStatus (env : Env) (state : ContainerStatus) (exitCode exitedAt startedAt : Int) :
    String :=
  match state with
  | ContainerStatus.ContainerStateExited | ContainerStatus.ContainerStateStopped =>
    "Exited (" ++ Itoa exitCode ++ ") " ++ env.HumanDuration (env.now - exitedAt) ++ " ago"
  | ContainerStatus.ContainerStateRunning =>
    "Up " ++ env.HumanDuration (env.now - startedAt) ++ " ago"
  | ContainerStatus.ContainerStatePaused => "Paused"
  | ContainerStatus.ContainerStateCreated | ContainerStatus.ContainerStateConfigured => "Created"
  | _ => "Error"

/-- The successfully read records of a candidate list: the record of every container whose
batch read returns without an error, in the order of the containers. -/
def successfulRecords (env : Env) (opts : PsOptions) (containers : List Container) :
    List PsContainerOutput :=
  containers.filterMap fun c =>
    match NewBatchContainer env c opts with
    | Outcome.returned (r, none) => some r
    | _ => none

/-- The sort key of §4.3 in the words of the spec: the tuple (containerPort, hostIP, hostPort,
protocol), ordered lexicographically. -/
def portOrderKey (v : PortMapping) : Lex (Int × Lex (String × Lex (Int × String))) :=
  toLex (v.ContainerPort, toLex (v.HostIP, toLex (v.HostPort, v.Protocol)))

/-- The host IP as it is displayed: an empty host IP is shown as `0.0.0.0`. -/
def shownIP (ip : String) : String := if ip = "" then "0.0.0.0" else ip

/-- The individual entry `<hostIP>:<hostPort>-><containerPort>/<proto>` of a mapping. -/
def portEntry (v : PortMapping) : String :=
  shownIP v.HostIP ++ ":" ++ Itoa v.HostPort ++ "->" ++ Itoa v.ContainerPort ++ "/" ++ v.Protocol

/-- The `n` mappings with host IP `ip`, protocol `proto` and
hostPort = containerPort = `p`, `p+1`, ..., `p+n-1`. -/
def consecutive (ip proto : String) (p : Int) (n : Nat) : List PortMapping :=
  (List.range n).map fun (i : Nat) => ⟨p + (i : Int), p + (i : Int), proto, ip⟩

/-- The group key of a mapping: displayed host IP and protocol. -/
def portKey (v : PortMapping) : String := shownIP v.HostIP ++ "/" ++ v.Protocol

/-- Among the mappings `E`, the ports `f .. l` are the maximal run of consecutive ports of the
key `k` that starts at the smallest port of that key. -/
def IsMaximalRun (E : List PortMapping) (k : String) (f l : Int) : Prop :=
  (∃ v ∈ E, portKey v = k ∧ v.ContainerPort = f) ∧
  (∀ v ∈ E, portKey v = k → f ≤ v.ContainerPort) ∧
  (∀ j, f ≤ j → j ≤ l → ∃ v ∈ E, portKey v = k ∧ v.ContainerPort = j) ∧
  (∀ v ∈ E, portKey v = k → v.ContainerPort ≠ l + 1)

/-- The open groups `groups` describe the mappings `E`: one group per key that occurs in `E`,
and the group of a key is the maximal run of consecutive ports starting at its smallest port. -/
def GroupsDescribe (E : List PortMapping) (groups : List (String × Int × Int)) : Prop :=
  (groups.map fun g => g.1).Nodup ∧
  (∀ k, k ∈ (groups.map fun g => g.1) ↔ ∃ v ∈ E, portKey v = k) ∧
  ∀ g ∈ groups, g.2.1 ≤ g.2.2 ∧ IsMaximalRun E g.1 g.2.1 g.2.2

/-- The batch read of `c` returns a record and no error. -/
def readSucceeds (env : Env) (opts : PsOptions) (c : Container) : Bool :=
  match NewBatchContainer env c opts with
  | Outcome.returned (_, none) => true
  | _ => false

end Spec

namespace Example

/-- A stand-in for the surroundings: the clock at 1000 ns, durations printed as a number of
nanoseconds, no namespace links. -/
def env : Env :=
  ⟨1000, fun d => toString d ++ " ns", fun _ => ⟨"", "", "", "", "", "", "", ""⟩, fun _ => 0⟩

/-- A running container named `web`. -/
def web : Container :=
  { ID := "0123456789abcdef"
    Name := "web"
    Labels := [("tier", "front=1")]
    Config := ⟨"f00d", "alpine", 10, []⟩
    State := (ContainerStatus.ContainerStateRunning, none)
    ExitCode := (0, false, none)
    HealthCheckStatus := ("", none)
    Command := ["top"]
    StartedTime := (20, none)
    FinishedTime := (0, none)
    PID := (42, none)
    RootFsSize := (0, none)
    RWSize := (0, none)
    Image := ("f00d", "alpine")
    PodID := ""
    PortMappings := ([], none)
    IsInfra := false
    UserVolumes := []
    Sync := none
    BatchErr := none }

/-- A runtime whose only container is `web`. -/
def runtime : Runtime :=
  ⟨Except.ok [web],
    fun n => if n = "web" then Except.ok web else Except.error (Error.external "no such container"),
    Except.ok web⟩

/-- Options of a plain `ps`, with `Last` set to `n`. -/
def last (n : Int) : PsOptions := ⟨false, "", n, false, false, false, false, false, "", false, false⟩

/-- A paused infra container whose state is read but whose exit code is not. -/
def infra : Container :=
  { web with
    ID := "aaaaaaaaaaaaaaaaaaaa"
    Name := "infra"
    State := (ContainerStatus.ContainerStatePaused, none)
    IsInfra := true }

/-- A container whose exit code cannot be read. -/
def broken : Container :=
  { web with
    ID := "bbbbbbbbbbbbbbbbbbbb"
    Name := "broken"
    ExitCode := (0, false, some (Error.external "no such exit file")) }

/-- An exited container with a long pod id and a long command. -/
def job : Container :=
  { web with
    ID := "cccccccccccccccccccc"
    Name := "job"
    State := (ContainerStatus.ContainerStateExited, none)
    ExitCode := (3, true, none)
    FinishedTime := (900, none)
    Command := ["sleep", "100000000000000"]
    PodID := "0123456789abcdef0123" }

/-- A container named `db`, created before `web`, with one volume. -/
def db : Container :=
  { web with
    ID := "fedcba9876543210"
    Name := "db"
    Labels := [("tier", "back")]
    Config := ⟨"f00d", "alpine", 5, [⟨"data", "/var/lib/db"⟩]⟩ }

/-- A mapping of host port `h` to container port `c` on tcp with no host IP. -/
def tcp (h c : Int) : PortMapping :=
  { HostPort := h, ContainerPort := c, Protocol := "tcp", HostIP := "" }

/-- A container like `web` whose ID has three characters. -/
def short : Container := { web with ID := "abc", Name := "short" }

/-- Surroundings like `env` in which every namespace link has a value of its own. -/
def envNs : Env :=
  ⟨1000, fun d => toString d ++ " ns",
    fun _ => ⟨"4026531836", "4026531835", "4026531839", "4026531840", "4026531992",
      "4026531836", "4026531837", "4026531838"⟩,
    fun _ => 0⟩

/-- Options of `ps` with the namespace columns and the sizes requested. -/
def nsOpts : PsOptions := { last 0 with Namespace := true, Size := true }

/-- Surroundings like `env` with another scheduler: of the goroutines that can take a step it
picks the first for the first five steps, the second for the next four, and the first from
then on. With three containers and two workers the main goroutine sends the three jobs and
closes the channel, the first worker receives the first job, and the second worker receives
and runs the other two before the first worker runs its own. -/
def envLate : Env := { env with schedule := fun n => [0, 0, 0, 0, 0, 1, 1, 1, 1].getD n 0 }

/-- Options of `ps --all`. -/
def all : PsOptions := { last 0 with All := true }

end Example

end Shared

/-! ## `pkg/varlinkapi/containers.go`: the `Ps` endpoint -/

namespace Varlinkapi

open Shared

/-- Modelled from the spec: the varlink reply record `iopodman.PsContainer`; its declaration is
not among the sources, the fields are those that `Ps` assigns. Times are carried as formatted
strings. -/
structure PsContainer where
  Id : String
  Image : String
  Command : String
  Created : String
  Ports : String
  Names : String
  IsInfra : Bool
  Status : String
  State : String
  PidNum : Int
  RootFsSize : Int
  RwSize : Int
  Pod : String
  CreatedAt : String
  ExitedAt : String
  StartedAt : String
  Labels : List (String × String)
  NsPid : String
  Cgroup : String
  Ipc : String
  Mnt : String
  Net : String
  PidNs : String
  User : String
  Uts : String
  Mounts : String
  deriving DecidableEq, Repr

/-- What the endpoint answers with: `call.ReplyErrorOccurred` or `call.ReplyPs`. -/
inductive Reply where
  | ErrorOccurred (reason : String)
  | Ps (containers : List PsContainer)
  deriving DecidableEq, Repr

/-- The body of the loop of `Ps`: the reply record built from one `PsContainerOutput`.
`formatTime` stands for `Format(time.RFC3339Nano)`; `ctr.Size` is a pointer, and reading its
fields panics when it is nil. -/
def Ps.container (formatTime : Int → String) (ctr : PsContainerOutput) : Outcome PsContainer :=
  match ctr.Size with
  | none => Outcome.panicked "invalid memory address or nil pointer dereference"
  | some size =>
    Outcome.returned
      { Id := ctr.ID
        Image := ctr.Image
        Command := ctr.Command
        Created := ctr.Created
        Ports := ctr.Ports
        Names := ctr.Names
        IsInfra := ctr.IsInfra
        Status := ctr.Status
        State := ctr.State.String
        PidNum := ctr.Pid
        RootFsSize := size.RootFsSize
        RwSize := size.RwSize
        Pod := ctr.Pod
        CreatedAt := formatTime ctr.CreatedAt
        ExitedAt := formatTime ctr.ExitedAt
        StartedAt := formatTime ctr.StartedAt
        Labels := ctr.Labels
        NsPid := ctr.PID
        Cgroup := ctr.Cgroup
        Ipc := ctr.Cgroup
        Mnt := ctr.MNT
        Net := ctr.NET
        PidNs := ctr.PIDNS
        User := ctr.User
        Uts := ctr.UTS
        Mounts := ctr.Mounts }

/-- The loop of `Ps` over the records, appending one reply record for each. -/
def Ps.containers (formatTime : Int → String) :
    List PsContainerOutput → Outcome (List PsContainer)
  | [] => Outcome.returned []
  | ctr :: rest =>
    match Ps.container formatTime ctr with
    | Outcome.returned container =>
      match Ps.containers formatTime rest with
      | Outcome.returned containers => Outcome.returned (container :: containers)
      | other => other
    | Outcome.panicked m => Outcome.panicked m
    | Outcome.blocked => Outcome.blocked

/-- Ps, the varlink endpoint `(*LibpodAPI).Ps`. The worker budget `shared.Parallelize("ps")`
and the options `makePsOpts(opts)` are computed by functions that are not among the sources
and are taken as they come; `filters` is `opts.Filters`, a pointer that may be nil. -/
def Ps (env : Env) (r : Runtime) (maxWorkers : Int) (psOpts : PsOptions)
    (optsFilters : Option (List String)) (formatTime : Int → String) : Outcome Reply :=
  let filters : List String :=
    match optsFilters with
    | some f => f
    | none => []
  match (GetPsContainerOutput env r psOpts filters maxWorkers).1 with
  | Outcome.returned (_, some err) => Outcome.returned (Reply.ErrorOccurred err.text)
  | Outcome.returned (psContainerOutputs, none) =>
    match Ps.containers formatTime psContainerOutputs with
    | Outcome.returned containers => Outcome.returned (Reply.Ps containers)
    | Outcome.panicked m => Outcome.panicked m
    | Outcome.blocked => Outcome.blocked
  | Outcome.panicked m => Outcome.panicked m
  | Outcome.blocked => Outcome.blocked

end Varlinkapi

/-! # Theorems -/

namespace Virtwriter

/-! ## Attach multiplexer: auxiliary facts -/

theorem byte_val (n : Nat) : (byte n).val = n % 256 := rfl

theorem Uint32_PutUint32 (v : Nat) (hv : v < 2 ^ 32) (rest : List Byte) :
    Uint32 (PutUint32 v ++ rest) = v := by
  simp only [Uint32, PutUint32, List.cons_append, List.nil_append, List.getD_cons_zero,
    List.getD_cons_succ, byte_val]
  omega

theorem uint32_of_lt (n : Nat) (h : n < 2 ^ 32) : uint32 n = n := Nat.mod_eq_of_lt h

theorem ReadFull_append (h rest : List Byte) :
    ReadFull (h ++ rest) h.length = ((h, none), rest) := by
  simp [ReadFull]

theorem ReadFull_header (h rest : List Byte) (hh : h.length = 8) :
    ReadFull (h ++ rest) 8 = ((h, none), rest) := by
  have := ReadFull_append h rest
  rwa [hh] at this

theorem ReadFull_short (r : List Byte) (n : Nat) (h : r.length < n) :
    ∃ bs err, ReadFull r n = ((bs, some err), []) := by
  unfold ReadFull
  rw [if_neg (by omega)]
  split
  · exact ⟨_, _, rfl⟩
  · exact ⟨_, _, rfl⟩

theorem CopyN_append (dst p rest : List Byte) :
    CopyN dst (p ++ rest) p.length = (none, dst ++ p, rest) := by
  simp [CopyN]

theorem CopyN_short (dst r : List Byte) (n : Nat) (h : r.length < n) :
    CopyN dst r n = (some Error.EOF, dst ++ r, []) := by
  unfold CopyN
  rw [if_neg (by omega)]

section loop
variable (unm : List Byte → Except String TerminalSize)

theorem ReaderLoop_stdout (fuel : Nat) (h p rest o e i : List Byte) (z : List TerminalSize)
    (hh : h.length = 8) (hd : IntToSocketDest (h.getD 0 0).val = ToStdout)
    (hp : Uint32 (h.drop 4) = p.length) :
    ReaderLoop unm (fuel + 1) ⟨h ++ (p ++ rest), o, e, i, z⟩
      = ReaderLoop unm fuel ⟨rest, o ++ p, e, i, z⟩ := by
  rw [ReaderLoop]
  simp only [ReadFull_header h _ hh, hh, hd, hp, CopyN_append]
  simp

theorem ReaderLoop_stderr (fuel : Nat) (h p rest o e i : List Byte) (z : List TerminalSize)
    (hh : h.length = 8) (hd : IntToSocketDest (h.getD 0 0).val = ToStderr)
    (hp : Uint32 (h.drop 4) = p.length) :
    ReaderLoop unm (fuel + 1) ⟨h ++ (p ++ rest), o, e, i, z⟩
      = ReaderLoop unm fuel ⟨rest, o, e ++ p, i, z⟩ := by
  rw [ReaderLoop]
  simp only [ReadFull_header h _ hh, hh, hd, hp, CopyN_append]
  simp [show ToStderr ≠ ToStdout by decide]

theorem ReaderLoop_stdin (fuel : Nat) (h p rest o e i : List Byte) (z : List TerminalSize)
    (hh : h.length = 8) (hd : IntToSocketDest (h.getD 0 0).val = ToStdin)
    (hp : Uint32 (h.drop 4) = p.length) :
    ReaderLoop unm (fuel + 1) ⟨h ++ (p ++ rest), o, e, i, z⟩
      = ReaderLoop unm fuel ⟨rest, o, e, i ++ p, z⟩ := by
  rw [ReaderLoop]
  simp only [ReadFull_header h _ hh, hh, hd, hp, CopyN_append]
  simp [show ToStdin ≠ ToStdout by decide, show ToStdin ≠ ToStderr by decide]

theorem ReaderLoop_resize (fuel : Nat) (h p rest o e i : List Byte) (z : List TerminalSize)
    (ev : TerminalSize)
    (hh : h.length = 8) (hd : IntToSocketDest (h.getD 0 0).val = TerminalResize)
    (hp : Uint32 (h.drop 4) = p.length) (hev : unm p = Except.ok ev) :
    ReaderLoop unm (fuel + 1) ⟨h ++ (p ++ rest), o, e, i, z⟩
      = ReaderLoop unm fuel ⟨rest, o, e, i, z ++ [ev]⟩ := by
  rw [ReaderLoop]
  simp only [ReadFull_header h _ hh, hh, hd, hp]
  by_cases h0 : 0 < p.length
  · simp [show TerminalResize ≠ ToStdout by decide, show TerminalResize ≠ ToStderr by decide,
      show TerminalResize ≠ ToStdin by decide, h0, ReadFull_append, hev]
  · have hnil : p = [] := List.eq_nil_of_length_eq_zero (by omega)
    subst hnil
    simp [show TerminalResize ≠ ToStdout by decide, show TerminalResize ≠ ToStderr by decide,
      show TerminalResize ≠ ToStdin by decide, hev]

theorem ReaderLoop_quit (fuel : Nat) (h p rest o e i : List Byte) (z : List TerminalSize)
    (hh : h.length = 8) (hd : IntToSocketDest (h.getD 0 0).val = Quit)
    (hp : Uint32 (h.drop 4) = p.length) :
    ReaderLoop unm (fuel + 1) ⟨h ++ (p ++ rest), o, e, i, z⟩
      = some (none, ⟨rest, o, e, i, z⟩) := by
  rw [ReaderLoop]
  simp only [ReadFull_header h _ hh, hh, hd, hp]
  by_cases h0 : 0 < p.length
  · simp [show Quit ≠ ToStdout by decide, show Quit ≠ ToStderr by decide,
      show Quit ≠ ToStdin by decide, show Quit ≠ TerminalResize by decide, h0, ReadFull_append]
  · have hnil : p = [] := List.eq_nil_of_length_eq_zero (by omega)
    subst hnil
    simp [show Quit ≠ ToStdout by decide, show Quit ≠ ToStderr by decide,
      show Quit ≠ ToStdin by decide, show Quit ≠ TerminalResize by decide]

end loop

theorem Frame.header_length (f : Frame) : f.header.length = 8 := rfl

theorem Frame.header_tag (f : Frame) : f.header.getD 0 0 = f.dest.toByte := rfl

theorem Frame.header_size (f : Frame) (h : f.payload.length < 2 ^ 32) :
    Uint32 (f.header.drop 4) = f.payload.length := by
  have := Uint32_PutUint32 (uint32 f.payload.length) (Nat.mod_lt _ (by decide)) []
  rw [uint32_of_lt _ h] at this
  simpa [Frame.header, uint32_of_lt _ h] using this

theorem Frame.wire_length_pos (f : Frame) : 1 ≤ f.wire.length := by
  simp only [Frame.wire, List.length_append, Frame.header_length]
  omega

theorem flatMap_wire_length (frames : List Frame) :
    frames.length ≤ (frames.flatMap Frame.wire).length := by
  induction frames with
  | nil => simp
  | cons f fs ih =>
    have := Frame.wire_length_pos f
    simp only [List.flatMap_cons, List.length_append, List.length_cons]
    omega

theorem payloadsFor_cons (d : SocketDest) (f : Frame) (fs : List Frame) :
    payloadsFor d (f :: fs) = (if f.dest = d then f.payload else []) ++ payloadsFor d fs := by
  unfold payloadsFor
  by_cases h : f.dest = d <;> simp [List.filter_cons, h]

section loop
variable (unm : List Byte → Except String TerminalSize)

theorem resizeEvents_cons (f : Frame) (fs : List Frame) :
    resizeEvents unm (f :: fs) =
      (if f.dest = TerminalResize then
        match unm f.payload with
        | Except.ok ev => [ev]
        | Except.error _ => []
      else []) ++ resizeEvents unm fs := by
  simp [resizeEvents]

theorem ReaderLoop_frames (frames : List Frame)
    (hwf : ∀ f ∈ frames, f.wellFormed unm) (q : Frame) (hq : q.dest = Quit)
    (hql : q.payload.length < 2 ^ 32) (rest : List Byte) :
    ∀ (k : Nat) (o e i : List Byte) (z : List TerminalSize),
      ReaderLoop unm (k + frames.length + 1)
          ⟨frames.flatMap Frame.wire ++ (q.wire ++ rest), o, e, i, z⟩
        = some (none, ⟨rest, o ++ payloadsFor ToStdout frames, e ++ payloadsFor ToStderr frames,
            i ++ payloadsFor ToStdin frames, z ++ resizeEvents unm frames⟩) := by
  induction frames with
  | nil =>
    intro k o e i z
    have hd : IntToSocketDest (q.header.getD 0 0).val = Quit := by
      rw [Frame.header_tag, hq]; decide
    simpa [Frame.wire, payloadsFor, resizeEvents] using
      ReaderLoop_quit unm k q.header q.payload rest o e i z q.header_length hd
        (Frame.header_size q hql)
  | cons f fs ih =>
    intro k o e i z
    have hf := hwf f (List.mem_cons_self _ _)
    have ih' := ih (fun g hg => hwf g (List.mem_cons_of_mem _ hg))
    have hstream : (f :: fs).flatMap Frame.wire ++ (q.wire ++ rest)
        = f.header ++ (f.payload ++ (fs.flatMap Frame.wire ++ (q.wire ++ rest))) := by
      simp [Frame.wire, List.append_assoc]
    have hfuel : k + (f :: fs).length + 1 = (k + fs.length + 1) + 1 := by
      simp only [List.length_cons]; omega
    rw [hstream, hfuel]
    simp only [payloadsFor_cons, resizeEvents_cons]
    obtain ⟨hlen, hdest⟩ := hf
    have hsz := Frame.header_size f hlen
    rcases hdest with hd | hd | hd | ⟨hd, ev, hev⟩
    · have hd' : IntToSocketDest (f.header.getD 0 0).val = ToStdout := by
        rw [Frame.header_tag, hd]; decide
      rw [ReaderLoop_stdout unm _ _ _ _ o e i z f.header_length hd' hsz, ih']
      simp [hd, show ToStdout ≠ ToStderr by decide, show ToStdout ≠ ToStdin by decide,
        show ToStdout ≠ TerminalResize by decide]
    · have hd' : IntToSocketDest (f.header.getD 0 0).val = ToStderr := by
        rw [Frame.header_tag, hd]; decide
      rw [ReaderLoop_stderr unm _ _ _ _ o e i z f.header_length hd' hsz, ih']
      simp [hd, show ToStderr ≠ ToStdout by decide, show ToStderr ≠ ToStdin by decide,
        show ToStderr ≠ TerminalResize by decide]
    · have hd' : IntToSocketDest (f.header.getD 0 0).val = ToStdin := by
        rw [Frame.header_tag, hd]; decide
      rw [ReaderLoop_stdin unm _ _ _ _ o e i z f.header_length hd' hsz, ih']
      simp [hd, show ToStdin ≠ ToStdout by decide, show ToStdin ≠ ToStderr by decide,
        show ToStdin ≠ TerminalResize by decide]
    · have hd' : IntToSocketDest (f.header.getD 0 0).val = TerminalResize := by
        rw [Frame.header_tag, hd]; decide
      rw [ReaderLoop_resize unm _ _ _ _ o e i z ev f.header_length hd' hsz hev, ih']
      simp [hd, hev, show TerminalResize ≠ ToStdout by decide,
        show TerminalResize ≠ ToStderr by decide, show TerminalResize ≠ ToStdin by decide]

end loop

/-! ## Attach multiplexer: the writer -/

theorem Write_calls (w : BufioWriter) (d : SocketDest) (p : List Byte) :
    (VirtWriteCloser.Write ⟨w, d⟩ p).2.writer.calls
      = w.calls ++ WriterCall.Write ([d.toByte, 0, 0, 0] ++ PutUint32 (uint32 p.length) ++ p)
          :: (if w.writeErr = none then [WriterCall.Flush] else []) := by
  cases hw : w.writeErr <;>
    simp [VirtWriteCloser.Write, BufioWriter.Write, BufioWriter.Flush, hw]

/-- C1: for each of the five destinations `d` with its tag `t` (Stdout 0, Stdin 1, Stderr 2,
Resize 3, Quit 4) and every payload `p` shorter than `2 ^ 32` bytes, `Write` hands the writer,
in a single `Write` call, the `8 + len p` bytes `t, 0, 0, 0, b4, b5, b6, b7` followed by `p`,
where `b4 .. b7` is the big-endian encoding of `len p`; the call that follows is `Flush`
(it is skipped only if the writer rejected the buffer). -/
theorem Write_frame_layout (d : SocketDest) (t : Byte)
    (hd : (d, t) ∈ [(ToStdout, 0), (ToStdin, 1), (ToStderr, 2), (TerminalResize, 3), (Quit, 4)])
    (p : List Byte) (hp : p.length < 2 ^ 32) (w : BufioWriter) :
    ∃ b4 b5 b6 b7 : Byte,
      b4.val * 2 ^ 24 + b5.val * 2 ^ 16 + b6.val * 2 ^ 8 + b7.val = p.length ∧
      ([t, 0, 0, 0, b4, b5, b6, b7] ++ p).length = 8 + p.length ∧
      (VirtWriteCloser.Write ⟨w, d⟩ p).2.writer.calls
        = w.calls ++ WriterCall.Write ([t, 0, 0, 0, b4, b5, b6, b7] ++ p)
            :: (if w.writeErr = none then [WriterCall.Flush] else []) := by
  have ht : d.toByte = t := by
    simp only [List.mem_cons, Prod.mk.injEq, List.mem_singleton, List.mem_nil_iff, or_false] at hd
    rcases hd with ⟨h1, h2⟩ | ⟨h1, h2⟩ | ⟨h1, h2⟩ | ⟨h1, h2⟩ | ⟨h1, h2⟩ <;>
      (subst h1 h2; rfl)
  refine ⟨byte (p.length / 2 ^ 24), byte (p.length / 2 ^ 16), byte (p.length / 2 ^ 8),
    byte p.length, ?_, ?_, ?_⟩
  · simp only [byte_val]; omega
  · simp only [List.length_append, List.length_cons, List.length_nil]
  · rw [Write_calls, ht, uint32_of_lt _ hp]
    rfl

/-- Witness for C1: the frame written for stdout and the payload "hello". -/
theorem Write_frame_layout_witness :
    ∃ b4 b5 b6 b7 : Byte,
      b4.val * 2 ^ 24 + b5.val * 2 ^ 16 + b6.val * 2 ^ 8 + b7.val
          = ([104, 101, 108, 108, 111] : List Byte).length ∧
      ([0, 0, 0, 0, b4, b5, b6, b7] ++ ([104, 101, 108, 108, 111] : List Byte)).length
          = 8 + ([104, 101, 108, 108, 111] : List Byte).length ∧
      (VirtWriteCloser.Write ⟨⟨[], none, none⟩, ToStdout⟩ [104, 101, 108, 108, 111]).2.writer.calls
        = ([] : List WriterCall)
            ++ WriterCall.Write ([0, 0, 0, 0, b4, b5, b6, b7] ++ [104, 101, 108, 108, 111])
            :: (if (none : Option Error) = none then [WriterCall.Flush] else []) :=
  Write_frame_layout ToStdout 0 (by decide) [104, 101, 108, 108, 111] (by decide)
    ⟨[], none, none⟩


/-! ## Attach multiplexer: the reader -/

section reader
variable (unm : List Byte → Except String TerminalSize)

theorem Write_written (w : BufioWriter) (d : SocketDest) (p : List Byte) :
    (VirtWriteCloser.Write ⟨w, d⟩ p).2.writer.written
      = w.written ++ (Frame.mk d (0, 0, 0) p).wire := by
  unfold BufioWriter.written
  rw [Write_calls]
  cases hw : w.writeErr <;> simp [Frame.wire, Frame.header]

theorem Reader_fuel (s : ReaderState) (n : Nat) (hn : n ≤ s.r.length) :
    ∃ k, Reader unm s = ReaderLoop unm (k + n + 1) s := by
  obtain ⟨k, hk⟩ := Nat.exists_eq_add_of_le hn
  refine ⟨k, ?_⟩
  unfold Reader
  rw [hk, Nat.add_comm n k]

theorem stream_length (frames : List Frame) (tail : List Byte) :
    frames.length ≤ (frames.flatMap Frame.wire ++ tail).length := by
  have := flatMap_wire_length frames
  simp only [List.length_append]
  omega

/-- C7: for every finite sequence of well-formed frames addressed to stdout, stderr, stdin or
resize (with a payload that deserializes), followed by one Quit frame, `Reader` returns `nil`;
each sink has received exactly the payloads addressed to it, concatenated in arrival order, and
the resize channel the decoded records in arrival order. Bytes after the Quit frame stay
unread. -/
theorem Reader_frames_in_order (frames : List Frame)
    (hwf : ∀ f ∈ frames, f.wellFormed unm) (q : Frame) (hq : q.dest = Quit)
    (hql : q.payload.length < 2 ^ 32) (rest o e i : List Byte) (z : List TerminalSize) :
    Reader unm ⟨frames.flatMap Frame.wire ++ (q.wire ++ rest), o, e, i, z⟩
      = some (none, ⟨rest, o ++ payloadsFor ToStdout frames, e ++ payloadsFor ToStderr frames,
          i ++ payloadsFor ToStdin frames, z ++ resizeEvents unm frames⟩) := by
  obtain ⟨k, hk⟩ := Reader_fuel unm
    ⟨frames.flatMap Frame.wire ++ (q.wire ++ rest), o, e, i, z⟩ frames.length
    (stream_length frames _)
  rw [hk]
  exact ReaderLoop_frames unm frames hwf q hq hql rest k o e i z

/-- C2: for a destination `t` among stdout, stderr, stdin and a payload `p` shorter than
`2 ^ 32`, the bytes a healthy writer receives from `Write(t, p)` followed by a Quit frame make
`Reader` deliver exactly `p` to the sink of `t`, nothing to the other sinks and nothing on the
resize channel, and return `nil`; the frame itself decodes to destination `t`, length `len p`
and payload `p`. -/
theorem Write_Reader_roundtrip (t : SocketDest) (ht : t ∈ [ToStdout, ToStderr, ToStdin])
    (p : List Byte) (hp : p.length < 2 ^ 32) (q : List Byte) (hq : q.length < 2 ^ 32)
    (o e i : List Byte) (z : List TerminalSize) :
    (Reader unm
        ⟨((VirtWriteCloser.Write
            ⟨(VirtWriteCloser.Write ⟨⟨[], none, none⟩, t⟩ p).2.writer, Quit⟩ q).2.writer).written,
          o, e, i, z⟩
      = some (none, ⟨[], o ++ (if t = ToStdout then p else []),
          e ++ (if t = ToStderr then p else []), i ++ (if t = ToStdin then p else []), z⟩)) ∧
    IntToSocketDest
        (((VirtWriteCloser.Write ⟨⟨[], none, none⟩, t⟩ p).2.writer.written).getD 0 0).val = t ∧
    Uint32 (((VirtWriteCloser.Write ⟨⟨[], none, none⟩, t⟩ p).2.writer.written).drop 4)
      = p.length ∧
    ((VirtWriteCloser.Write ⟨⟨[], none, none⟩, t⟩ p).2.writer.written).drop 8 = p := by
  have hw0 : (BufioWriter.mk [] none none).written = [] := rfl
  have hdec : IntToSocketDest t.toByte.val = t := by
    simp only [List.mem_cons, List.mem_singleton, List.mem_nil_iff, or_false] at ht
    rcases ht with h | h | h <;> (subst h; decide)
  refine ⟨?_, ?_, ?_, ?_⟩
  · rw [Write_written, Write_written, hw0]
    have hwf : ∀ f ∈ [Frame.mk t (0, 0, 0) p], f.wellFormed unm := by
      intro f hf
      simp only [List.mem_singleton] at hf
      subst hf
      refine ⟨hp, ?_⟩
      simp only [List.mem_cons, List.mem_singleton, List.mem_nil_iff, or_false] at ht
      rcases ht with h | h | h
      · exact Or.inl h
      · exact Or.inr (Or.inl h)
      · exact Or.inr (Or.inr (Or.inl h))
    obtain ⟨k, hk⟩ := Reader_fuel unm
      ⟨[Frame.mk t (0, 0, 0) p].flatMap Frame.wire ++ ((Frame.mk Quit (0, 0, 0) q).wire ++ []),
        o, e, i, z⟩ [Frame.mk t (0, 0, 0) p].length (stream_length _ _)
    have := ReaderLoop_frames unm [Frame.mk t (0, 0, 0) p] hwf (Frame.mk Quit (0, 0, 0) q)
      rfl hq [] k o e i z
    rw [← hk] at this
    simp only [List.flatMap_cons, List.flatMap_nil, List.append_nil, payloadsFor_cons,
      resizeEvents_cons] at this
    rw [List.nil_append, this]
    simp only [List.mem_cons, List.mem_singleton, List.mem_nil_iff, or_false] at ht
    rcases ht with h | h | h <;> subst h <;>
      simp [payloadsFor, resizeEvents, show ToStdout ≠ TerminalResize by decide,
        show ToStderr ≠ TerminalResize by decide, show ToStdin ≠ TerminalResize by decide,
        show ToStdout ≠ ToStderr by decide, show ToStdout ≠ ToStdin by decide,
        show ToStderr ≠ ToStdout by decide, show ToStderr ≠ ToStdin by decide,
        show ToStdin ≠ ToStdout by decide, show ToStdin ≠ ToStderr by decide]
  · rw [Write_written, hw0]
    exact hdec
  · rw [Write_written, hw0]
    have h := Frame.header_size (Frame.mk t (0, 0, 0) p) hp
    simpa [Frame.wire, Frame.header] using h
  · rw [Write_written, hw0]
    simp [Frame.wire, Frame.header, PutUint32]

end reader

/-- Witness for C2: stdout and the payload "hello", followed by an empty Quit frame. -/
theorem Write_Reader_roundtrip_witness :
    (Reader (fun _ => Except.error "not a terminal size")
        ⟨[0, 0, 0, 0, 0, 0, 0, 5, 104, 101, 108, 108, 111, 4, 0, 0, 0, 0, 0, 0, 0], [], [], [], []⟩
      = some (none, ⟨[], [104, 101, 108, 108, 111], [], [], []⟩)) ∧
    IntToSocketDest
        (([0, 0, 0, 0, 0, 0, 0, 5, 104, 101, 108, 108, 111] : List Byte).getD 0 0).val
      = ToStdout ∧
    Uint32 (([0, 0, 0, 0, 0, 0, 0, 5, 104, 101, 108, 108, 111] : List Byte).drop 4) = 5 ∧
    ([0, 0, 0, 0, 0, 0, 0, 5, 104, 101, 108, 108, 111] : List Byte).drop 8
      = [104, 101, 108, 108, 111] :=
  Write_Reader_roundtrip (fun _ => Except.error "not a terminal size") ToStdout (by decide)
    [104, 101, 108, 108, 111] (by decide) [] (by decide) [] [] [] []

/-- Witness for C7: stdout "hi", a resize frame, stderr "e", stdout "!", then Quit and two
further bytes. -/
theorem Reader_frames_in_order_witness :
    Reader (fun b => if b = [1] then Except.ok ⟨80, 24⟩ else Except.error "not a terminal size")
        ⟨[0, 0, 0, 0, 0, 0, 0, 2, 104, 105,
          3, 0, 0, 0, 0, 0, 0, 1, 1,
          2, 0, 0, 0, 0, 0, 0, 1, 101,
          0, 7, 7, 7, 0, 0, 0, 1, 33,
          4, 0, 0, 0, 0, 0, 0, 0,
          9, 9], [], [], [], []⟩
      = some (none, ⟨[9, 9], [104, 105, 33], [101], [], [⟨80, 24⟩]⟩) :=
  Reader_frames_in_order
    (fun b => if b = [1] then Except.ok ⟨80, 24⟩ else Except.error "not a terminal size")
    [⟨ToStdout, (0, 0, 0), [104, 105]⟩, ⟨TerminalResize, (0, 0, 0), [1]⟩,
      ⟨ToStderr, (0, 0, 0), [101]⟩, ⟨ToStdout, (7, 7, 7), [33]⟩]
    (by
      intro f hf
      simp only [List.mem_cons, List.mem_singleton, List.mem_nil_iff, or_false] at hf
      rcases hf with h | h | h | h <;> subst h
      · exact ⟨by decide, Or.inl rfl⟩
      · exact ⟨by decide, Or.inr (Or.inr (Or.inr ⟨rfl, ⟨80, 24⟩, rfl⟩))⟩
      · exact ⟨by decide, Or.inr (Or.inl rfl)⟩
      · exact ⟨by decide, Or.inl rfl⟩)
    ⟨Quit, (0, 0, 0), []⟩ rfl (by decide) [9, 9] [] [] [] []


section reader
variable (unm : List Byte → Except String TerminalSize)

theorem IntToSocketDest_cases (n : Int) :
    IntToSocketDest n ∈ [ToStdout, ToStderr, ToStdin, TerminalResize, Quit] := by
  unfold IntToSocketDest
  split_ifs <;> simp

/-- Every tag byte above 4 takes the `default` arm of `IntToSocketDest`, which is `ToStderr`. -/
theorem IntToSocketDest_unknown (b : Byte) (hb : 4 < b.val) :
    IntToSocketDest b.val = ToStderr := by
  have h0 : ((b.val : Nat) : Int) ≠ 0 := by omega
  have h1 : ((b.val : Nat) : Int) ≠ 1 := by omega
  have h2 : ((b.val : Nat) : Int) ≠ 2 := by omega
  have h3 : ((b.val : Nat) : Int) ≠ 3 := by omega
  have h4 : ((b.val : Nat) : Int) ≠ 4 := by omega
  simp [IntToSocketDest, SocketDest.Int, ToStdout, ToStderr, ToStdin, TerminalResize, Quit,
    h0, h1, h2, h3, h4]

/-- C3 (the code at a failing input): a frame whose tag byte is 7, with the one payload byte
`104`, followed by a Quit frame. `Reader` does not return the "unknown destination" error: it
copies the payload to the stderr sink and goes on to the Quit frame, returning `nil`. -/
theorem Reader_unknown_tag_written_to_stderr :
    ∀ jsonUnmarshal : List Byte → Except String TerminalSize,
      Reader jsonUnmarshal
          ⟨[7, 0, 0, 0, 0, 0, 0, 1, 104, 4, 0, 0, 0, 0, 0, 0, 0], [], [], [], []⟩
        = some (none, ⟨[], [], [104], [], []⟩) :=
  fun _ => rfl

/-- C4: when the header at a frame boundary decodes to Quit with length `L` and at least `L`
bytes follow, `Reader` returns `nil`; exactly the header and those `L` bytes have been consumed,
whatever follows is left unread, and no sink and no resize channel has changed. -/
theorem Reader_quit_stops (h rest : List Byte) (hh : h.length = 8)
    (hd : IntToSocketDest (h.getD 0 0).val = Quit)
    (hL : Uint32 (h.drop 4) ≤ rest.length) (o e i : List Byte) (z : List TerminalSize) :
    Reader unm ⟨h ++ rest, o, e, i, z⟩
      = some (none, ⟨rest.drop (Uint32 (h.drop 4)), o, e, i, z⟩) := by
  have hsplit : rest = rest.take (Uint32 (h.drop 4)) ++ rest.drop (Uint32 (h.drop 4)) :=
    (List.take_append_drop _ _).symm
  have hp : Uint32 (h.drop 4) = (rest.take (Uint32 (h.drop 4))).length := by
    rw [List.length_take]; omega
  unfold Reader
  simp only []
  conv_lhs => rw [hsplit]
  exact ReaderLoop_quit unm _ h _ _ o e i z hh hd hp

/-- Witness for C4: a Quit frame of length 2 followed by what looks like a stdout frame. -/
theorem Reader_quit_stops_witness :
    Reader (fun _ => Except.error "not a terminal size")
        ⟨[4, 0, 0, 0, 0, 0, 0, 2] ++ [1, 2, 0, 0, 0, 0, 0, 0, 0, 1, 65], [5], [6], [7], []⟩
      = some (none, ⟨[0, 0, 0, 0, 0, 0, 0, 1, 65], [5], [6], [7], []⟩) :=
  Reader_quit_stops (fun _ => Except.error "not a terminal size") [4, 0, 0, 0, 0, 0, 0, 2]
    [1, 2, 0, 0, 0, 0, 0, 0, 0, 1, 65] rfl (by decide) (by decide) [5] [6] [7] []

/-- C5: when the header at a frame boundary decodes to one of the five destinations with a
length field `n > 0` and fewer than `n` bytes remain before the end of the input, `Reader`
returns, with a non-nil error, having read the input to its end. -/
theorem Reader_truncated_payload (h rest : List Byte) (hh : h.length = 8)
    (hd : IntToSocketDest (h.getD 0 0).val ∈ [ToStdout, ToStderr, ToStdin, TerminalResize, Quit])
    (hn : 0 < Uint32 (h.drop 4)) (hshort : rest.length < Uint32 (h.drop 4))
    (o e i : List Byte) (z : List TerminalSize) :
    ∃ err st, Reader unm ⟨h ++ rest, o, e, i, z⟩ = some (some err, st) ∧ st.r = [] := by
  unfold Reader
  simp only []
  rw [ReaderLoop]
  simp only [ReadFull_header h _ hh, hh, CopyN_short _ _ _ hshort]
  obtain ⟨bs, err, hrf⟩ := ReadFull_short rest _ hshort
  simp only [List.mem_cons, List.mem_singleton, List.mem_nil_iff, or_false] at hd
  rcases hd with hd | hd | hd | hd | hd <;> rw [hd]
  · exact ⟨Error.EOF, ⟨[], o ++ rest, e, i, z⟩, by simp, rfl⟩
  · exact ⟨Error.EOF, ⟨[], o, e ++ rest, i, z⟩, by simp [show ToStderr ≠ ToStdout by decide], rfl⟩
  · exact ⟨Error.EOF, ⟨[], o, e, i ++ rest, z⟩,
      by simp [show ToStdin ≠ ToStdout by decide, show ToStdin ≠ ToStderr by decide], rfl⟩
  · refine ⟨err, ⟨[], o, e, i, z⟩, ?_, rfl⟩
    simp [show TerminalResize ≠ ToStdout by decide, show TerminalResize ≠ ToStderr by decide,
      show TerminalResize ≠ ToStdin by decide, hn, hrf]
  · refine ⟨err, ⟨[], o, e, i, z⟩, ?_, rfl⟩
    simp [show Quit ≠ ToStdout by decide, show Quit ≠ ToStderr by decide,
      show Quit ≠ ToStdin by decide, show Quit ≠ TerminalResize by decide, hn, hrf]

/-- Witness for C5: a stdout header claiming 100 bytes, followed by only 10. -/
theorem Reader_truncated_payload_witness :
    ∃ err st,
      Reader (fun _ => Except.error "not a terminal size")
          ⟨[0, 0, 0, 0, 0, 0, 0, 100] ++ [1, 2, 3, 4, 5, 6, 7, 8, 9, 10], [], [], [], []⟩
        = some (some err, st) ∧ st.r = [] :=
  Reader_truncated_payload (fun _ => Except.error "not a terminal size")
    [0, 0, 0, 0, 0, 0, 0, 100] [1, 2, 3, 4, 5, 6, 7, 8, 9, 10] rfl (by decide) (by decide)
    (by decide) [] [] [] []

/-- C6: when fewer than eight bytes remain at a frame boundary, `Reader` returns a non-nil
error and leaves every sink and the resize channel as they were. -/
theorem Reader_short_header (s : ReaderState) (h : s.r.length < 8) :
    ∃ err, Reader unm s = some (some err, { s with r := [] }) := by
  obtain ⟨bs, err, hrf⟩ := ReadFull_short s.r 8 h
  refine ⟨err, ?_⟩
  unfold Reader
  rw [ReaderLoop]
  simp [hrf]

/-- Witness for C6: three bytes remain. -/
theorem Reader_short_header_witness :
    ∃ err, Reader (fun _ => Except.error "not a terminal size") ⟨[0, 0, 0], [1], [2], [3], []⟩
      = some (some err, ⟨[], [1], [2], [3], []⟩) :=
  Reader_short_header (fun _ => Except.error "not a terminal size") ⟨[0, 0, 0], [1], [2], [3], []⟩
    (by decide)

end reader

/-! ## Attach multiplexer: the loop returns, and its `default` arm is dead -/

section total
variable (unm : List Byte → Except String TerminalSize)

theorem ReadFull_length_le (r : List Byte) (n : Nat) : (ReadFull r n).2.length ≤ r.length := by
  unfold ReadFull
  split_ifs <;> simp

theorem ReadFull_ok_length (r : List Byte) (n : Nat) (h : (ReadFull r n).1.2 = none) :
    (ReadFull r n).2.length + n = r.length ∧ (ReadFull r n).1.1.length = n := by
  unfold ReadFull at h ⊢
  split_ifs at h ⊢ with h1 h2
  refine ⟨?_, ?_⟩ <;> simp <;> omega

theorem ReadFull_err_ne (r : List Byte) (n : Nat) :
    (ReadFull r n).1.2 ≠ some Error.unknownDestination := by
  unfold ReadFull
  split_ifs <;> simp

theorem CopyN_length_le (dst r : List Byte) (n : Nat) : (CopyN dst r n).2.2.length ≤ r.length := by
  unfold CopyN
  split_ifs <;> simp

theorem CopyN_err_ne (dst r : List Byte) (n : Nat) :
    (CopyN dst r n).1 ≠ some Error.unknownDestination := by
  unfold CopyN
  split_ifs <;> simp

/-- With more fuel than unread bytes the loop of `Reader` returns. -/
theorem ReaderLoop_isSome : ∀ (fuel : Nat) (s : ReaderState), s.r.length < fuel →
    (ReaderLoop unm fuel s).isSome = true := by
  intro fuel
  induction fuel with
  | zero => intro s h; omega
  | succ fuel ih =>
    intro s hlen
    rw [ReaderLoop]
    have h8 := ReadFull_length_le s.r 8
    have h8ok := ReadFull_ok_length s.r 8
    cases hrf : ReadFull s.r 8 with
    | mk rd r1 =>
      rw [hrf] at h8 h8ok
      simp only at h8 h8ok ⊢
      cases hrd : rd.2 with
      | some err => simp
      | none =>
        have hr1 : r1.length < fuel := by have := (h8ok hrd).1; omega
        simp only
        split_ifs
        · rfl
        · have hc := CopyN_length_le s.output r1 (Uint32 (List.drop 4 rd.1))
          split
          · rfl
          · rename_i out r2 heq
            rw [heq] at hc
            exact ih _ (by simp only; simp only at hc; omega)
        · have hc := CopyN_length_le s.errput r1 (Uint32 (List.drop 4 rd.1))
          split
          · rfl
          · rename_i out r2 heq
            rw [heq] at hc
            exact ih _ (by simp only; simp only at hc; omega)
        · have hc := CopyN_length_le s.input r1 (Uint32 (List.drop 4 rd.1))
          split
          · rfl
          · rename_i out r2 heq
            rw [heq] at hc
            exact ih _ (by simp only; simp only at hc; omega)
        · have hc := ReadFull_length_le r1 (Uint32 (List.drop 4 rd.1))
          split
          · rfl
          · split
            · rfl
            · exact ih _ (by simp only; omega)
        · split
          · rfl
          · split
            · rfl
            · exact ih _ (by simp only; omega)
        · split <;> rfl
        · split <;> rfl
        · rfl

/-- Reader returns on every input. -/
theorem Reader_returns (s : ReaderState) : (Reader unm s).isSome = true :=
  ReaderLoop_isSome unm _ s (Nat.lt_succ_self _)

/-- The `default` arm of the `switch` in `Reader` is never taken: whatever the input, the error
"Unknown multiplex destination" is not returned. -/
theorem ReaderLoop_ne_unknownDestination : ∀ (fuel : Nat) (s st : ReaderState),
    ReaderLoop unm fuel s ≠ some (some Error.unknownDestination, st) := by
  intro fuel
  induction fuel with
  | zero => intro s st h; simp [ReaderLoop] at h
  | succ fuel ih =>
    intro s st
    rw [ReaderLoop]
    have hrf := ReadFull_err_ne s.r 8
    cases hrd : ReadFull s.r 8 with
    | mk rd r1 =>
      rw [hrd] at hrf
      simp only at hrf ⊢
      cases hrd2 : rd.2 with
      | some err =>
        rw [hrd2] at hrf
        simp only
        intro h
        simp only [Option.some.injEq, Prod.mk.injEq] at h
        exact hrf (by rw [h.1])
      | none =>
        simp only
        have hcases := IntToSocketDest_cases (rd.1.getD 0 0).val
        have hc1 := CopyN_err_ne s.output r1 (Uint32 (List.drop 4 rd.1))
        have hc2 := CopyN_err_ne s.errput r1 (Uint32 (List.drop 4 rd.1))
        have hc3 := CopyN_err_ne s.input r1 (Uint32 (List.drop 4 rd.1))
        have hr2 := ReadFull_err_ne r1 (Uint32 (List.drop 4 rd.1))
        split_ifs with h1 h2 h3 h4 h5 h6 h7 h8
        · simp
        · split
          · rename_i err out r2 heq
            rw [heq] at hc1
            intro h
            simp only [Option.some.injEq, Prod.mk.injEq] at h
            exact hc1 (by rw [h.1])
          · exact ih _ _
        · split
          · rename_i err out r2 heq
            rw [heq] at hc2
            intro h
            simp only [Option.some.injEq, Prod.mk.injEq] at h
            exact hc2 (by rw [h.1])
          · exact ih _ _
        · split
          · rename_i err out r2 heq
            rw [heq] at hc3
            intro h
            simp only [Option.some.injEq, Prod.mk.injEq] at h
            exact hc3 (by rw [h.1])
          · exact ih _ _
        · split
          · rename_i err heq
            rw [heq] at hr2
            intro h
            simp only [Option.some.injEq, Prod.mk.injEq] at h
            exact hr2 (by rw [h.1])
          · split
            · simp
            · exact ih _ _
        · split
          · rename_i err heq
            simp at heq
          · split
            · simp
            · exact ih _ _
        · split
          · rename_i err heq
            rw [heq] at hr2
            intro h
            simp only [Option.some.injEq, Prod.mk.injEq] at h
            exact hr2 (by rw [h.1])
          · simp
        · split
          · rename_i err heq
            simp at heq
          · simp
        · exfalso
          simp only [List.mem_cons, List.mem_singleton, List.mem_nil_iff, or_false] at hcases
          rcases hcases with h | h | h | h | h
          · exact h2 h
          · exact h3 h
          · exact h4 h
          · exact h5 h
          · exact h7 h

/-- Reader never returns the error "Unknown multiplex destination". -/
theorem Reader_ne_unknownDestination (s st : ReaderState) :
    Reader unm s ≠ some (some Error.unknownDestination, st) :=
  ReaderLoop_ne_unknownDestination unm _ s st

end total

/-! ## Attach multiplexer: results of `Write`, resize frames, Quit frames, reserved bytes -/

/-- C32: `Write` returns `(0, err)` when the `Write` of the underlying writer fails with `err`
(and then does not flush); otherwise it returns the length of the payload, which is not the
length `8 + len payload` of the frame, together with the result of the flush, so `(len payload,
nil)` when the flush succeeds too. -/
theorem Write_result (w : BufioWriter) (d : SocketDest) (p : List Byte) :
    (∀ err, w.writeErr = some err →
      (VirtWriteCloser.Write ⟨w, d⟩ p).1 = (0, some err) ∧
      WriterCall.Flush ∉ (VirtWriteCloser.Write ⟨w, d⟩ p).2.writer.calls.drop w.calls.length) ∧
    (w.writeErr = none →
      (VirtWriteCloser.Write ⟨w, d⟩ p).1 = (p.length, w.flushErr) ∧
      (VirtWriteCloser.Write ⟨w, d⟩ p).1.1 ≠ 8 + p.length) ∧
    (w.writeErr = none → w.flushErr = none →
      (VirtWriteCloser.Write ⟨w, d⟩ p).1 = (p.length, none)) := by
  refine ⟨?_, ?_, ?_⟩
  · intro err h
    constructor
    · simp [VirtWriteCloser.Write, BufioWriter.Write, h]
    · rw [Write_calls, h]
      simp
  · intro h
    have h1 : (VirtWriteCloser.Write ⟨w, d⟩ p).1 = (p.length, w.flushErr) := by
      simp [VirtWriteCloser.Write, BufioWriter.Write, BufioWriter.Flush, h]
    refine ⟨h1, ?_⟩
    rw [h1]
    simp
  · intro h hf
    simp [VirtWriteCloser.Write, BufioWriter.Write, BufioWriter.Flush, h, hf]

/-- Witness for C32: the payload "hello" written to a healthy writer, to a writer whose flush
fails, and to a writer whose write fails. -/
theorem Write_result_witness :
    (VirtWriteCloser.Write ⟨⟨[], none, none⟩, ToStdout⟩ [104, 101, 108, 108, 111]).1
      = (5, none) ∧
    (VirtWriteCloser.Write ⟨⟨[], none, some (Error.writer "broken pipe")⟩, ToStdout⟩
        [104, 101, 108, 108, 111]).1 = (5, some (Error.writer "broken pipe")) ∧
    (VirtWriteCloser.Write ⟨⟨[], some (Error.writer "broken pipe"), none⟩, ToStdout⟩
        [104, 101, 108, 108, 111]).1 = (0, some (Error.writer "broken pipe")) :=
  ⟨(Write_result ⟨[], none, none⟩ ToStdout [104, 101, 108, 108, 111]).2.2 rfl rfl,
    ((Write_result ⟨[], none, some (Error.writer "broken pipe")⟩ ToStdout
      [104, 101, 108, 108, 111]).2.1 rfl).1,
    ((Write_result ⟨[], some (Error.writer "broken pipe"), none⟩ ToStdout
      [104, 101, 108, 108, 111]).1 _ rfl).1⟩

section fuel
variable (unm : List Byte → Except String TerminalSize)

theorem ReaderLoop_resize_error (fuel : Nat) (h p rest o e i : List Byte)
    (z : List TerminalSize) (msg : String)
    (hh : h.length = 8) (hd : IntToSocketDest (h.getD 0 0).val = TerminalResize)
    (hp : Uint32 (h.drop 4) = p.length) (hev : unm p = Except.error msg) :
    ReaderLoop unm (fuel + 1) ⟨h ++ (p ++ rest), o, e, i, z⟩
      = some (some (Error.unmarshal msg), ⟨rest, o, e, i, z⟩) := by
  rw [ReaderLoop]
  simp only [ReadFull_header h _ hh, hh, hd, hp]
  by_cases h0 : 0 < p.length
  · simp [show TerminalResize ≠ ToStdout by decide, show TerminalResize ≠ ToStderr by decide,
      show TerminalResize ≠ ToStdin by decide, h0, ReadFull_append, hev]
  · have hnil : p = [] := List.eq_nil_of_length_eq_zero (by omega)
    subst hnil
    simp [show TerminalResize ≠ ToStdout by decide, show TerminalResize ≠ ToStderr by decide,
      show TerminalResize ≠ ToStdin by decide, hev]

/-- One more unit of fuel than needed changes nothing. -/
theorem ReaderLoop_fuel_succ : ∀ (fuel : Nat) (s : ReaderState), s.r.length < fuel →
    ReaderLoop unm (fuel + 1) s = ReaderLoop unm fuel s := by
  intro fuel
  induction fuel with
  | zero => intro s h; omega
  | succ fuel ih =>
    intro s hlen
    conv_lhs => rw [ReaderLoop]
    conv_rhs => rw [ReaderLoop]
    have h8 := ReadFull_length_le s.r 8
    have h8ok := ReadFull_ok_length s.r 8
    cases hrf : ReadFull s.r 8 with
    | mk rd r1 =>
      rw [hrf] at h8 h8ok
      simp only at h8 h8ok ⊢
      cases hrd : rd.2 with
      | some err => rfl
      | none =>
        have hr1 : r1.length < fuel := by have := (h8ok hrd).1; omega
        simp only
        by_cases hl : rd.1.length < 8
        · simp only [if_pos hl]
        simp only [if_neg hl]
        by_cases hd1 : IntToSocketDest (rd.1.getD 0 0).val = ToStdout
        · simp only [if_pos hd1]
          have hc := CopyN_length_le s.output r1 (Uint32 (List.drop 4 rd.1))
          rcases hcn : CopyN s.output r1 (Uint32 (List.drop 4 rd.1)) with ⟨_ | err, out, r2⟩
          · rw [hcn] at hc
            exact ih _ (by simp only; simp only at hc; omega)
          · rfl
        simp only [if_neg hd1]
        by_cases hd2 : IntToSocketDest (rd.1.getD 0 0).val = ToStderr
        · simp only [if_pos hd2]
          have hc := CopyN_length_le s.errput r1 (Uint32 (List.drop 4 rd.1))
          rcases hcn : CopyN s.errput r1 (Uint32 (List.drop 4 rd.1)) with ⟨_ | err, out, r2⟩
          · rw [hcn] at hc
            exact ih _ (by simp only; simp only at hc; omega)
          · rfl
        simp only [if_neg hd2]
        by_cases hd3 : IntToSocketDest (rd.1.getD 0 0).val = ToStdin
        · simp only [if_pos hd3]
          have hc := CopyN_length_le s.input r1 (Uint32 (List.drop 4 rd.1))
          rcases hcn : CopyN s.input r1 (Uint32 (List.drop 4 rd.1)) with ⟨_ | err, out, r2⟩
          · rw [hcn] at hc
            exact ih _ (by simp only; simp only at hc; omega)
          · rfl
        simp only [if_neg hd3]
        by_cases hd4 : IntToSocketDest (rd.1.getD 0 0).val = TerminalResize
        · simp only [if_pos hd4]
          have hc := ReadFull_length_le r1 (Uint32 (List.drop 4 rd.1))
          by_cases h0 : 0 < Uint32 (List.drop 4 rd.1)
          · simp only [if_pos h0]
            rcases hrf2 : ReadFull r1 (Uint32 (List.drop 4 rd.1)) with ⟨⟨bs, _ | err⟩, r2⟩
            · rw [hrf2] at hc
              simp only at hc ⊢
              rcases unm bs with msg | ev
              · rfl
              · exact ih _ (by simp only; omega)
            · rfl
          · simp only [if_neg h0]
            rcases unm (List.replicate (Uint32 (List.drop 4 rd.1)) 0) with msg | ev
            · rfl
            · exact ih _ (by simp only; omega)
        simp only [if_neg hd4]

/-- With more fuel than unread bytes the loop computes what `Reader` returns. -/
theorem ReaderLoop_eq_Reader (s : ReaderState) :
    ∀ k : Nat, ReaderLoop unm (s.r.length + 1 + k) s = Reader unm s := by
  intro k
  induction k with
  | zero => rfl
  | succ k ih =>
    rw [← ih]
    exact ReaderLoop_fuel_succ unm (s.r.length + 1 + k) s (by omega)

theorem Reader_step (h p rest : List Byte) (o e i o' e' i' : List Byte)
    (z z' : List TerminalSize) (hh : h.length = 8)
    (hstep : ∀ fuel, ReaderLoop unm (fuel + 1) ⟨h ++ (p ++ rest), o, e, i, z⟩
      = ReaderLoop unm fuel ⟨rest, o', e', i', z'⟩) :
    Reader unm ⟨h ++ (p ++ rest), o, e, i, z⟩ = Reader unm ⟨rest, o', e', i', z'⟩ := by
  have h1 : Reader unm ⟨h ++ (p ++ rest), o, e, i, z⟩
      = ReaderLoop unm ((rest.length + 1 + (7 + p.length)) + 1)
          ⟨h ++ (p ++ rest), o, e, i, z⟩ := by
    unfold Reader
    congr 1
    simp only [List.length_append, hh]
    omega
  rw [h1, hstep]
  exact ReaderLoop_eq_Reader unm ⟨rest, o', e', i', z'⟩ (7 + p.length)

end fuel

section resize
variable (unm : List Byte → Except String TerminalSize)

/-- C34: when the header at a frame boundary decodes to Resize with length `n` and the `n`
payload bytes `p` are there, `Reader` consumes the header and exactly these bytes: if `p`
deserializes to a terminal size, that record is sent on the resize channel and `Reader` goes
on with what follows the frame; if it does not, `Reader` returns the deserialization error
with nothing sent and no sink changed. For `n = 0` the bytes handed to the deserializer are
the empty slice, so a deserializer that rejects the empty input makes a Resize frame of
length 0 return its error. -/
theorem Reader_resize (h p rest : List Byte) (hh : h.length = 8)
    (hd : IntToSocketDest (h.getD 0 0).val = TerminalResize)
    (hp : Uint32 (h.drop 4) = p.length) (o e i : List Byte) (z : List TerminalSize) :
    (∀ ev, unm p = Except.ok ev →
      Reader unm ⟨h ++ (p ++ rest), o, e, i, z⟩ = Reader unm ⟨rest, o, e, i, z ++ [ev]⟩) ∧
    (∀ msg, unm p = Except.error msg →
      Reader unm ⟨h ++ (p ++ rest), o, e, i, z⟩
        = some (some (Error.unmarshal msg), ⟨rest, o, e, i, z⟩)) ∧
    (∀ msg, Uint32 (h.drop 4) = 0 → unm [] = Except.error msg →
      Reader unm ⟨h ++ rest, o, e, i, z⟩
        = some (some (Error.unmarshal msg), ⟨rest, o, e, i, z⟩)) := by
  have herr : ∀ msg, unm p = Except.error msg →
      Reader unm ⟨h ++ (p ++ rest), o, e, i, z⟩
        = some (some (Error.unmarshal msg), ⟨rest, o, e, i, z⟩) := by
    intro msg hmsg
    unfold Reader
    exact ReaderLoop_resize_error unm _ h p rest o e i z msg hh hd hp hmsg
  refine ⟨?_, herr, ?_⟩
  · intro ev hev
    exact Reader_step unm h p rest o e i o e i z (z ++ [ev]) hh
      (fun fuel => ReaderLoop_resize unm fuel h p rest o e i z ev hh hd hp hev)
  · intro msg h0 hmsg
    have hnil : p = [] := List.eq_nil_of_length_eq_zero (by omega)
    subst hnil
    exact herr msg hmsg

end resize

/-- Witness for C34: a Resize frame whose one payload byte deserializes, followed by a Quit
frame; a Resize frame whose payload does not deserialize; and a Resize frame of length 0. -/
theorem Reader_resize_witness :
    Reader (fun b => if b = [1] then Except.ok ⟨80, 24⟩ else Except.error "bad json")
        ⟨[3, 0, 0, 0, 0, 0, 0, 1] ++ ([1] ++ [4, 0, 0, 0, 0, 0, 0, 0]), [], [], [], []⟩
      = some (none, ⟨[], [], [], [], [⟨80, 24⟩]⟩) ∧
    Reader (fun b => if b = [1] then Except.ok ⟨80, 24⟩ else Except.error "bad json")
        ⟨[3, 0, 0, 0, 0, 0, 0, 1] ++ ([2] ++ [4, 0, 0, 0, 0, 0, 0, 0]), [], [], [], []⟩
      = some (some (Error.unmarshal "bad json"), ⟨[4, 0, 0, 0, 0, 0, 0, 0], [], [], [], []⟩) ∧
    Reader (fun b => if b = [1] then Except.ok ⟨80, 24⟩ else Except.error "bad json")
        ⟨[3, 0, 0, 0, 0, 0, 0, 0] ++ [4, 0, 0, 0, 0, 0, 0, 0], [], [], [], []⟩
      = some (some (Error.unmarshal "bad json"), ⟨[4, 0, 0, 0, 0, 0, 0, 0], [], [], [], []⟩) :=
  ⟨((Reader_resize (fun b => if b = [1] then Except.ok ⟨80, 24⟩ else Except.error "bad json")
      [3, 0, 0, 0, 0, 0, 0, 1] [1] [4, 0, 0, 0, 0, 0, 0, 0] rfl (by decide) (by decide)
      [] [] [] []).1 ⟨80, 24⟩ rfl).trans rfl,
    (Reader_resize (fun b => if b = [1] then Except.ok ⟨80, 24⟩ else Except.error "bad json")
      [3, 0, 0, 0, 0, 0, 0, 1] [2] [4, 0, 0, 0, 0, 0, 0, 0] rfl (by decide) (by decide)
      [] [] [] []).2.1 "bad json" rfl,
    (Reader_resize (fun b => if b = [1] then Except.ok ⟨80, 24⟩ else Except.error "bad json")
      [3, 0, 0, 0, 0, 0, 0, 0] [] [4, 0, 0, 0, 0, 0, 0, 0] rfl (by decide) (by decide)
      [] [] [] []).2.2 "bad json" (by decide) rfl⟩

section nilquit
variable (unm : List Byte → Except String TerminalSize)

theorem ReadFull_ok_split (r : List Byte) (n : Nat) (h : (ReadFull r n).1.2 = none) :
    r = (ReadFull r n).1.1 ++ (ReadFull r n).2 ∧ (ReadFull r n).1.1.length = n := by
  unfold ReadFull at h ⊢
  split_ifs at h ⊢ with h1
  exact ⟨(List.take_append_drop n r).symm, by simp only [List.length_take]; omega⟩

theorem CopyN_ok_split (dst r : List Byte) (n : Nat) (h : (CopyN dst r n).1 = none) :
    ∃ p, r = p ++ (CopyN dst r n).2.2 ∧ p.length = n := by
  unfold CopyN at h ⊢
  split_ifs at h ⊢ with h1
  exact ⟨r.take n, (List.take_append_drop n r).symm, by simp only [List.length_take]; omega⟩

/-- The loop of `Reader` returns `nil` only on an input that holds a complete Quit frame at a
frame boundary. -/
theorem ReaderLoop_nil_quit : ∀ (fuel : Nat) (s st : ReaderState),
    ReaderLoop unm fuel s = some (none, st) → HasQuitFrame s.r := by
  intro fuel
  induction fuel with
  | zero => intro s st h; simp [ReaderLoop] at h
  | succ fuel ih =>
    intro s st hres
    rw [ReaderLoop] at hres
    have hsplit := ReadFull_ok_split s.r 8
    cases hrf : ReadFull s.r 8 with
    | mk rd r1 =>
      rw [hrf] at hres hsplit
      simp only at hres hsplit
      cases hrd : rd.2 with
      | some err =>
        rw [hrd] at hres
        simp at hres
      | none =>
        rw [hrd] at hres
        obtain ⟨hsr, hh⟩ := hsplit hrd
        simp only at hres
        by_cases hl : rd.1.length < 8
        · omega
        simp only [if_neg hl] at hres
        have data : ∀ (dst out r2 : List Byte) (s' : ReaderState),
            CopyN dst r1 (Uint32 (List.drop 4 rd.1)) = (none, out, r2) → s'.r = r2 →
            ReaderLoop unm fuel s' = some (none, st) → HasQuitFrame s.r := by
          intro dst out r2 s' hcn hs' hrec
          obtain ⟨p, hp1, hp2⟩ := CopyN_ok_split dst r1 (Uint32 (List.drop 4 rd.1))
            (by rw [hcn])
          rw [hcn] at hp1
          simp only at hp1
          rw [hsr, hp1]
          exact HasQuitFrame.next rd.1 p r2 hh hp2 (hs' ▸ ih s' st hrec)
        by_cases hd1 : IntToSocketDest (rd.1.getD 0 0).val = ToStdout
        · simp only [if_pos hd1] at hres
          rcases hcn : CopyN s.output r1 (Uint32 (List.drop 4 rd.1)) with ⟨_ | err, out, r2⟩
          · rw [hcn] at hres
            exact data _ _ _ _ hcn rfl hres
          · rw [hcn] at hres
            simp at hres
        simp only [if_neg hd1] at hres
        by_cases hd2 : IntToSocketDest (rd.1.getD 0 0).val = ToStderr
        · simp only [if_pos hd2] at hres
          rcases hcn : CopyN s.errput r1 (Uint32 (List.drop 4 rd.1)) with ⟨_ | err, out, r2⟩
          · rw [hcn] at hres
            exact data _ _ _ _ hcn rfl hres
          · rw [hcn] at hres
            simp at hres
        simp only [if_neg hd2] at hres
        by_cases hd3 : IntToSocketDest (rd.1.getD 0 0).val = ToStdin
        · simp only [if_pos hd3] at hres
          rcases hcn : CopyN s.input r1 (Uint32 (List.drop 4 rd.1)) with ⟨_ | err, out, r2⟩
          · rw [hcn] at hres
            exact data _ _ _ _ hcn rfl hres
          · rw [hcn] at hres
            simp at hres
        simp only [if_neg hd3] at hres
        have hsplit2 := ReadFull_ok_split r1 (Uint32 (List.drop 4 rd.1))
        by_cases hd4 : IntToSocketDest (rd.1.getD 0 0).val = TerminalResize
        · simp only [if_pos hd4] at hres
          by_cases h0 : 0 < Uint32 (List.drop 4 rd.1)
          · simp only [if_pos h0] at hres
            rcases hrf2 : ReadFull r1 (Uint32 (List.drop 4 rd.1)) with ⟨⟨bs, _ | err⟩, r2⟩
            · rw [hrf2] at hres hsplit2
              simp only at hres hsplit2
              obtain ⟨hr1, hbs⟩ := hsplit2 trivial
              rcases hu : unm bs with msg | ev
              · rw [hu] at hres
                simp at hres
              · rw [hu] at hres
                simp only at hres
                rw [hsr, hr1]
                exact HasQuitFrame.next rd.1 bs r2 hh hbs (ih _ st hres)
            · rw [hrf2] at hres
              simp at hres
          · simp only [if_neg h0] at hres
            have hz : Uint32 (List.drop 4 rd.1) = 0 := by omega
            rcases hu : unm (List.replicate (Uint32 (List.drop 4 rd.1)) 0) with msg | ev
            · rw [hu] at hres
              simp at hres
            · rw [hu] at hres
              simp only at hres
              rw [hsr]
              have := HasQuitFrame.next rd.1 [] r1 hh (by rw [hz]; rfl) (ih _ st hres)
              simpa using this
        simp only [if_neg hd4] at hres
        by_cases hd5 : IntToSocketDest (rd.1.getD 0 0).val = Quit
        · by_cases h0 : 0 < Uint32 (List.drop 4 rd.1)
          · simp only [if_pos hd5, if_pos h0] at hres
            rcases hrf2 : ReadFull r1 (Uint32 (List.drop 4 rd.1)) with ⟨⟨bs, _ | err⟩, r2⟩
            · rw [hrf2] at hsplit2
              simp only at hsplit2
              obtain ⟨hr1, hbs⟩ := hsplit2 trivial
              rw [hsr, hr1]
              exact HasQuitFrame.quit rd.1 bs r2 hh hd5 hbs
            · rw [hrf2] at hres
              simp at hres
          · have hz : Uint32 (List.drop 4 rd.1) = 0 := by omega
            rw [hsr]
            have := HasQuitFrame.quit rd.1 [] r1 hh hd5 (by rw [hz]; rfl)
            simpa using this
        · simp only [if_neg hd5] at hres
          simp at hres

theorem HasQuitFrame_iff (r : List Byte) :
    HasQuitFrame r ↔ ∃ h p rest, r = h ++ (p ++ rest) ∧ h.length = 8 ∧
      p.length = Uint32 (h.drop 4) ∧
      (IntToSocketDest (h.getD 0 0).val = Quit ∨ HasQuitFrame rest) := by
  constructor
  · intro hq
    cases hq with
    | quit h p rest hh hd hp => exact ⟨h, p, rest, rfl, hh, hp, Or.inl hd⟩
    | next h p rest hh hp hrest => exact ⟨h, p, rest, rfl, hh, hp, Or.inr hrest⟩
  · rintro ⟨h, p, rest, rfl, hh, hp, hd | hrest⟩
    · exact HasQuitFrame.quit h p rest hh hd hp
    · exact HasQuitFrame.next h p rest hh hp hrest

theorem not_HasQuitFrame_short (r : List Byte) (h : r.length < 8) : ¬ HasQuitFrame r := by
  rw [HasQuitFrame_iff]
  rintro ⟨hd, p, rest, rfl, hh, _, _⟩
  simp only [List.length_append] at h
  omega

/-- C37: `Reader` returns `nil` only on an input that holds a complete Quit frame at a frame
boundary; on every other input it returns, with a non-nil error. The empty input and an
input that ends right after a complete stdout, stderr or stdin frame are such inputs: `Reader`
returns `io.EOF` on them (having delivered the payload). -/
theorem Reader_nil_only_after_quit (s : ReaderState) :
    (∀ st, Reader unm s = some (none, st) → HasQuitFrame s.r) ∧
    (¬ HasQuitFrame s.r → ∃ err st, Reader unm s = some (some err, st)) ∧
    (s.r = [] → Reader unm s = some (some Error.EOF, s)) ∧
    (∀ h p : List Byte, h.length = 8 → Uint32 (h.drop 4) = p.length →
      IntToSocketDest (h.getD 0 0).val ∈ [ToStdout, ToStderr, ToStdin] → s.r = h ++ p →
      ¬ HasQuitFrame s.r ∧ ∃ st, Reader unm s = some (some Error.EOF, st)) := by
  have hnil : ∀ st, Reader unm s = some (none, st) → HasQuitFrame s.r :=
    fun st h => ReaderLoop_nil_quit unm _ s st h
  have hempty : ∀ o e i z, Reader unm ⟨[], o, e, i, z⟩ = some (some Error.EOF, ⟨[], o, e, i, z⟩) :=
    fun o e i z => rfl
  refine ⟨hnil, ?_, ?_, ?_⟩
  · intro hno
    have hsome := Reader_returns unm s
    rcases hres : Reader unm s with _ | ⟨_ | err, st⟩
    · rw [hres] at hsome
      exact absurd hsome (by simp)
    · exact absurd (hnil st hres) hno
    · exact ⟨err, st, rfl⟩
  · intro hr
    obtain ⟨r, o, e, i, z⟩ := s
    simp only at hr
    subst hr
    exact hempty o e i z
  · intro h p hh hp hd hr
    obtain ⟨r, o, e, i, z⟩ := s
    simp only at hr
    subst hr
    constructor
    · show ¬ HasQuitFrame (h ++ p)
      rw [HasQuitFrame_iff]
      rintro ⟨h', p', rest, heq, hh', hp', hq⟩
      have hh'' : h' = h := by
        have := congrArg (List.take 8) heq
        rw [List.take_left' hh, List.take_left' hh'] at this
        exact this.symm
      subst hh''
      have heq2 : p = p' ++ rest := List.append_cancel_left heq
      have hrest : rest = [] := by
        have hl := congrArg List.length heq2
        simp only [List.length_append] at hl
        exact List.eq_nil_of_length_eq_zero (by omega)
      subst hrest
      rcases hq with hq | hq
      · rw [hq] at hd
        exact absurd hd (by decide)
      · exact not_HasQuitFrame_short [] (by simp) hq
    · have hstream : h ++ p = h ++ (p ++ []) := by simp
      simp only [List.mem_cons, List.mem_singleton, List.mem_nil_iff, or_false] at hd
      rcases hd with hd | hd | hd
      · refine ⟨⟨[], o ++ p, e, i, z⟩, ?_⟩
        rw [hstream, Reader_step unm h p [] o e i (o ++ p) e i z z hh
          (fun fuel => ReaderLoop_stdout unm fuel h p [] o e i z hh hd hp)]
        exact hempty _ _ _ _
      · refine ⟨⟨[], o, e ++ p, i, z⟩, ?_⟩
        rw [hstream, Reader_step unm h p [] o e i o (e ++ p) i z z hh
          (fun fuel => ReaderLoop_stderr unm fuel h p [] o e i z hh hd hp)]
        exact hempty _ _ _ _
      · refine ⟨⟨[], o, e, i ++ p, z⟩, ?_⟩
        rw [hstream, Reader_step unm h p [] o e i o e (i ++ p) z z hh
          (fun fuel => ReaderLoop_stdin unm fuel h p [] o e i z hh hd hp)]
        exact hempty _ _ _ _

end nilquit

/-- Witness for C37: the empty input, and an input that ends after the complete stdout frame
with the payload "hi", hold no Quit frame and make `Reader` return `io.EOF`. -/
theorem Reader_nil_only_after_quit_witness :
    (¬ HasQuitFrame [] ∧
      Reader (fun _ => Except.error "bad json") ⟨[], [], [], [], []⟩
        = some (some Error.EOF, ⟨[], [], [], [], []⟩)) ∧
    (¬ HasQuitFrame ([0, 0, 0, 0, 0, 0, 0, 2] ++ [104, 105]) ∧
      ∃ st, Reader (fun _ => Except.error "bad json")
          ⟨[0, 0, 0, 0, 0, 0, 0, 2] ++ [104, 105], [], [], [], []⟩
        = some (some Error.EOF, st)) :=
  ⟨⟨not_HasQuitFrame_short [] (by decide),
      (Reader_nil_only_after_quit (fun _ => Except.error "bad json")
        ⟨[], [], [], [], []⟩).2.2.1 rfl⟩,
    (Reader_nil_only_after_quit (fun _ => Except.error "bad json")
      ⟨[0, 0, 0, 0, 0, 0, 0, 2] ++ [104, 105], [], [], [], []⟩).2.2.2
      [0, 0, 0, 0, 0, 0, 0, 2] [104, 105] rfl (by decide) (by decide) rfl⟩

section reserved
variable (unm : List Byte → Except String TerminalSize)

theorem SameButReserved.length_eq {r₁ r₂ : List Byte} (h : SameButReserved r₁ r₂) :
    r₁.length = r₂.length := by
  induction h with
  | same r => rfl
  | header t a b c a' b' c' rest => simp
  | frame t a b c a' b' c' len p r₁ r₂ hlen hp hrest ih => simp [ih]

/-- The loop of `Reader` does not look at bytes 1 to 3 of the header it reads. -/
theorem ReaderLoop_header_reserved (t a b c a' b' c' : Byte) (rest o e i : List Byte)
    (z : List TerminalSize) (fuel : Nat) :
    ReaderLoop unm fuel ⟨t :: a :: b :: c :: rest, o, e, i, z⟩
      = ReaderLoop unm fuel ⟨t :: a' :: b' :: c' :: rest, o, e, i, z⟩ := by
  cases fuel with
  | zero => rfl
  | succ fuel =>
    have key : ∀ x y w : Byte, ReadFull (t :: x :: y :: w :: rest) 8
        = if 4 ≤ rest.length then ((t :: x :: y :: w :: rest.take 4, none), rest.drop 4)
          else ((t :: x :: y :: w :: rest, some Error.ErrUnexpectedEOF), []) := by
      intro x y w
      unfold ReadFull
      by_cases h4 : 4 ≤ rest.length
      · rw [if_pos h4, if_pos (by simp only [List.length_cons]; omega)]
        rfl
      · rw [if_neg h4, if_neg (by simp only [List.length_cons]; omega),
          if_neg (by simp only [List.length_cons]; omega)]
    conv_lhs => rw [ReaderLoop]
    conv_rhs => rw [ReaderLoop]
    simp only [key]
    by_cases h4 : 4 ≤ rest.length
    · simp only [if_pos h4, List.length_cons, List.drop_succ_cons, List.drop_zero,
        List.getD_cons_zero]
    · simp only [if_neg h4]

theorem ReaderLoop_reserved {r₁ r₂ : List Byte} (h : SameButReserved r₁ r₂) :
    ∀ (fuel : Nat) (o e i : List Byte) (z : List TerminalSize),
      (ReaderLoop unm fuel ⟨r₁, o, e, i, z⟩).map delivered
        = (ReaderLoop unm fuel ⟨r₂, o, e, i, z⟩).map delivered := by
  induction h with
  | same r => intro fuel o e i z; rfl
  | header t a b c a' b' c' rest =>
    intro fuel o e i z
    rw [ReaderLoop_header_reserved unm t a b c a' b' c' rest o e i z fuel]
  | frame t a b c a' b' c' len p r₁ r₂ hlen hp hrest ih =>
    intro fuel o e i z
    cases fuel with
    | zero => rfl
    | succ fuel =>
      have hs₁ : t :: a :: b :: c :: (len ++ (p ++ r₁)) = (t :: a :: b :: c :: len) ++ (p ++ r₁) :=
        rfl
      have hs₂ : t :: a' :: b' :: c' :: (len ++ (p ++ r₂))
          = (t :: a' :: b' :: c' :: len) ++ (p ++ r₂) := rfl
      have hh₁ : (t :: a :: b :: c :: len).length = 8 := by simp [hlen]
      have hh₂ : (t :: a' :: b' :: c' :: len).length = 8 := by simp [hlen]
      have hp₁ : Uint32 ((t :: a :: b :: c :: len).drop 4) = p.length := hp.symm
      have hp₂ : Uint32 ((t :: a' :: b' :: c' :: len).drop 4) = p.length := hp.symm
      have hcases := IntToSocketDest_cases ((t : Byte).val : Int)
      simp only [List.mem_cons, List.mem_singleton, List.mem_nil_iff, or_false] at hcases
      rw [hs₁, hs₂]
      rcases hcases with hd | hd | hd | hd | hd
      · rw [ReaderLoop_stdout unm fuel _ p r₁ o e i z hh₁ hd hp₁,
          ReaderLoop_stdout unm fuel _ p r₂ o e i z hh₂ hd hp₂]
        exact ih fuel _ _ _ _
      · rw [ReaderLoop_stderr unm fuel _ p r₁ o e i z hh₁ hd hp₁,
          ReaderLoop_stderr unm fuel _ p r₂ o e i z hh₂ hd hp₂]
        exact ih fuel _ _ _ _
      · rw [ReaderLoop_stdin unm fuel _ p r₁ o e i z hh₁ hd hp₁,
          ReaderLoop_stdin unm fuel _ p r₂ o e i z hh₂ hd hp₂]
        exact ih fuel _ _ _ _
      · rcases hu : unm p with msg | ev
        · rw [ReaderLoop_resize_error unm fuel _ p r₁ o e i z msg hh₁ hd hp₁ hu,
            ReaderLoop_resize_error unm fuel _ p r₂ o e i z msg hh₂ hd hp₂ hu]
          rfl
        · rw [ReaderLoop_resize unm fuel _ p r₁ o e i z ev hh₁ hd hp₁ hu,
            ReaderLoop_resize unm fuel _ p r₂ o e i z ev hh₂ hd hp₂ hu]
          exact ih fuel _ _ _ _
      · rw [ReaderLoop_quit unm fuel _ p r₁ o e i z hh₁ hd hp₁,
          ReaderLoop_quit unm fuel _ p r₂ o e i z hh₂ hd hp₂]
        rfl

/-- C33: on two inputs that differ only in reserved bytes (bytes 1 to 3) of frame headers, and
from the same sinks and resize channel, `Reader` returns the same value, nil or the same
error, and leaves the same bytes in each sink and the same events on the resize channel. -/
theorem Reader_ignores_reserved (r₁ r₂ : List Byte) (h : SameButReserved r₁ r₂)
    (o e i : List Byte) (z : List TerminalSize) :
    ∃ (err : Option Error) (st₁ st₂ : ReaderState),
      Reader unm ⟨r₁, o, e, i, z⟩ = some (err, st₁) ∧
      Reader unm ⟨r₂, o, e, i, z⟩ = some (err, st₂) ∧
      st₁.output = st₂.output ∧ st₁.errput = st₂.errput ∧ st₁.input = st₂.input ∧
      st₁.resize = st₂.resize := by
  have hmap : (Reader unm ⟨r₁, o, e, i, z⟩).map delivered
      = (Reader unm ⟨r₂, o, e, i, z⟩).map delivered := by
    unfold Reader
    simp only [h.length_eq]
    exact ReaderLoop_reserved unm h _ o e i z
  have h1 := Reader_returns unm ⟨r₁, o, e, i, z⟩
  have h2 := Reader_returns unm ⟨r₂, o, e, i, z⟩
  rcases hr1 : Reader unm ⟨r₁, o, e, i, z⟩ with _ | ⟨err₁, st₁⟩
  · rw [hr1] at h1
    exact absurd h1 (by simp)
  rcases hr2 : Reader unm ⟨r₂, o, e, i, z⟩ with _ | ⟨err₂, st₂⟩
  · rw [hr2] at h2
    exact absurd h2 (by simp)
  rw [hr1, hr2] at hmap
  simp only [Option.map_some', delivered, Option.some.injEq, Prod.mk.injEq] at hmap
  obtain ⟨he, ho, hep, hi, hz⟩ := hmap
  subst he
  exact ⟨err₁, st₁, st₂, rfl, rfl, ho, hep, hi, hz⟩

end reserved

/-- Witness for C33: a stdout frame "hi", a stderr frame "e" and a Quit frame, once with
reserved bytes 0 and once with other reserved bytes in each of the three headers. -/
theorem Reader_ignores_reserved_witness :
    ∃ (err : Option Error) (st₁ st₂ : ReaderState),
      Reader (fun _ => Except.error "bad json")
          ⟨[0, 0, 0, 0, 0, 0, 0, 2, 104, 105, 2, 0, 0, 0, 0, 0, 0, 1, 101,
            4, 0, 0, 0, 0, 0, 0, 0], [], [], [], []⟩ = some (err, st₁) ∧
      Reader (fun _ => Except.error "bad json")
          ⟨[0, 1, 2, 3, 0, 0, 0, 2, 104, 105, 2, 9, 9, 9, 0, 0, 0, 1, 101,
            4, 7, 0, 7, 0, 0, 0, 0], [], [], [], []⟩ = some (err, st₂) ∧
      st₁.output = st₂.output ∧ st₁.errput = st₂.errput ∧ st₁.input = st₂.input ∧
      st₁.resize = st₂.resize :=
  Reader_ignores_reserved (fun _ => Except.error "bad json") _ _
    (SameButReserved.frame 0 0 0 0 1 2 3 [0, 0, 0, 2] [104, 105] _ _ rfl rfl
      (SameButReserved.frame 2 0 0 0 9 9 9 [0, 0, 0, 1] [101] _ _ rfl rfl
        (SameButReserved.header 4 0 0 0 7 0 7 [0, 0, 0, 0])))
    [] [] [] []

end Virtwriter

namespace Shared

/-! ## `ps`: filter compilation and candidate selection -/

theorem cutAt_of_not_mem (sep : Char) (l : List Char) (h : sep ∉ l) : cutAt sep l = none := by
  induction l with
  | nil => rfl
  | cons c cs ih =>
    simp only [List.mem_cons, not_or] at h
    have hc : c ≠ sep := fun e => h.1 e.symm
    simp [cutAt, hc, ih h.2]

theorem cutAt_append (sep : Char) (k v : List Char) (h : sep ∉ k) :
    cutAt sep (k ++ sep :: v) = some (k, v) := by
  induction k with
  | nil => simp [cutAt]
  | cons c cs ih =>
    simp only [List.mem_cons, not_or] at h
    have hc : c ≠ sep := fun e => h.1 e.symm
    simp [cutAt, hc, ih h.2]

theorem SplitN2_of_not_mem (f : String) (h : '=' ∉ f.data) : SplitN2 f '=' = [f] := by
  simp [SplitN2, cutAt_of_not_mem _ _ h]

theorem SplitN2_key_value (k v : String) (h : '=' ∉ k.data) :
    SplitN2 (k ++ "=" ++ v) '=' = [k, v] := by
  have hd : (k ++ "=" ++ v).data = k.data ++ '=' :: v.data := by
    simp [String.data_append]
  simp [SplitN2, hd, cutAt_append _ _ _ h]


theorem generateContainerFilterFuncs_calls (filter filterValue : String) (r : Runtime) :
    (generateContainerFilterFuncs filter filterValue r).2 = []
      ∨ (generateContainerFilterFuncs filter filterValue r).2
          = [RuntimeCall.LookupContainer filterValue] := by
  unfold generateContainerFilterFuncs
  by_cases h1 : filter = "id"
  · rw [if_pos h1]; exact Or.inl rfl
  rw [if_neg h1]
  by_cases h2 : filter = "label"
  · rw [if_pos h2]; exact Or.inl rfl
  rw [if_neg h2]
  by_cases h3 : filter = "name"
  · rw [if_pos h3]; exact Or.inl rfl
  rw [if_neg h3]
  by_cases h4 : filter = "exited"
  · rw [if_pos h4]; split <;> exact Or.inl rfl
  rw [if_neg h4]
  by_cases h5 : filter = "status"
  · rw [if_pos h5]; split <;> exact Or.inl rfl
  rw [if_neg h5]
  by_cases h6 : filter = "ancestor"
  · rw [if_pos h6]; exact Or.inl rfl
  rw [if_neg h6]
  by_cases h7 : filter = "before"
  · rw [if_pos h7]; split <;> exact Or.inr rfl
  rw [if_neg h7]
  by_cases h8 : filter = "since"
  · rw [if_pos h8]; split <;> exact Or.inr rfl
  rw [if_neg h8]
  by_cases h9 : filter = "volume"
  · rw [if_pos h9]; exact Or.inl rfl
  rw [if_neg h9]
  by_cases h10 : filter = "health"
  · rw [if_pos h10]; exact Or.inl rfl
  rw [if_neg h10]
  exact Or.inl rfl


theorem compile_calls (r : Runtime) (filters : List String) :
    ∀ filterFuncs : List (Container → Bool),
      ∀ c ∈ (GetPsContainerOutput.compile r filters filterFuncs).2, c.isLookup = true := by
  induction filters with
  | nil => intro acc c hc; simp [GetPsContainerOutput.compile] at hc
  | cons f fs ih =>
    intro acc c hc
    rw [GetPsContainerOutput.compile] at hc
    have hgen := generateContainerFilterFuncs_calls ((SplitN2 f '=').getD 0 "")
      ((SplitN2 f '=').getD 1 "") r
    have hgen' : ∀ c ∈ (generateContainerFilterFuncs ((SplitN2 f '=').getD 0 "")
        ((SplitN2 f '=').getD 1 "") r).2, c.isLookup = true := by
      intro c hc
      rcases hgen with h | h <;> rw [h] at hc
      · simp at hc
      · simp only [List.mem_singleton] at hc; subst hc; rfl
    split_ifs at hc with hlen
    · simp at hc
    · cases hg : generateContainerFilterFuncs ((SplitN2 f '=').getD 0 "")
        ((SplitN2 f '=').getD 1 "") r with
      | mk res calls =>
        rw [hg] at hc hgen'
        cases res with
        | error err => exact hgen' c hc
        | ok g =>
          simp only [List.mem_append] at hc
          rcases hc with hc | hc
          · exact hgen' c hc
          · exact ih _ c hc

theorem compile_cons_short (r : Runtime) (f : String) (hlen : (SplitN2 f '=').length < 2)
    (fs : List String) (acc : List (Container → Bool)) :
    GetPsContainerOutput.compile r (f :: fs) acc
      = (([], some (Error.Errorf
          ("filter input must be in the form of filter=value: " ++ f ++ " is invalid"))), []) := by
  rw [GetPsContainerOutput.compile]
  simp only [hlen, if_true]

theorem compile_cons_gen_error (r : Runtime) (f : String) (hlen : ¬ (SplitN2 f '=').length < 2)
    (e : Error) (calls : List RuntimeCall)
    (hg : generateContainerFilterFuncs ((SplitN2 f '=').getD 0 "") ((SplitN2 f '=').getD 1 "") r
      = (Except.error e, calls))
    (fs : List String) (acc : List (Container → Bool)) :
    GetPsContainerOutput.compile r (f :: fs) acc
      = (([], some (Error.Wrapf e "invalid filter")), calls) := by
  rw [GetPsContainerOutput.compile]
  simp only [hlen, if_false, hg]

theorem compile_cons_gen_ok (r : Runtime) (f : String) (hlen : ¬ (SplitN2 f '=').length < 2)
    (g : Container → Bool) (calls : List RuntimeCall)
    (hg : generateContainerFilterFuncs ((SplitN2 f '=').getD 0 "") ((SplitN2 f '=').getD 1 "") r
      = (Except.ok g, calls))
    (fs : List String) (acc : List (Container → Bool)) :
    GetPsContainerOutput.compile r (f :: fs) acc
      = ((GetPsContainerOutput.compile r fs (acc ++ [g])).1,
          calls ++ (GetPsContainerOutput.compile r fs (acc ++ [g])).2) := by
  rw [GetPsContainerOutput.compile]
  simp only [hlen, if_false, hg]

theorem compile_cons_error (r : Runtime) (f : String) (fs : List String)
    (acc : List (Container → Bool)) (err : Error) (h : compileError r f = some err) :
    GetPsContainerOutput.compile r (f :: fs) acc
      = (([], some err), (GetPsContainerOutput.compile r [f] []).2) := by
  unfold compileError at h
  by_cases hlen : (SplitN2 f '=').length < 2
  · rw [compile_cons_short r f hlen] at h ⊢
    rw [compile_cons_short r f hlen]
    simp only [Option.some.injEq] at h
    rw [h]
  · cases hg : generateContainerFilterFuncs ((SplitN2 f '=').getD 0 "")
        ((SplitN2 f '=').getD 1 "") r with
    | mk res calls =>
      cases res with
      | error e =>
        rw [compile_cons_gen_error r f hlen e calls hg] at h ⊢
        rw [compile_cons_gen_error r f hlen e calls hg]
        simp only [Option.some.injEq] at h
        rw [h]
      | ok g =>
        rw [compile_cons_gen_ok r f hlen g calls hg] at h
        simp [GetPsContainerOutput.compile] at h

theorem compile_cons_ok (r : Runtime) (f : String) (fs : List String)
    (acc : List (Container → Bool)) (h : compileError r f = none) :
    ∃ g, GetPsContainerOutput.compile r (f :: fs) acc
      = ((GetPsContainerOutput.compile r fs (acc ++ [g])).1,
          (GetPsContainerOutput.compile r [f] []).2
            ++ (GetPsContainerOutput.compile r fs (acc ++ [g])).2) := by
  unfold compileError at h
  by_cases hlen : (SplitN2 f '=').length < 2
  · rw [compile_cons_short r f hlen] at h
    simp at h
  · cases hg : generateContainerFilterFuncs ((SplitN2 f '=').getD 0 "")
        ((SplitN2 f '=').getD 1 "") r with
    | mk res calls =>
      cases res with
      | error e =>
        rw [compile_cons_gen_error r f hlen e calls hg] at h
        simp at h
      | ok g =>
        refine ⟨g, ?_⟩
        rw [compile_cons_gen_ok r f hlen g calls hg, compile_cons_gen_ok r f hlen g calls hg]
        simp [GetPsContainerOutput.compile]

theorem compile_first_error (r : Runtime) (filters : List String) :
    (∃ f ∈ filters, (compileError r f).isSome = true) →
    ∀ acc : List (Container → Bool), ∃ pre f post err, filters = pre ++ f :: post ∧
      (∀ g ∈ pre, compileError r g = none) ∧ compileError r f = some err ∧
      (GetPsContainerOutput.compile r filters acc).1 = ([], some err) := by
  induction filters with
  | nil => intro h; simp at h
  | cons f fs ih =>
    intro h acc
    cases hf : compileError r f with
    | some err =>
      exact ⟨[], f, fs, err, rfl, by simp, hf, by rw [compile_cons_error r f fs acc err hf]⟩
    | none =>
      have h' : ∃ f ∈ fs, (compileError r f).isSome = true := by
        obtain ⟨g, hg, hgs⟩ := h
        rcases List.mem_cons.mp hg with rfl | hg
        · rw [hf] at hgs; simp at hgs
        · exact ⟨g, hg, hgs⟩
      obtain ⟨g, hg⟩ := compile_cons_ok r f fs acc hf
      obtain ⟨pre, f', post, err, hsplit, hpre, herr, hres⟩ := ih h' (acc ++ [g])
      refine ⟨f :: pre, f', post, err, by rw [hsplit]; rfl, ?_, herr, by rw [hg]; exact hres⟩
      intro x hx
      rcases List.mem_cons.mp hx with rfl | hx
      · exact hf
      · exact hpre x hx

/-- C9: if some filter string of the list fails to compile, `GetPsContainerOutput` returns the
error of the first such string together with a nil record list, whatever the options (`Latest`
included) and the worker budget; the only runtime calls made are lookups of reference
containers by filters compiled before the failure: no listing, no latest-container query and
no batch read. -/
theorem GetPsContainerOutput_compile_error (env : Env) (r : Runtime) (opts : PsOptions)
    (filters : List String) (maxWorkers : Int)
    (h : ∃ f ∈ filters, (compileError r f).isSome = true) :
    ∃ pre f post err, filters = pre ++ f :: post ∧
      (∀ g ∈ pre, compileError r g = none) ∧ compileError r f = some err ∧
      (GetPsContainerOutput env r opts filters maxWorkers).1 = Outcome.returned ([], some err) ∧
      ∀ c ∈ (GetPsContainerOutput env r opts filters maxWorkers).2, c.isLookup = true := by
  obtain ⟨pre, f, post, err, hsplit, hpre, herr, hres⟩ := compile_first_error r filters h []
  refine ⟨pre, f, post, err, hsplit, hpre, herr, ?_⟩
  have hcalls := compile_calls r filters []
  cases hc : GetPsContainerOutput.compile r filters [] with
  | mk res calls =>
    rw [hc] at hres hcalls
    simp only at hres
    subst hres
    unfold GetPsContainerOutput
    rw [hc]
    exact ⟨rfl, hcalls⟩

/-- Witness for C9: with `Latest` set, a valid `before` filter followed by an invalid status;
the lookup made for the first filter is the only runtime call. -/
theorem GetPsContainerOutput_compile_error_witness :
    ∃ pre f post err, ["before=web", "status=bogus", "name=web"] = pre ++ f :: post ∧
      (∀ g ∈ pre, compileError Example.runtime g = none) ∧
      compileError Example.runtime f = some err ∧
      (GetPsContainerOutput Example.env Example.runtime { Example.last 0 with Latest := true }
          ["before=web", "status=bogus", "name=web"] 4).1 = Outcome.returned ([], some err) ∧
      ∀ c ∈ (GetPsContainerOutput Example.env Example.runtime
          { Example.last 0 with Latest := true }
          ["before=web", "status=bogus", "name=web"] 4).2, c.isLookup = true :=
  GetPsContainerOutput_compile_error Example.env Example.runtime
    { Example.last 0 with Latest := true } ["before=web", "status=bogus", "name=web"] 4
    ⟨"status=bogus", by simp, by decide⟩

/-- C10: a filter list whose first string contains no `=` makes `GetPsContainerOutput` return
a non-nil error and no records, before any runtime call; and a string is cut at its first `=`
only: for a key `f` without `=` and any operand `v` (which may contain `=`), `f=v` splits into
`f` and `v` and compiles as `generateContainerFilterFuncs f v` does. -/
theorem GetPsContainerOutput_filter_without_eq (env : Env) (r : Runtime) (opts : PsOptions)
    (f : String) (hf : '=' ∉ f.data) (rest : List String) (maxWorkers : Int) :
    (∃ err, GetPsContainerOutput env r opts (f :: rest) maxWorkers
        = (Outcome.returned ([], some err), [])) ∧
    ∀ v : String, SplitN2 (f ++ "=" ++ v) '=' = [f, v] ∧
      compileError r (f ++ "=" ++ v) =
        match (generateContainerFilterFuncs f v r).1 with
        | Except.error e => some (Error.Wrapf e "invalid filter")
        | Except.ok _ => none := by
  constructor
  · have hlen : (SplitN2 f '=').length < 2 := by rw [SplitN2_of_not_mem f hf]; simp
    refine ⟨Error.Errorf
      ("filter input must be in the form of filter=value: " ++ f ++ " is invalid"), ?_⟩
    unfold GetPsContainerOutput
    rw [compile_cons_short r f hlen]
  · intro v
    have hs := SplitN2_key_value f v hf
    refine ⟨hs, ?_⟩
    have hlen : ¬ (SplitN2 (f ++ "=" ++ v) '=').length < 2 := by rw [hs]; simp
    unfold compileError
    cases hg : generateContainerFilterFuncs f v r with
    | mk res calls =>
      have hg' : generateContainerFilterFuncs ((SplitN2 (f ++ "=" ++ v) '=').getD 0 "")
          ((SplitN2 (f ++ "=" ++ v) '=').getD 1 "") r = (res, calls) := by
        rw [hs]; exact hg
      cases res with
      | error e => rw [compile_cons_gen_error r _ hlen e calls hg']
      | ok g =>
        rw [compile_cons_gen_ok r _ hlen g calls hg']
        simp [GetPsContainerOutput.compile]

/-- Witness for C10: the filter string `name`, and the key `label` with operand `tier=front`. -/
theorem GetPsContainerOutput_filter_without_eq_witness :
    (∃ err, GetPsContainerOutput Example.env Example.runtime (Example.last 0)
        ("name" :: ["id=0123"]) 1 = (Outcome.returned ([], some err), [])) ∧
    ∀ v : String, SplitN2 ("name" ++ "=" ++ v) '=' = ["name", v] ∧
      compileError Example.runtime ("name" ++ "=" ++ v) =
        match (generateContainerFilterFuncs "name" v Example.runtime).1 with
        | Except.error e => some (Error.Wrapf e "invalid filter")
        | Except.ok _ => none :=
  GetPsContainerOutput_filter_without_eq Example.env Example.runtime (Example.last 0) "name"
    (by decide) ["id=0123"] 1


/-- C8 (counterexample): with `Last = 2`, no filters, `Latest` unset and a runtime holding one
container, `GetPsContainerOutput` returns no error: it lists the containers and batch-reads
and returns the one there is. -/
theorem GetPsContainerOutput_last_beyond_count :
    (0 : Int) < (Example.last 2).Last ∧
    ∃ rec, GetPsContainerOutput Example.env Example.runtime (Example.last 2) [] 1
      = (Outcome.returned ([rec], none),
          [RuntimeCall.GetContainers, RuntimeCall.Batch "0123456789abcdef"]) :=
  ⟨by decide, _, rfl⟩

/-- C8 (amended): for `Last = N > 0` with `Latest` unset, filters that compile and a runtime
that lists `matching` as the containers satisfying them: if `N` is at most the number of these
containers, `GetPsContainerOutput` returns the error "--last not yet supported" and no
records, without any batch read, whatever the other options and the worker budget; if `N` is
larger, `Last` does not restrict anything: all those containers are handed to `PBatch`, and
what `PBatch` returns is returned without an error. -/
theorem GetPsContainerOutput_last (env : Env) (r : Runtime) (opts : PsOptions)
    (filters : List String) (maxWorkers : Int) (filterFuncs : List (Container → Bool))
    (calls : List RuntimeCall) (matching : List Container)
    (hN : 0 < opts.Last) (hLatest : opts.Latest = false)
    (hc : GetPsContainerOutput.compile r filters [] = ((filterFuncs, none), calls))
    (hm : r.GetContainers filterFuncs = (matching, none)) :
    (opts.Last ≤ (matching.length : Int) →
      GetPsContainerOutput env r opts filters maxWorkers
        = (Outcome.returned ([], some (Error.Errorf "--last not yet supported")),
            calls ++ [RuntimeCall.GetContainers])) ∧
    ((matching.length : Int) < opts.Last →
      (GetPsContainerOutput env r opts filters maxWorkers).2
          = calls ++ [RuntimeCall.GetContainers] ++ (PBatch env matching maxWorkers opts).2 ∧
      ∀ pss, (PBatch env matching maxWorkers opts).1 = Outcome.returned pss →
        (GetPsContainerOutput env r opts filters maxWorkers).1
          = Outcome.returned (pss, none)) := by
  constructor
  · intro hle
    unfold GetPsContainerOutput
    simp only [hc, hLatest, hm, if_true, hN, hle, and_self]
  · intro hlt
    have hnot : ¬ (0 < opts.Last ∧ opts.Last ≤ (matching.length : Int)) := by
      intro h; omega
    unfold GetPsContainerOutput
    simp only [hc, hLatest, hm, if_true, hnot, if_false]
    cases hp : PBatch env matching maxWorkers opts with
    | mk out calls3 =>
      cases out with
      | returned pss => simp
      | panicked m => simp
      | blocked => simp

/-- Witness for C8 (amended): one container and `Last = 1`. -/
theorem GetPsContainerOutput_last_witness :
    ((1 : Int) ≤ 1 →
      GetPsContainerOutput Example.env Example.runtime (Example.last 1) [] 1
        = (Outcome.returned ([], some (Error.Errorf "--last not yet supported")),
            [RuntimeCall.GetContainers])) ∧
    ((1 : Int) < 1 →
      (GetPsContainerOutput Example.env Example.runtime (Example.last 1) [] 1).2
          = [] ++ [RuntimeCall.GetContainers]
            ++ (PBatch Example.env [Example.web] 1 (Example.last 1)).2 ∧
      ∀ pss, (PBatch Example.env [Example.web] 1 (Example.last 1)).1 = Outcome.returned pss →
        (GetPsContainerOutput Example.env Example.runtime (Example.last 1) [] 1).1
          = Outcome.returned (pss, none)) :=
  GetPsContainerOutput_last Example.env Example.runtime (Example.last 1) [] 1 [] []
    [Example.web] (by decide) rfl rfl rfl

/-! ## `ps`: what each filter key compiles to -/

theorem gen_id (v : String) (r : Runtime) :
    generateContainerFilterFuncs "id" v r = (Except.ok fun c => Contains c.ID v, []) := rfl

theorem gen_label (v : String) (r : Runtime) :
    generateContainerFilterFuncs "label" v r = (Except.ok (labelFilter v), []) := rfl

theorem gen_name (v : String) (r : Runtime) :
    generateContainerFilterFuncs "name" v r = (Except.ok fun c => Contains c.Name v, []) := rfl

theorem gen_ancestor (v : String) (r : Runtime) :
    generateContainerFilterFuncs "ancestor" v r
      = (Except.ok fun c => Contains c.Config.RootfsImageID v
          || Contains c.Config.RootfsImageName v, []) := rfl

theorem gen_volume (v : String) (r : Runtime) :
    generateContainerFilterFuncs "volume" v r = (Except.ok (volumeFilter v), []) := rfl

theorem gen_health (v : String) (r : Runtime) :
    generateContainerFilterFuncs "health" v r
      = (Except.ok fun c =>
          match c.HealthCheckStatus.2 with
          | some _ => false
          | none => decide (c.HealthCheckStatus.1 = v), []) := rfl

theorem gen_status (v : String) (r : Runtime) :
    generateContainerFilterFuncs "status" v r
      = if ¬ (StringInSlice v
            ["created", "running", "paused", "stopped", "exited", "unknown"] = true) then
          (Except.error (Error.Errorf (v ++ " is not a valid status")), [])
        else (Except.ok (statusFilter v), []) := rfl

theorem gen_exited (v : String) (r : Runtime) :
    generateContainerFilterFuncs "exited" v r
      = match ParseInt32 v with
        | none =>
          (Except.error (Error.Wrapf (Error.external "strconv.ParseInt")
            ("exited code out of range \"" ++ v ++ "\"")), [])
        | some exitCode =>
          (Except.ok fun c =>
            decide (c.ExitCode.1 = int32 exitCode ∧ c.ExitCode.2.2 = none
              ∧ c.ExitCode.2.1 = true), []) := rfl

theorem gen_before (v : String) (r : Runtime) :
    generateContainerFilterFuncs "before" v r
      = match r.LookupContainer v with
        | Except.error _ =>
          (Except.error (Error.Errorf ("unable to find container by name or id of " ++ v)),
            [RuntimeCall.LookupContainer v])
        | Except.ok ctr =>
          (Except.ok fun c => decide (c.Config.CreatedTime < ctr.Config.CreatedTime),
            [RuntimeCall.LookupContainer v]) := rfl

theorem gen_since (v : String) (r : Runtime) :
    generateContainerFilterFuncs "since" v r
      = match r.LookupContainer v with
        | Except.error _ =>
          (Except.error (Error.Errorf ("unable to find container by name or id of " ++ v)),
            [RuntimeCall.LookupContainer v])
        | Except.ok ctr =>
          (Except.ok fun c => decide (ctr.Config.CreatedTime < c.Config.CreatedTime),
            [RuntimeCall.LookupContainer v]) := rfl

theorem gen_other (filter v : String) (r : Runtime)
    (h : filter ∉ ["id", "label", "name", "exited", "status", "ancestor", "before", "since",
      "volume", "health"]) :
    generateContainerFilterFuncs filter v r
      = (Except.error (Error.Errorf (filter ++ " is an invalid filter")), []) := by
  simp only [List.mem_cons, List.mem_singleton, List.mem_nil_iff, or_false, not_or] at h
  obtain ⟨h1, h2, h3, h4, h5, h6, h7, h8, h9, h10⟩ := h
  unfold generateContainerFilterFuncs
  rw [if_neg h1, if_neg h2, if_neg h3, if_neg h4, if_neg h5, if_neg h6, if_neg h7, if_neg h8,
    if_neg h9, if_neg h10]

/-- C11: for every key outside id, label, name, exited, status, ancestor, before, since,
volume, health (compared exactly, so `ID` or `Label` are outside), and every operand,
`generateContainerFilterFuncs` returns the error "<key> is an invalid filter" without calling
the runtime; for each of the keys id, label, name, ancestor, volume, health and every operand
(the empty string included) it returns a predicate and no error. -/
theorem generateContainerFilterFuncs_keys (filter filterValue : String) (r : Runtime) :
    (filter ∉ ["id", "label", "name", "exited", "status", "ancestor", "before", "since",
        "volume", "health"] →
      generateContainerFilterFuncs filter filterValue r
        = (Except.error (Error.Errorf (filter ++ " is an invalid filter")), [])) ∧
    (filter ∈ ["id", "label", "name", "ancestor", "volume", "health"] →
      ∃ p, generateContainerFilterFuncs filter filterValue r = (Except.ok p, [])) := by
  constructor
  · exact gen_other filter filterValue r
  · intro h
    simp only [List.mem_cons, List.mem_singleton, List.mem_nil_iff, or_false] at h
    rcases h with h | h | h | h | h | h <;> subst h
    · exact ⟨_, gen_id filterValue r⟩
    · exact ⟨_, gen_label filterValue r⟩
    · exact ⟨_, gen_name filterValue r⟩
    · exact ⟨_, gen_ancestor filterValue r⟩
    · exact ⟨_, gen_volume filterValue r⟩
    · exact ⟨_, gen_health filterValue r⟩

/-- Witness for C11: the key `ID` (capital letters) is rejected, the key `label` with the
empty operand compiles. -/
theorem generateContainerFilterFuncs_keys_witness :
    generateContainerFilterFuncs "ID" "0123" Example.runtime
        = (Except.error (Error.Errorf "ID is an invalid filter"), []) ∧
    ∃ p, generateContainerFilterFuncs "label" "" Example.runtime = (Except.ok p, []) :=
  ⟨(generateContainerFilterFuncs_keys "ID" "0123" Example.runtime).1 (by decide),
    (generateContainerFilterFuncs_keys "label" "" Example.runtime).2 (by decide)⟩

theorem statusFilter_stopped (c : Container) :
    statusFilter "stopped" c = statusFilter "exited" c := rfl

/-- C12: the predicates compiled from `status=stopped` and from `status=exited` return the
same boolean on every container, whatever its raw state and also when its state cannot be
read. -/
theorem status_stopped_same_as_exited (r : Runtime) :
    ∃ p q, generateContainerFilterFuncs "status" "stopped" r = (Except.ok p, []) ∧
      generateContainerFilterFuncs "status" "exited" r = (Except.ok q, []) ∧
      ∀ c : Container, p c = q c :=
  ⟨statusFilter "stopped", statusFilter "exited", rfl, rfl, statusFilter_stopped⟩

theorem statusFilter_normalized (V : String) (c : Container) :
    statusFilter V c = true ↔
      c.State.2 = none ∧
        Spec.normalizedState c.State.1 = (if V = "stopped" then "exited" else V) := by
  have hn : ∀ s : ContainerStatus,
      (if s = ContainerStatus.ContainerStateConfigured then "created"
        else if s = ContainerStatus.ContainerStateStopped then "exited"
        else s.String) = Spec.normalizedState s := by
    intro s
    cases s <;> rfl
  unfold statusFilter
  cases hs : c.State.2 with
  | some e => simp
  | none => simp only [hn, decide_eq_true_eq, true_and]

theorem normalizedState_created (s : ContainerStatus) :
    Spec.normalizedState s = "created" ↔
      s = ContainerStatus.ContainerStateConfigured ∨ s = ContainerStatus.ContainerStateCreated := by
  cases s <;> simp [Spec.normalizedState, ContainerStatus.String]

theorem normalizedState_exited (s : ContainerStatus) :
    Spec.normalizedState s = "exited" ↔
      s = ContainerStatus.ContainerStateStopped ∨ s = ContainerStatus.ContainerStateExited := by
  cases s <;> simp [Spec.normalizedState, ContainerStatus.String]

theorem normalizedState_running (s : ContainerStatus) :
    Spec.normalizedState s = "running" ↔ s = ContainerStatus.ContainerStateRunning := by
  cases s <;> simp [Spec.normalizedState, ContainerStatus.String]

theorem normalizedState_paused (s : ContainerStatus) :
    Spec.normalizedState s = "paused" ↔ s = ContainerStatus.ContainerStatePaused := by
  cases s <;> simp [Spec.normalizedState, ContainerStatus.String]

theorem normalizedState_unknown (s : ContainerStatus) :
    Spec.normalizedState s = "unknown" ↔ s = ContainerStatus.ContainerStateUnknown := by
  cases s <;> simp [Spec.normalizedState, ContainerStatus.String]

/-- C13: for each accepted operand `V`, the predicate compiled from `status=V` is true iff the
state of the container can be read and its normalized name equals `V` (`stopped` read as
`exited`); hence `status=created` matches exactly the raw states Configured and Created,
`status=exited` (and `status=stopped`) exactly Stopped and Exited, `status=running` exactly
Running, `status=paused` exactly Paused and `status=unknown` exactly Unknown. -/
theorem status_filter_semantics (V : String)
    (hV : V ∈ ["created", "running", "paused", "stopped", "exited", "unknown"]) (r : Runtime) :
    ∃ p, generateContainerFilterFuncs "status" V r = (Except.ok p, []) ∧
      (∀ c : Container, p c = true ↔
        c.State.2 = none ∧
          Spec.normalizedState c.State.1 = (if V = "stopped" then "exited" else V)) ∧
      (V = "created" → ∀ c : Container, p c = true ↔ c.State.2 = none ∧
        (c.State.1 = ContainerStatus.ContainerStateConfigured
          ∨ c.State.1 = ContainerStatus.ContainerStateCreated)) ∧
      (V = "exited" ∨ V = "stopped" → ∀ c : Container, p c = true ↔ c.State.2 = none ∧
        (c.State.1 = ContainerStatus.ContainerStateStopped
          ∨ c.State.1 = ContainerStatus.ContainerStateExited)) ∧
      (V = "running" → ∀ c : Container, p c = true ↔ c.State.2 = none ∧
        c.State.1 = ContainerStatus.ContainerStateRunning) ∧
      (V = "paused" → ∀ c : Container, p c = true ↔ c.State.2 = none ∧
        c.State.1 = ContainerStatus.ContainerStatePaused) ∧
      (V = "unknown" → ∀ c : Container, p c = true ↔ c.State.2 = none ∧
        c.State.1 = ContainerStatus.ContainerStateUnknown) := by
  have hin : StringInSlice V
      ["created", "running", "paused", "stopped", "exited", "unknown"] = true := by
    simp only [StringInSlice, List.contains_eq_any_beq, List.any_eq_true, beq_iff_eq]
    exact ⟨V, hV, rfl⟩
  refine ⟨statusFilter V, ?_, statusFilter_normalized V, ?_, ?_, ?_, ?_, ?_⟩
  · rw [gen_status, if_neg (by simp [hin])]
  · intro h c; subst h
    rw [statusFilter_normalized, if_neg (by decide), normalizedState_created]
  · intro h c
    rcases h with h | h <;> subst h
    · rw [statusFilter_normalized, if_neg (by decide), normalizedState_exited]
    · rw [statusFilter_normalized, if_pos rfl, normalizedState_exited]
  · intro h c; subst h
    rw [statusFilter_normalized, if_neg (by decide), normalizedState_running]
  · intro h c; subst h
    rw [statusFilter_normalized, if_neg (by decide), normalizedState_paused]
  · intro h c; subst h
    rw [statusFilter_normalized, if_neg (by decide), normalizedState_unknown]

/-- Witness for C13: `status=running` compiles and is true for the running container `web`. -/
theorem status_filter_semantics_witness :
    ∃ p, generateContainerFilterFuncs "status" "running" Example.runtime = (Except.ok p, []) ∧
      p Example.web = true := by
  obtain ⟨p, hp, hsem, _⟩ := status_filter_semantics "running" (by decide) Example.runtime
  exact ⟨p, hp, (hsem Example.web).2 ⟨rfl, rfl⟩⟩

theorem labelFilter_key (K : String) (hK : '=' ∉ K.data) (c : Container) :
    labelFilter K c = true ↔ ∃ l ∈ c.Labels, l.1 = K := by
  simp [labelFilter, SplitN2_of_not_mem K hK]

theorem labelFilter_key_value (K V : String) (hK : '=' ∉ K.data) (c : Container) :
    labelFilter (K ++ "=" ++ V) c = true ↔ ∃ l ∈ c.Labels, l.1 = K ∧ ("" = V ∨ l.2 = V) := by
  simp [labelFilter, SplitN2_key_value K V hK]

/-- C14 (counterexample): the predicate compiled from `label=tier=` (key `tier`, empty value)
is true for the container `web`, whose only label is `tier` with the value `front=1`: no label
of it has the value "". -/
theorem label_empty_value_matches_any :
    ∃ p, generateContainerFilterFuncs "label" ("tier" ++ "=" ++ "") Example.runtime
        = (Except.ok p, []) ∧
      p Example.web = true ∧
      ¬ ∃ l ∈ Example.web.Labels, l.1 = "tier" ∧ l.2 = "" :=
  ⟨_, rfl, by decide, by decide⟩

/-- C14 (amended): for a key `K` without `=`, the predicate compiled from `label=K` is true iff
the container has a label whose key is `K`; the predicate compiled from `label=K=V` is true
iff the container has a label whose key is `K` and whose value equals `V`, for every non-empty
`V`; with the empty `V` (operand `K=`) it is true iff the container has a label whose key is
`K`, whatever its value. -/
theorem label_filter_semantics (K : String) (hK : '=' ∉ K.data) (r : Runtime) :
    (∃ p, generateContainerFilterFuncs "label" K r = (Except.ok p, []) ∧
      ∀ c : Container, p c = true ↔ ∃ l ∈ c.Labels, l.1 = K) ∧
    (∀ V : String, ∃ p,
      generateContainerFilterFuncs "label" (K ++ "=" ++ V) r = (Except.ok p, []) ∧
      (V ≠ "" → ∀ c : Container, p c = true ↔ ∃ l ∈ c.Labels, l.1 = K ∧ l.2 = V) ∧
      (V = "" → ∀ c : Container, p c = true ↔ ∃ l ∈ c.Labels, l.1 = K)) := by
  refine ⟨⟨_, gen_label K r, labelFilter_key K hK⟩, fun V => ⟨_, gen_label _ r, ?_, ?_⟩⟩
  · intro hV c
    rw [labelFilter_key_value K V hK]
    constructor
    · rintro ⟨l, hl, h1, h2⟩
      rcases h2 with h2 | h2
      · exact absurd h2.symm hV
      · exact ⟨l, hl, h1, h2⟩
    · rintro ⟨l, hl, h1, h2⟩
      exact ⟨l, hl, h1, Or.inr h2⟩
  · intro hV c
    rw [labelFilter_key_value K V hK]
    constructor
    · rintro ⟨l, hl, h1, _⟩
      exact ⟨l, hl, h1⟩
    · rintro ⟨l, hl, h1⟩
      exact ⟨l, hl, h1, Or.inl hV.symm⟩

/-- Witness for C14 (amended): the key `tier`; `web` carries the label `tier` with the value
`front=1`, so `label=tier` and `label=tier=front=1` are true for it. -/
theorem label_filter_semantics_witness :
    (∃ p, generateContainerFilterFuncs "label" "tier" Example.runtime = (Except.ok p, []) ∧
      p Example.web = true) ∧
    (∃ p, generateContainerFilterFuncs "label" ("tier" ++ "=" ++ "front=1") Example.runtime
        = (Except.ok p, []) ∧ p Example.web = true) := by
  obtain ⟨⟨p, hp, hsem⟩, hv⟩ := label_filter_semantics "tier" (by decide) Example.runtime
  obtain ⟨q, hq, hne, _⟩ := hv "front=1"
  exact ⟨⟨p, hp, (hsem Example.web).2 (by decide)⟩,
    ⟨q, hq, (hne (by decide) Example.web).2 (by decide)⟩⟩

/-- C16 (counterexample): `web` was created at 10 and `db` at 5. The predicate compiled from
`before=web` is true for `db`, whose creation time is not after that of `web`; the predicate
compiled from `since=web` is false for `db`, whose creation time is strictly before that of
`web`. -/
theorem before_since_directions :
    (∃ p, generateContainerFilterFuncs "before" "web" Example.runtime
        = (Except.ok p, [RuntimeCall.LookupContainer "web"]) ∧
      p Example.db = true ∧ ¬ Example.web.CreatedTime < Example.db.CreatedTime) ∧
    (∃ q, generateContainerFilterFuncs "since" "web" Example.runtime
        = (Except.ok q, [RuntimeCall.LookupContainer "web"]) ∧
      q Example.db = false ∧ Example.db.CreatedTime < Example.web.CreatedTime) :=
  ⟨⟨_, rfl, by decide, by decide⟩, ⟨_, rfl, by decide, by decide⟩⟩

/-- C16 (amended): for a reference container `R` that the runtime resolves, the predicate
compiled from `before=R` is true for a candidate iff the candidate's creation time is strictly
before that of `R`, and the predicate compiled from `since=R` is true iff the candidate's
creation time is strictly after that of `R`. -/
theorem before_since_semantics (name : String) (R : Container) (r : Runtime)
    (hR : r.LookupContainer name = Except.ok R) :
    (∃ p, generateContainerFilterFuncs "before" name r
        = (Except.ok p, [RuntimeCall.LookupContainer name]) ∧
      ∀ c : Container, p c = true ↔ c.CreatedTime < R.CreatedTime) ∧
    (∃ q, generateContainerFilterFuncs "since" name r
        = (Except.ok q, [RuntimeCall.LookupContainer name]) ∧
      ∀ c : Container, q c = true ↔ R.CreatedTime < c.CreatedTime) := by
  constructor
  · refine ⟨fun c => decide (c.Config.CreatedTime < R.Config.CreatedTime), ?_, ?_⟩
    · rw [gen_before, hR]
    · intro c; simp [Container.CreatedTime]
  · refine ⟨fun c => decide (R.Config.CreatedTime < c.Config.CreatedTime), ?_, ?_⟩
    · rw [gen_since, hR]
    · intro c; simp [Container.CreatedTime]

/-- Witness for C16 (amended): the reference `web` in the example runtime. -/
theorem before_since_semantics_witness :
    (∃ p, generateContainerFilterFuncs "before" "web" Example.runtime
        = (Except.ok p, [RuntimeCall.LookupContainer "web"]) ∧
      ∀ c : Container, p c = true ↔ c.CreatedTime < Example.web.CreatedTime) ∧
    (∃ q, generateContainerFilterFuncs "since" "web" Example.runtime
        = (Except.ok q, [RuntimeCall.LookupContainer "web"]) ∧
      ∀ c : Container, q c = true ↔ Example.web.CreatedTime < c.CreatedTime) :=
  before_since_semantics "web" Example.web Example.runtime rfl

/-! ## `ps`: the volume filter -/

theorem splitChars_of_not_mem (sep : Char) (l : List Char) (h : sep ∉ l) :
    splitChars sep l = [l] := by
  induction l with
  | nil => rfl
  | cons c cs ih =>
    simp only [List.mem_cons, not_or] at h
    have hc : c ≠ sep := fun e => h.1 e.symm
    simp [splitChars, hc, ih h.2]

theorem splitChars_append (sep : Char) (k v : List Char) (h : sep ∉ k) :
    splitChars sep (k ++ sep :: v) = k :: splitChars sep v := by
  induction k with
  | nil => simp [splitChars]
  | cons c cs ih =>
    simp only [List.mem_cons, not_or] at h
    have hc : c ≠ sep := fun e => h.1 e.symm
    simp [splitChars, hc, ih h.2]

theorem splitChars_length_pos (sep : Char) (l : List Char) :
    1 ≤ (splitChars sep l).length := by
  cases l with
  | nil => simp [splitChars]
  | cons c cs =>
    simp only [splitChars]
    split_ifs
    · simp
    · split <;> simp

theorem splitChars_length_of_mem (sep : Char) (l : List Char) (h : sep ∈ l) :
    2 ≤ (splitChars sep l).length := by
  induction l with
  | nil => simp at h
  | cons c cs ih =>
    by_cases hc : c = sep
    · have hpos := splitChars_length_pos sep cs
      simp only [splitChars, hc, if_true, List.length_cons]
      omega
    · have hcs : sep ∈ cs := by
        rcases List.mem_cons.mp h with h | h
        · exact absurd h.symm hc
        · exact h
      have := ih hcs
      simp only [splitChars, hc, if_false]
      split
      · rename_i heq; rw [heq] at this; simp at this
      · rename_i x xs heq; rw [heq] at this; simpa using this

theorem Split_of_not_mem (s : String) (h : ':' ∉ s.data) : Split s ':' = [s] := by
  simp [Split, splitChars_of_not_mem _ _ h]

theorem Split_append (k v : String) (h : ':' ∉ k.data) :
    Split (k ++ ":" ++ v) ':' = k :: Split v ':' := by
  have hd : (k ++ ":" ++ v).data = k.data ++ ':' :: v.data := by
    simp [String.data_append]
  simp [Split, hd, splitChars_append _ _ _ h]

theorem volumeFilter_source (SRC : String) (h : ':' ∉ SRC.data) (c : Container) :
    volumeFilter SRC c = true ↔ ∃ m ∈ c.Config.Mounts, m.Source = SRC := by
  simp [volumeFilter, Split_of_not_mem SRC h]

theorem volumeFilter_source_dest (SRC DST : String) (h : ':' ∉ SRC.data)
    (hD : ':' ∉ DST.data) (c : Container) :
    volumeFilter (SRC ++ ":" ++ DST) c = true ↔
      ∃ m ∈ c.Config.Mounts,
        (DST ≠ "" ∧ m.Source = SRC ∧ m.Destination = DST) ∨ (DST = "" ∧ m.Source = SRC) := by
  simp [volumeFilter, Split_append SRC DST h, Split_of_not_mem DST hD]

theorem volumeFilter_source_rest (SRC DST : String) (h : ':' ∉ SRC.data)
    (hD : ':' ∈ DST.data) (c : Container) :
    volumeFilter (SRC ++ ":" ++ DST) c = true ↔ ∃ m ∈ c.Config.Mounts, m.Source = SRC := by
  have hlen : 2 ≤ (Split DST ':').length := by
    simpa [Split] using splitChars_length_of_mem ':' DST.data hD
  have hne : ¬ ((Split DST ':').length + 1 = 2) := by omega
  simp [volumeFilter, Split_append SRC DST h, hne]

/-! ## `ps`: the exited filter -/

theorem foldl_digits (digits : List Char) (a : Nat) :
    digits.foldl (fun acc c => acc * 10 + (c.toNat - 48)) a
      = a * 10 ^ digits.length + Spec.decimalValue digits := by
  induction digits generalizing a with
  | nil => simp [Spec.decimalValue]
  | cons c cs ih =>
    simp only [List.foldl_cons, ih, Spec.decimalValue, List.reverse_cons, List.map_append,
      List.map_cons, List.map_nil, Nat.ofDigits_append, List.length_map, List.length_reverse,
      Nat.ofDigits_singleton, List.length_cons]
    ring

/-- The part of `ParseInt32` after the sign has been taken off. -/
theorem parse_digits (neg : Bool) (digits : List Char) (n : Int) :
    (if digits = [] ∨ ¬ (digits.all Char.isDigit = true) then none
      else
        if neg = false ∧ 2 ^ 31 ≤ digits.foldl (fun acc c => acc * 10 + (c.toNat - 48)) 0 then none
        else if neg = true ∧ 2 ^ 31 < digits.foldl (fun acc c => acc * 10 + (c.toNat - 48)) 0
          then none
        else some (if neg then
            -((digits.foldl (fun acc c => acc * 10 + (c.toNat - 48)) 0 : Nat) : Int)
          else ((digits.foldl (fun acc c => acc * 10 + (c.toNat - 48)) 0 : Nat) : Int))) = some n
    ↔ digits ≠ [] ∧ (∀ c ∈ digits, c.isDigit = true) ∧
      n = (if neg = true then -(Spec.decimalValue digits : Int)
        else (Spec.decimalValue digits : Int)) ∧
      -2 ^ 31 ≤ n ∧ n < 2 ^ 31 := by
  have hf := foldl_digits digits 0
  simp only [Nat.zero_mul, Nat.zero_add] at hf
  rw [hf]
  by_cases h1 : digits = []
  · simp [h1]
  by_cases h2 : ∀ c ∈ digits, c.isDigit = true
  · have h2' : digits.all Char.isDigit = true := List.all_eq_true.mpr h2
    simp only [h1, h2', not_true_eq_false, or_self, if_false, ne_eq, not_false_eq_true, true_and]
    cases neg
    · simp only [true_and, Bool.false_eq_true, false_and, if_false]
      split_ifs with h3
      · simp only [false_iff]
        rintro ⟨_, rfl, _, h5⟩
        omega
      · simp only [Option.some.injEq]
        constructor
        · rintro rfl
          refine ⟨h2, rfl, ?_, ?_⟩ <;> omega
        · rintro ⟨_, rfl, _, _⟩; rfl
    · simp only [Bool.true_eq_false, false_and, if_false, true_and, if_true]
      split_ifs with h3
      · simp only [false_iff]
        rintro ⟨_, rfl, h5, _⟩
        omega
      · simp only [Option.some.injEq]
        constructor
        · rintro rfl
          refine ⟨h2, rfl, ?_, ?_⟩ <;> omega
        · rintro ⟨_, rfl, _, _⟩; rfl
  · have h2' : ¬ (digits.all Char.isDigit = true) := fun h => h2 (List.all_eq_true.mp h)
    simp [h2', h2]

theorem isDigit_ne_sign (c : Char) (h : c.isDigit = true) : c ≠ '+' ∧ c ≠ '-' := by
  constructor <;> (rintro rfl; revert h; decide)

theorem ParseInt32_iff (s : String) (n : Int) :
    ParseInt32 s = some n ↔ Spec.IsInt32Numeral s n := by
  unfold ParseInt32 Spec.IsInt32Numeral
  split
  rename_i neg digits heq
  rw [parse_digits]
  split at heq
  · -- leading '+'
    rename_i ds hs
    simp only [Prod.mk.injEq] at heq
    obtain ⟨rfl, rfl⟩ := heq
    constructor
    · rintro ⟨h1, h2, h3, h4⟩
      exact ⟨['+'], ds, by simp [hs], Or.inr (Or.inl rfl), h1, h2, by simpa using h3, h4⟩
    · rintro ⟨sign, digits, hsd, hsign, h1, h2, h3, h4⟩
      rw [hs] at hsd
      rcases hsign with rfl | rfl | rfl
      · simp only [List.nil_append] at hsd
        subst hsd
        exact absurd rfl (isDigit_ne_sign _ (h2 _ (List.mem_cons_self _ _))).1
      · simp only [List.singleton_append, List.cons.injEq, true_and] at hsd
        subst hsd
        exact ⟨h1, h2, by simpa using h3, h4⟩
      · simp at hsd
  · -- leading '-'
    rename_i ds hs
    simp only [Prod.mk.injEq] at heq
    obtain ⟨rfl, rfl⟩ := heq
    constructor
    · rintro ⟨h1, h2, h3, h4⟩
      exact ⟨['-'], ds, by simp [hs], Or.inr (Or.inr rfl), h1, h2, by simpa using h3, h4⟩
    · rintro ⟨sign, digits, hsd, hsign, h1, h2, h3, h4⟩
      rw [hs] at hsd
      rcases hsign with rfl | rfl | rfl
      · simp only [List.nil_append] at hsd
        subst hsd
        exact absurd rfl (isDigit_ne_sign _ (h2 _ (List.mem_cons_self _ _))).2
      · simp at hsd
      · simp only [List.singleton_append, List.cons.injEq, true_and] at hsd
        subst hsd
        exact ⟨h1, h2, by simpa using h3, h4⟩
  · -- no sign
    rename_i ds hplus hminus
    simp only [Prod.mk.injEq] at heq
    obtain ⟨rfl, rfl⟩ := heq
    constructor
    · rintro ⟨h1, h2, h3, h4⟩
      exact ⟨[], s.data, by simp, Or.inl rfl, h1, h2, by simpa using h3, h4⟩
    · rintro ⟨sign, digits, hsd, hsign, h1, h2, h3, h4⟩
      rcases hsign with rfl | rfl | rfl
      · simp only [List.nil_append] at hsd
        rw [hsd]
        exact ⟨h1, h2, by simpa using h3, h4⟩
      · exact absurd hsd (by simpa using hplus digits)
      · exact absurd hsd (by simpa using hminus digits)

/-! ## `ps`: batch reads -/

theorem int32_of_range (n : Int) (h1 : -2 ^ 31 ≤ n) (h2 : n < 2 ^ 31) : int32 n = n := by
  unfold int32
  omega

theorem status_chain (env : Env) (s : ContainerStatus) (exitCode exitedAt startedAt : Int) :
    (if s.String = ContainerStatus.ContainerStateExited.String
          ∨ s.String = ContainerStatus.ContainerStateStopped.String then
        "Exited (" ++ Itoa exitCode ++ ") " ++ env.HumanDuration (env.now - exitedAt) ++ " ago"
      else if s.String = ContainerStatus.ContainerStateRunning.String then
        "Up " ++ env.HumanDuration (env.now - startedAt) ++ " ago"
      else if s.String = ContainerStatus.ContainerStatePaused.String then
        "Paused"
      else if s.String = ContainerStatus.ContainerStateCreated.String
          ∨ s.String = ContainerStatus.ContainerStateConfigured.String then
        "Created"
      else "Error") = Spec.derivedStatus env s exitCode exitedAt startedAt := by
  cases s <;> simp [ContainerStatus.String, Spec.derivedStatus]

/-- What `NewBatchContainer` returns when the batch closure succeeds and the ID can be cut. -/
theorem NewBatchContainer_returned (env : Env) (ctr : Container) (opts : PsOptions)
    (hr : ctr.readable opts)
    (hID : opts.NoTrunc = true ∨ cidTruncLength ≤ ctr.ID.length) :
    NewBatchContainer env ctr opts = Outcome.returned
      ({ ID := if opts.NoTrunc then ctr.ID else String.mk (ctr.ID.data.take cidTruncLength)
         Image := ctr.Image.2
         Command :=
          if opts.NoTrunc = false ∧ cmdTruncLength < (Join ctr.Command " ").length
          then String.mk ((Join ctr.Command " ").data.take cmdTruncLength) ++ "..."
          else Join ctr.Command " "
         Created := env.HumanDuration (env.now - ctr.CreatedTime) ++ " ago"
         Ports := (portsToString ctr.PortMappings.1).1
         Names := ctr.Name
         IsInfra := ctr.IsInfra
         Status := Spec.derivedStatus env ctr.State.1 ctr.ExitCode.1 ctr.FinishedTime.1
          ctr.StartedTime.1
         State := ctr.State.1
         Pid := if opts.Namespace then ctr.PID.1 else 0
         Size := if opts.Size then some ⟨ctr.RootFsSize.1, ctr.RWSize.1⟩ else none
         Pod := if opts.NoTrunc = false ∧ podTruncLength < ctr.PodID.length
          then String.mk (ctr.PodID.data.take podTruncLength) else ctr.PodID
         CreatedAt := ctr.CreatedTime
         ExitedAt := ctr.FinishedTime.1
         StartedAt := ctr.StartedTime.1
         Labels := ctr.Labels
         PID := ""
         Cgroup := if opts.Namespace then (env.GetNamespaces ctr.PID.1).Cgroup else ""
         IPC := if opts.Namespace then (env.GetNamespaces ctr.PID.1).IPC else ""
         MNT := if opts.Namespace then (env.GetNamespaces ctr.PID.1).MNT else ""
         NET := if opts.Namespace then (env.GetNamespaces ctr.PID.1).NET else ""
         PIDNS := if opts.Namespace then (env.GetNamespaces ctr.PID.1).PIDNS else ""
         User := if opts.Namespace then (env.GetNamespaces ctr.PID.1).User else ""
         UTS := if opts.Namespace then (env.GetNamespaces ctr.PID.1).UTS else ""
         Mounts := Join ctr.UserVolumes " " }, none) := by
  obtain ⟨hB, hSy, hSt, hE, hP⟩ := hr
  have hsync : (if opts.Sync = true then ctr.Sync else none) = none := by
    by_cases h : opts.Sync = true
    · rw [if_pos h]; exact hSy h
    · rw [if_neg h]
  have hpid : (if opts.Namespace = true then ctr.PID.2 else none) = none := by
    by_cases h : opts.Namespace = true
    · rw [if_pos h]; exact hP h
    · rw [if_neg h]
  have hnp : ¬ (opts.NoTrunc = false ∧ ctr.ID.length < cidTruncLength) := by
    rintro ⟨h1, h2⟩
    rcases hID with h | h
    · rw [h] at h1; exact Bool.noConfusion h1
    · omega
  unfold NewBatchContainer
  simp only [hB, hsync, hSt, hE, hpid, status_chain, hnp, if_false]
  cases hN : opts.Namespace <;> simp [PsContainerOutput.zero]

/-- C15: `exited=N` compiles iff `N` is a base-10 numeral (optional sign, then digits) of an
integer within `[-2^31, 2^31 - 1]`; the predicate compiled for the numeral of `n` is true iff
reading the container's exit code succeeds, the container is reported as exited, and its exit
code equals `n`. -/
theorem exited_filter_semantics (N : String) (r : Runtime) :
    ((∃ p, (generateContainerFilterFuncs "exited" N r).1 = Except.ok p)
      ↔ ∃ n, Spec.IsInt32Numeral N n) ∧
    (∀ n, Spec.IsInt32Numeral N n →
      ∃ p, generateContainerFilterFuncs "exited" N r = (Except.ok p, []) ∧
        ∀ c : Container, p c = true ↔
          c.ExitCode.2.2 = none ∧ c.ExitCode.2.1 = true ∧ c.ExitCode.1 = n) := by
  constructor
  · rw [gen_exited]
    cases hp : ParseInt32 N with
    | none =>
      constructor
      · rintro ⟨p, hp'⟩
        simp at hp'
      · rintro ⟨n, hn⟩
        rw [(ParseInt32_iff N n).mpr hn] at hp
        simp at hp
    | some n =>
      constructor
      · intro _
        exact ⟨n, (ParseInt32_iff N n).mp hp⟩
      · intro _
        exact ⟨_, rfl⟩
  · intro n hn
    have hp := (ParseInt32_iff N n).mpr hn
    obtain ⟨_, _, _, _, _, _, _, hlo, hhi⟩ := hn
    refine ⟨fun c => decide (c.ExitCode.1 = int32 n ∧ c.ExitCode.2.2 = none
      ∧ c.ExitCode.2.1 = true), ?_, ?_⟩
    · rw [gen_exited, hp]
    · intro c
      rw [int32_of_range n hlo hhi]
      simp only [decide_eq_true_eq]
      tauto

/-- Witness for C15: the operand `-1` is the numeral of -1, and `web` has not exited with that
code. -/
theorem exited_filter_semantics_witness :
    ∃ p, generateContainerFilterFuncs "exited" "-1" Example.runtime = (Except.ok p, []) ∧
      p Example.web = false := by
  have hn : Spec.IsInt32Numeral "-1" (-1) :=
    ⟨['-'], ['1'], rfl, Or.inr (Or.inr rfl), by decide, by decide,
      by simp [Spec.decimalValue], by decide, by decide⟩
  obtain ⟨p, hp, hsem⟩ := (exited_filter_semantics "-1" Example.runtime).2 (-1) hn
  refine ⟨p, hp, ?_⟩
  cases h : p Example.web with
  | false => rfl
  | true =>
    have := ((hsem Example.web).1 h).2.1
    exact absurd this (by decide)

/-- C17 (counterexample): the only mount of `db` has source `data` and destination
`/var/lib/db`. The predicates compiled from `volume=data:` (empty destination) and from
`volume=data:/var/lib/db:ro` are both true for it, although no mount of it has the destination
"" or `/var/lib/db:ro`. -/
theorem volume_destination_not_compared :
    (∃ p, generateContainerFilterFuncs "volume" ("data" ++ ":" ++ "") Example.runtime
        = (Except.ok p, []) ∧ p Example.db = true ∧
      ¬ ∃ m ∈ Example.db.Config.Mounts, m.Source = "data" ∧ m.Destination = "") ∧
    (∃ p, generateContainerFilterFuncs "volume" ("data" ++ ":" ++ "/var/lib/db:ro")
        Example.runtime = (Except.ok p, []) ∧ p Example.db = true ∧
      ¬ ∃ m ∈ Example.db.Config.Mounts, m.Source = "data" ∧ m.Destination = "/var/lib/db:ro") :=
  ⟨⟨_, rfl, by decide, by decide⟩, ⟨_, rfl, by decide, by decide⟩⟩

/-- C17 (amended): for a source `SRC` without `:`, the predicate compiled from `volume=SRC` is
true iff some mount of the container has source exactly `SRC`; the predicate compiled from
`volume=SRC:DST` is true iff some mount has source exactly `SRC` and destination exactly `DST`
when `DST` is non-empty and contains no `:`; when `DST` is empty or contains `:` the
destination is not compared and the predicate is true iff some mount has source exactly
`SRC`. -/
theorem volume_filter_semantics (SRC : String) (hS : ':' ∉ SRC.data) (r : Runtime) :
    (∃ p, generateContainerFilterFuncs "volume" SRC r = (Except.ok p, []) ∧
      ∀ c : Container, p c = true ↔ ∃ m ∈ c.Config.Mounts, m.Source = SRC) ∧
    (∀ DST : String, ∃ p,
      generateContainerFilterFuncs "volume" (SRC ++ ":" ++ DST) r = (Except.ok p, []) ∧
      (DST ≠ "" → ':' ∉ DST.data → ∀ c : Container, p c = true ↔
        ∃ m ∈ c.Config.Mounts, m.Source = SRC ∧ m.Destination = DST) ∧
      (DST = "" ∨ ':' ∈ DST.data → ∀ c : Container, p c = true ↔
        ∃ m ∈ c.Config.Mounts, m.Source = SRC)) := by
  refine ⟨⟨_, gen_volume SRC r, volumeFilter_source SRC hS⟩,
    fun DST => ⟨_, gen_volume _ r, ?_, ?_⟩⟩
  · intro hne hD c
    rw [volumeFilter_source_dest SRC DST hS hD]
    constructor
    · rintro ⟨m, hm, h | h⟩
      · exact ⟨m, hm, h.2⟩
      · exact absurd h.1 hne
    · rintro ⟨m, hm, h⟩
      exact ⟨m, hm, Or.inl ⟨hne, h⟩⟩
  · intro h c
    by_cases hD : ':' ∈ DST.data
    · exact volumeFilter_source_rest SRC DST hS hD c
    · have he : DST = "" := by
        rcases h with h | h
        · exact h
        · exact absurd h hD
      rw [volumeFilter_source_dest SRC DST hS hD]
      constructor
      · rintro ⟨m, hm, h | h⟩
        · exact absurd he h.1
        · exact ⟨m, hm, h.2⟩
      · rintro ⟨m, hm, h⟩
        exact ⟨m, hm, Or.inr ⟨he, h⟩⟩

/-- Witness for C17 (amended): the source `data`, alone and with the destination
`/var/lib/db`, on the container `db`. -/
theorem volume_filter_semantics_witness :
    (∃ p, generateContainerFilterFuncs "volume" "data" Example.runtime = (Except.ok p, []) ∧
      p Example.db = true) ∧
    (∃ p, generateContainerFilterFuncs "volume" ("data" ++ ":" ++ "/var/lib/db")
        Example.runtime = (Except.ok p, []) ∧ p Example.db = true) := by
  obtain ⟨⟨p, hp, hsem⟩, hv⟩ := volume_filter_semantics "data" (by decide) Example.runtime
  obtain ⟨q, hq, hne, _⟩ := hv "/var/lib/db"
  exact ⟨⟨p, hp, (hsem Example.db).2 (by decide)⟩,
    ⟨q, hq, (hne (by decide) (by decide) Example.db).2 (by decide)⟩⟩

/-- What `NewBatchContainer` does when the batch closure succeeds, truncation is requested and
the ID is shorter than `cidTruncLength`. -/
theorem NewBatchContainer_short_id (env : Env) (ctr : Container) (opts : PsOptions)
    (hr : ctr.readable opts) (hNT : opts.NoTrunc = false)
    (hID : ctr.ID.length < cidTruncLength) :
    NewBatchContainer env ctr opts = Outcome.panicked "slice bounds out of range" := by
  obtain ⟨hB, hSy, hSt, hE, hP⟩ := hr
  have hsync : (if opts.Sync = true then ctr.Sync else none) = none := by
    by_cases h : opts.Sync = true
    · rw [if_pos h]; exact hSy h
    · rw [if_neg h]
  have hpid : (if opts.Namespace = true then ctr.PID.2 else none) = none := by
    by_cases h : opts.Namespace = true
    · rw [if_pos h]; exact hP h
    · rw [if_neg h]
  unfold NewBatchContainer
  simp only [hB, hsync, hSt, hE, hpid, hNT, hID, and_self, if_true]

/-- C18: when the batch read of a container succeeds, the status of its record is a function
of the raw state: Exited or Stopped gives "Exited (<exitCode>) <HumanDuration(now - exitedAt)>
ago", Running gives "Up <HumanDuration(now - startedAt)> ago", Paused gives "Paused", Created
or Configured gives "Created", and every other state (Unknown and the values that name no
state) gives "Error". -/
theorem derived_status (env : Env) (ctr : Container) (opts : PsOptions)
    (hr : ctr.readable opts) (hID : opts.NoTrunc = true ∨ cidTruncLength ≤ ctr.ID.length) :
    ∃ pso, NewBatchContainer env ctr opts = Outcome.returned (pso, none) ∧
      pso.State = ctr.State.1 ∧
      pso.Status = Spec.derivedStatus env pso.State ctr.ExitCode.1 ctr.FinishedTime.1
        ctr.StartedTime.1 ∧
      (pso.State = ContainerStatus.ContainerStateExited
          ∨ pso.State = ContainerStatus.ContainerStateStopped →
        pso.Status = "Exited (" ++ Itoa ctr.ExitCode.1 ++ ") "
          ++ env.HumanDuration (env.now - ctr.FinishedTime.1) ++ " ago") ∧
      (pso.State = ContainerStatus.ContainerStateRunning →
        pso.Status = "Up " ++ (env.HumanDuration (env.now - ctr.StartedTime.1) ++ " ago")) ∧
      (pso.State = ContainerStatus.ContainerStatePaused → pso.Status = "Paused") ∧
      (pso.State = ContainerStatus.ContainerStateCreated
          ∨ pso.State = ContainerStatus.ContainerStateConfigured →
        pso.Status = "Created") ∧
      (pso.State = ContainerStatus.ContainerStateUnknown
          ∨ (∃ n, pso.State = ContainerStatus.unrecognized n) →
        pso.Status = "Error") := by
  refine ⟨_, NewBatchContainer_returned env ctr opts hr hID, rfl, rfl, ?_, ?_, ?_, ?_, ?_⟩
  · rintro (h | h) <;> simp only at h <;> simp only [h, Spec.derivedStatus]
  · intro h
    simp only at h
    simp only [h, Spec.derivedStatus, String.append_assoc]
  · intro h
    simp only at h
    simp only [h, Spec.derivedStatus]
  · rintro (h | h) <;> simp only at h <;> simp only [h, Spec.derivedStatus]
  · rintro (h | ⟨n, h⟩) <;> simp only at h <;> simp only [h, Spec.derivedStatus]

/-- Witness for C18: the running container `web`, started 980 ns before the clock reading. -/
theorem derived_status_witness :
    ∃ pso, NewBatchContainer Example.env Example.web (Example.last 0)
        = Outcome.returned (pso, none) ∧ pso.Status = "Up 980 ns ago" := by
  obtain ⟨pso, hp, hst, _, _, hrun, _⟩ := derived_status Example.env Example.web
    (Example.last 0) ⟨rfl, fun h => rfl, rfl, rfl, fun h => rfl⟩ (Or.inr (by decide))
  exact ⟨pso, hp, by rw [hrun (by rw [hst]; rfl)]; decide⟩

/-- C20: with `NoTrunc` unset and a batch read that succeeds, a record is produced whenever
the container ID has at least 12 characters, and in every record produced the ID is the first
12 characters of the container ID (a prefix of it), the pod id is cut to its first 12
characters when it is longer than 12 and unchanged otherwise, and the command is the first 17
characters of the space-joined command followed by "..." when that is longer than 17 and
unchanged otherwise. -/
theorem truncated_fields (env : Env) (ctr : Container) (opts : PsOptions)
    (hNT : opts.NoTrunc = false) (hr : ctr.readable opts) :
    (12 ≤ ctr.ID.length → ∃ pso, NewBatchContainer env ctr opts = Outcome.returned (pso, none)) ∧
    ∀ pso, NewBatchContainer env ctr opts = Outcome.returned (pso, none) →
      pso.ID.data = ctr.ID.data.take 12 ∧ pso.ID.length = 12 ∧ pso.ID.data <+: ctr.ID.data ∧
      pso.Pod = (if 12 < ctr.PodID.length then String.mk (ctr.PodID.data.take 12)
        else ctr.PodID) ∧
      pso.Command = (if 17 < (Join ctr.Command " ").length
        then String.mk ((Join ctr.Command " ").data.take 17) ++ "..."
        else Join ctr.Command " ") := by
  constructor
  · intro h
    exact ⟨_, NewBatchContainer_returned env ctr opts hr (Or.inr h)⟩
  · intro pso hpso
    by_cases hlen : ctr.ID.length < cidTruncLength
    · rw [NewBatchContainer_short_id env ctr opts hr hNT hlen] at hpso
      exact Outcome.noConfusion hpso
    · have hge : cidTruncLength ≤ ctr.ID.length := by omega
      rw [NewBatchContainer_returned env ctr opts hr (Or.inr hge)] at hpso
      simp only [Outcome.returned.injEq, Prod.mk.injEq, and_true] at hpso
      subst hpso
      have hge' : 12 ≤ ctr.ID.data.length := hge
      simp only [hNT, Bool.false_eq_true, if_false, true_and, cidTruncLength, podTruncLength,
        cmdTruncLength, and_true]
      refine ⟨?_, ⟨ctr.ID.data.drop 12, List.take_append_drop 12 ctr.ID.data⟩⟩
      show (ctr.ID.data.take 12).length = 12
      rw [List.length_take]
      omega

/-- Witness for C20: the container `job`, with a 20-character ID, a 20-character pod id and
the command `sleep 100000000000000`. -/
theorem truncated_fields_witness :
    ∃ pso, NewBatchContainer Example.env Example.job (Example.last 0)
        = Outcome.returned (pso, none) ∧
      pso.ID = "cccccccccccc" ∧ pso.Pod = "0123456789ab" ∧ pso.Command = "sleep 10000000000..." := by
  have hr : Example.job.readable (Example.last 0) := ⟨rfl, fun _ => rfl, rfl, rfl, fun _ => rfl⟩
  obtain ⟨hex, hall⟩ := truncated_fields Example.env Example.job (Example.last 0) rfl hr
  obtain ⟨pso, hpso⟩ := hex (by decide)
  obtain ⟨hid, _, _, hpod, hcmd⟩ := hall pso hpso
  refine ⟨pso, hpso, ?_, ?_, ?_⟩
  · exact String.ext hid
  · rw [hpod]; decide
  · rw [hcmd]; decide

/-! ### Port formatting, the latest container and failing reads -/

theorem comparePorts_iff_key (a b : PortMapping) :
    comparePorts a b = true ↔ Spec.portOrderKey a < Spec.portOrderKey b := by
  unfold comparePorts Spec.portOrderKey
  simp only [Prod.Lex.lt_iff, ne_eq, ite_not]
  by_cases h1 : a.ContainerPort = b.ContainerPort
  · by_cases h2 : a.HostIP = b.HostIP
    · by_cases h3 : a.HostPort = b.HostPort
      · simp [h1, h2, h3]
      · simp [h1, h2, h3]
    · simp [h1, h2]
  · simp [h1]

theorem portOrderKey_injective (a b : PortMapping)
    (h : Spec.portOrderKey a = Spec.portOrderKey b) : a = b := by
  cases a; cases b
  simp only [Spec.portOrderKey, EmbeddingLike.apply_eq_iff_eq, Prod.mk.injEq] at h
  obtain ⟨h1, h2, h3, h4⟩ := h
  subst h1 h2 h3 h4
  rfl

/-- The relation handed to the sort: `a` may stand before `b`. -/
theorem portLE_iff (a b : PortMapping) :
    comparePorts b a = false ↔ Spec.portOrderKey a ≤ Spec.portOrderKey b := by
  rw [← not_lt, ← comparePorts_iff_key]
  simp

theorem portLE_total (a b : PortMapping) :
    comparePorts b a = false ∨ comparePorts a b = false := by
  rw [portLE_iff, portLE_iff]
  exact le_total _ _

theorem portLE_trans (a b c : PortMapping) (h1 : comparePorts b a = false)
    (h2 : comparePorts c b = false) : comparePorts c a = false := by
  rw [portLE_iff] at h1 h2 ⊢
  exact le_trans h1 h2

theorem portLE_antisymm (a b : PortMapping) (h1 : comparePorts b a = false)
    (h2 : comparePorts a b = false) : a = b := by
  rw [portLE_iff] at h1 h2
  exact portOrderKey_injective a b (le_antisymm h1 h2)

theorem sorted_sortedPorts (ports : List PortMapping) :
    (ports.insertionSort fun a b => comparePorts b a = false).Sorted
      fun a b => comparePorts b a = false := by
  haveI : IsTotal PortMapping (fun a b => comparePorts b a = false) := ⟨portLE_total⟩
  haveI : IsTrans PortMapping (fun a b => comparePorts b a = false) := ⟨portLE_trans⟩
  exact List.sorted_insertionSort _ ports

theorem sortedPorts_eq_of_perm (l₁ l₂ : List PortMapping) (hp : l₁.Perm l₂)
    (hs : l₂.Sorted fun a b => comparePorts b a = false) :
    (l₁.insertionSort fun a b => comparePorts b a = false) = l₂ := by
  haveI : IsAntisymm PortMapping (fun a b => comparePorts b a = false) := ⟨portLE_antisymm⟩
  exact List.eq_of_perm_of_sorted ((List.perm_insertionSort _ l₁).trans hp)
    (sorted_sortedPorts l₁) hs

theorem step_individual (st : PortLoop) (v : PortMapping) (h : v.ContainerPort ≠ v.HostPort) :
    portsToString.step st v
      = { st with portDisplay := st.portDisplay ++ [Spec.portEntry v] } := by
  unfold portsToString.step
  simp only [h, ne_eq, not_false_eq_true, if_true]
  rfl

theorem step_grouped (st : PortLoop) (v : PortMapping) (h : v.ContainerPort = v.HostPort) :
    portsToString.step st v =
      match st.groups.find? fun g => g.1 = Spec.portKey v with
      | none =>
        { st with groups := st.groups ++ [(Spec.portKey v, v.ContainerPort, v.ContainerPort)] }
      | some portgroup =>
        if portgroup.2.2 = int32 (v.ContainerPort - 1) then
          { st with groups := st.groups.map fun g =>
              if g.1 = Spec.portKey v then (g.1, g.2.1, v.ContainerPort) else g }
        else st := by
  unfold portsToString.step
  simp only [h, ne_eq, not_true_eq_false, if_false]
  rfl

theorem step_grouped_display (st : PortLoop) (v : PortMapping)
    (h : v.ContainerPort = v.HostPort) :
    (portsToString.step st v).portDisplay = st.portDisplay ∧
      (portsToString.step st v).groups = (portsToString.step ⟨[], st.groups⟩ v).groups := by
  rw [step_grouped st v h, step_grouped ⟨[], st.groups⟩ v h]
  simp only
  split
  · exact ⟨rfl, rfl⟩
  · split_ifs <;> exact ⟨rfl, rfl⟩

theorem foldl_step_split (l : List PortMapping) :
    ∀ st : PortLoop,
      (l.foldl portsToString.step st).portDisplay
          = st.portDisplay
            ++ (l.filter fun v => decide (v.ContainerPort ≠ v.HostPort)).map Spec.portEntry ∧
      (l.foldl portsToString.step st).groups
          = ((l.filter fun v => decide (v.ContainerPort = v.HostPort)).foldl portsToString.step
              ⟨[], st.groups⟩).groups := by
  induction l with
  | nil => intro st; simp
  | cons v vs ih =>
    intro st
    by_cases h : v.ContainerPort = v.HostPort
    · obtain ⟨h1, h2⟩ := step_grouped_display st v h
      obtain ⟨i1, i2⟩ := ih (portsToString.step st v)
      have hs : portsToString.step ⟨[], st.groups⟩ v
          = ⟨[], (portsToString.step ⟨[], st.groups⟩ v).groups⟩ := by
        have hd := (step_grouped_display ⟨[], st.groups⟩ v h).1
        cases hx : portsToString.step ⟨[], st.groups⟩ v with
        | mk d g => rw [hx] at hd; simp only at hd; subst hd; rfl
      simp only [List.foldl_cons, List.filter_cons, h, ne_eq, not_true_eq_false, decide_False,
        decide_True, if_true, Bool.false_eq_true, if_false]
      refine ⟨by rw [i1, h1], ?_⟩
      rw [i2, h2, ← hs]
    · obtain ⟨i1, i2⟩ := ih (portsToString.step st v)
      simp only [List.foldl_cons, List.filter_cons, h, ne_eq, not_false_eq_true, decide_False,
        decide_True, if_true, Bool.false_eq_true, if_false, List.map_cons]
      rw [i1, i2, step_individual st v h]
      simp

theorem IsMaximalRun_append_other (E : List PortMapping) (v : PortMapping) (k : String)
    (f l : Int) (h : Spec.IsMaximalRun E k f l) (hk : Spec.portKey v ≠ k) :
    Spec.IsMaximalRun (E ++ [v]) k f l := by
  obtain ⟨⟨u, hu, hu1, hu2⟩, hmin, hrun, hmax⟩ := h
  refine ⟨⟨u, List.mem_append_left _ hu, hu1, hu2⟩, ?_, ?_, ?_⟩
  · intro w hw hwk
    rcases List.mem_append.mp hw with hw | hw
    · exact hmin w hw hwk
    · simp only [List.mem_singleton] at hw; subst hw; exact absurd hwk hk
  · intro j hj1 hj2
    obtain ⟨w, hw, hw1, hw2⟩ := hrun j hj1 hj2
    exact ⟨w, List.mem_append_left _ hw, hw1, hw2⟩
  · intro w hw hwk
    rcases List.mem_append.mp hw with hw | hw
    · exact hmax w hw hwk
    · simp only [List.mem_singleton] at hw; subst hw; exact absurd hwk hk

theorem int32_pred (c l : Int) (hc1 : -2 ^ 31 ≤ c) (hc2 : c < 2 ^ 31) (hl1 : -2 ^ 31 ≤ l)
    (hl2 : l ≤ c) : l = int32 (c - 1) ↔ l = c - 1 := by
  unfold int32
  omega

/-- One iteration of the grouping loop keeps the description of the groups. -/
theorem step_describes (seen : List PortMapping) (d : List String)
    (groups : List (String × Int × Int)) (v : PortMapping)
    (hInv : Spec.GroupsDescribe seen groups) (heq : v.ContainerPort = v.HostPort)
    (hle : ∀ u ∈ seen, u.ContainerPort ≤ v.ContainerPort)
    (hseen : ∀ u ∈ seen, -2 ^ 31 ≤ u.ContainerPort)
    (hv1 : -2 ^ 31 ≤ v.ContainerPort) (hv2 : v.ContainerPort < 2 ^ 31) :
    Spec.GroupsDescribe (seen ++ [v]) (portsToString.step ⟨d, groups⟩ v).groups := by
  obtain ⟨hnd, hcov, hgr⟩ := hInv
  rw [step_grouped _ v heq]
  simp only
  cases hf : groups.find? (fun g => decide (g.1 = Spec.portKey v)) with
  | none =>
    have hnone : ∀ g ∈ groups, g.1 ≠ Spec.portKey v := by
      intro g hg
      have := List.find?_eq_none.mp hf g hg
      simpa using this
    have hnokey : Spec.portKey v ∉ groups.map fun g => g.1 := by
      intro hmem
      obtain ⟨g, hg, hgk⟩ := List.mem_map.mp hmem
      exact hnone g hg hgk
    have hnoseen : ∀ u ∈ seen, Spec.portKey u ≠ Spec.portKey v := by
      intro u hu hk
      exact hnokey ((hcov _).mpr ⟨u, hu, hk⟩)
    refine ⟨?_, ?_, ?_⟩
    · simp only [List.map_append, List.map_cons, List.map_nil]
      rw [List.nodup_append]
      refine ⟨hnd, List.nodup_singleton _, ?_⟩
      intro a ha hb
      simp only [List.mem_singleton] at hb
      subst hb
      exact hnokey ha
    · intro k
      simp only [List.map_append, List.map_cons, List.map_nil, List.mem_append,
        List.mem_singleton]
      constructor
      · rintro (h | h)
        · obtain ⟨u, hu, huk⟩ := (hcov k).mp h
          exact ⟨u, Or.inl hu, huk⟩
        · exact ⟨v, Or.inr rfl, h.symm⟩
      · rintro ⟨u, hu | hu, huk⟩
        · exact Or.inl ((hcov k).mpr ⟨u, hu, huk⟩)
        · subst hu; exact Or.inr huk.symm
    · intro g hg
      rcases List.mem_append.mp hg with hg | hg
      · obtain ⟨h1, h2⟩ := hgr g hg
        exact ⟨h1, IsMaximalRun_append_other seen v _ _ _ h2 (fun h => hnone g hg h.symm)⟩
      · simp only [List.mem_singleton] at hg
        subst hg
        refine ⟨le_refl _, ⟨v, by simp, rfl, rfl⟩, ?_, ?_, ?_⟩
        · intro w hw hwk
          rcases List.mem_append.mp hw with hw | hw
          · exact absurd hwk (hnoseen w hw)
          · simp only [List.mem_singleton] at hw; subst hw; exact le_refl _
        · intro j hj1 hj2
          exact ⟨v, by simp, rfl, le_antisymm hj1 hj2 |>.symm ▸ rfl⟩
        · intro w hw hwk
          rcases List.mem_append.mp hw with hw | hw
          · exact absurd hwk (hnoseen w hw)
          · simp only [List.mem_singleton] at hw; subst hw; simp only; omega
  | some g0 =>
    have hg0 : g0 ∈ groups := List.mem_of_find?_eq_some hf
    have hg0k : g0.1 = Spec.portKey v := by
      have := List.find?_some hf
      simpa using this
    obtain ⟨hfl, ⟨u0, hu0, hu0k, hu0f⟩, hmin, hrun, hmax⟩ := hgr g0 hg0
    -- the last port of the group is a port seen before
    obtain ⟨ul, hul, hulk, hull⟩ := hrun g0.2.2 hfl (le_refl _)
    have hl1 : -2 ^ 31 ≤ g0.2.2 := by rw [← hull]; exact hseen ul hul
    have hl2 : g0.2.2 ≤ v.ContainerPort := by rw [← hull]; exact hle ul hul
    have huniq : ∀ g ∈ groups, g.1 = Spec.portKey v → g = g0 := by
      intro g hg hgk
      exact List.inj_on_of_nodup_map hnd hg hg0 (hgk.trans hg0k.symm)
    simp only
    by_cases hx : g0.2.2 = int32 (v.ContainerPort - 1)
    · rw [if_pos hx]
      have hx' : g0.2.2 = v.ContainerPort - 1 := (int32_pred _ _ hv1 hv2 hl1 hl2).mp hx
      simp only
      have hkeys : (List.map (fun g : String × Int × Int => g.1)
          (List.map (fun g : String × Int × Int =>
            if g.1 = Spec.portKey v then (g.1, g.2.1, v.ContainerPort) else g) groups))
          = List.map (fun g => g.1) groups := by
        rw [List.map_map]
        apply List.map_congr_left
        intro g _
        simp only [Function.comp]
        split_ifs <;> rfl
      refine ⟨by rw [hkeys]; exact hnd, ?_, ?_⟩
      · intro k
        rw [hkeys]
        constructor
        · intro h
          obtain ⟨u, hu, huk⟩ := (hcov k).mp h
          exact ⟨u, List.mem_append_left _ hu, huk⟩
        · rintro ⟨u, hu, huk⟩
          rcases List.mem_append.mp hu with hu | hu
          · exact (hcov k).mpr ⟨u, hu, huk⟩
          · simp only [List.mem_singleton] at hu
            subst hu
            rw [← huk, ← hg0k]
            exact List.mem_map.mpr ⟨g0, hg0, rfl⟩
      · intro g hg
        obtain ⟨g', hg', hgg⟩ := List.mem_map.mp hg
        by_cases hk : g'.1 = Spec.portKey v
        · rw [if_pos hk] at hgg
          have hgg0 : g' = g0 := huniq g' hg' hk
          subst hgg0
          subst hgg
          simp only
          refine ⟨by omega, ⟨u0, List.mem_append_left _ hu0, hu0k, hu0f⟩, ?_, ?_, ?_⟩
          · intro w hw hwk
            rcases List.mem_append.mp hw with hw | hw
            · exact hmin w hw hwk
            · simp only [List.mem_singleton] at hw; subst hw; omega
          · intro j hj1 hj2
            by_cases hj : j ≤ g'.2.2
            · obtain ⟨w, hw, hw1, hw2⟩ := hrun j hj1 hj
              exact ⟨w, List.mem_append_left _ hw, hw1, hw2⟩
            · exact ⟨v, by simp, hk.symm, by omega⟩
          · intro w hw hwk
            rcases List.mem_append.mp hw with hw | hw
            · have := hle w hw; omega
            · simp only [List.mem_singleton] at hw; subst hw; omega
        · rw [if_neg hk] at hgg
          subst hgg
          obtain ⟨h1, h2⟩ := hgr g' hg'
          exact ⟨h1, IsMaximalRun_append_other seen v _ _ _ h2 (fun h => hk h.symm)⟩
    · rw [if_neg hx]
      have hx' : g0.2.2 ≠ v.ContainerPort - 1 :=
        fun h => hx ((int32_pred _ _ hv1 hv2 hl1 hl2).mpr h)
      refine ⟨hnd, ?_, ?_⟩
      · intro k
        constructor
        · intro h
          obtain ⟨u, hu, huk⟩ := (hcov k).mp h
          exact ⟨u, List.mem_append_left _ hu, huk⟩
        · rintro ⟨u, hu, huk⟩
          rcases List.mem_append.mp hu with hu | hu
          · exact (hcov k).mpr ⟨u, hu, huk⟩
          · simp only [List.mem_singleton] at hu
            subst hu
            rw [← huk, ← hg0k]
            exact List.mem_map.mpr ⟨g0, hg0, rfl⟩
      · intro g hg
        by_cases hk : g.1 = Spec.portKey v
        · have hgg0 : g = g0 := huniq g hg hk
          subst hgg0
          refine ⟨hfl, ⟨u0, List.mem_append_left _ hu0, hu0k, hu0f⟩, ?_, ?_, ?_⟩
          · intro w hw hwk
            rcases List.mem_append.mp hw with hw | hw
            · exact hmin w hw hwk
            · simp only [List.mem_singleton] at hw; subst hw; omega
          · intro j hj1 hj2
            obtain ⟨w, hw, hw1, hw2⟩ := hrun j hj1 hj2
            exact ⟨w, List.mem_append_left _ hw, hw1, hw2⟩
          · intro w hw hwk
            rcases List.mem_append.mp hw with hw | hw
            · exact hmax w hw hwk
            · simp only [List.mem_singleton] at hw; subst hw; omega
        · obtain ⟨h1, h2⟩ := hgr g hg
          exact ⟨h1, IsMaximalRun_append_other seen v _ _ _ h2 (fun h => hk h.symm)⟩

theorem portLE_port (a b : PortMapping) (h : comparePorts b a = false) :
    a.ContainerPort ≤ b.ContainerPort := by
  rw [portLE_iff] at h
  simp only [Spec.portOrderKey, Prod.Lex.le_iff] at h
  rcases h with h | h
  · exact le_of_lt h
  · exact le_of_eq h.1

theorem foldl_describes (rest : List PortMapping) :
    ∀ (seen : List PortMapping) (st : PortLoop),
      Spec.GroupsDescribe seen st.groups →
      (∀ v ∈ rest, v.ContainerPort = v.HostPort) →
      (∀ u ∈ seen, ∀ v ∈ rest, u.ContainerPort ≤ v.ContainerPort) →
      rest.Pairwise (fun a b => a.ContainerPort ≤ b.ContainerPort) →
      (∀ u ∈ seen, -2 ^ 31 ≤ u.ContainerPort) →
      (∀ v ∈ rest, -2 ^ 31 ≤ v.ContainerPort ∧ v.ContainerPort < 2 ^ 31) →
      Spec.GroupsDescribe (seen ++ rest) (rest.foldl portsToString.step st).groups := by
  induction rest with
  | nil => intro seen st h _ _ _ _ _; simpa using h
  | cons v vs ih =>
    intro seen st hInv heq hle hpw hseen hrange
    obtain ⟨hv1, hv2⟩ := hrange v (List.mem_cons_self _ _)
    have hstep := step_describes seen st.portDisplay st.groups v hInv
      (heq v (List.mem_cons_self _ _)) (fun u hu => hle u hu v (List.mem_cons_self _ _))
      hseen hv1 hv2
    have hpw' := List.pairwise_cons.mp hpw
    have := ih (seen ++ [v]) (portsToString.step st v) hstep
      (fun w hw => heq w (List.mem_cons_of_mem _ hw))
      (by
        intro u hu w hw
        rcases List.mem_append.mp hu with hu | hu
        · exact hle u hu w (List.mem_cons_of_mem _ hw)
        · simp only [List.mem_singleton] at hu; subst hu; exact hpw'.1 w hw)
      hpw'.2
      (by
        intro u hu
        rcases List.mem_append.mp hu with hu | hu
        · exact hseen u hu
        · simp only [List.mem_singleton] at hu; subst hu; exact hv1)
      (fun w hw => hrange w (List.mem_cons_of_mem _ hw))
    simpa [List.append_assoc] using this

/-- The two components of `portsToString`: the entries of the mappings with different ports,
then one rendered group per open group, joined by ", "; and the sorted list. -/
theorem portsToString_eq (ports : List PortMapping) :
    portsToString ports =
      (Join (((ports.insertionSort fun a b => comparePorts b a = false).filter
            fun v => decide (v.ContainerPort ≠ v.HostPort)).map Spec.portEntry
          ++ ((((ports.insertionSort fun a b => comparePorts b a = false).filter
              fun v => decide (v.ContainerPort = v.HostPort)).foldl portsToString.step
              ⟨[], []⟩).groups.map fun g => formatGroup g.1 g.2.1 g.2.2)) ", ",
        ports.insertionSort fun a b => comparePorts b a = false) := by
  unfold portsToString
  by_cases h : ports.length = 0
  · have hn : ports = [] := List.eq_nil_of_length_eq_zero h
    subst hn
    rfl
  · rw [if_neg h]
    obtain ⟨h1, h2⟩ := foldl_step_split
      (ports.insertionSort fun a b => comparePorts b a = false) ⟨[], []⟩
    simp only [h1, h2, List.nil_append]

/-- The groups that `portsToString` renders describe the mappings with equal ports. -/
theorem groups_describe (ports : List PortMapping)
    (hrange : ∀ v ∈ ports, -2 ^ 31 ≤ v.ContainerPort ∧ v.ContainerPort < 2 ^ 31) :
    Spec.GroupsDescribe
      ((ports.insertionSort fun a b => comparePorts b a = false).filter
        fun v => decide (v.ContainerPort = v.HostPort))
      (((ports.insertionSort fun a b => comparePorts b a = false).filter
          fun v => decide (v.ContainerPort = v.HostPort)).foldl portsToString.step
          ⟨[], []⟩).groups := by
  have hsorted := sorted_sortedPorts ports
  have hperm := List.perm_insertionSort (fun a b => comparePorts b a = false) ports
  have hfs : ((ports.insertionSort fun a b => comparePorts b a = false).filter
      fun v => decide (v.ContainerPort = v.HostPort)).Pairwise
      (fun a b => a.ContainerPort ≤ b.ContainerPort) :=
    (List.Pairwise.filter _ hsorted).imp fun {a b} h => portLE_port a b h
  have h0 : Spec.GroupsDescribe [] ([] : List (String × Int × Int)) := by
    refine ⟨List.nodup_nil, ?_, ?_⟩
    · intro k; simp
    · intro g hg; simp at hg
  have := foldl_describes _ [] ⟨[], []⟩ h0
    (by intro v hv; simpa using (List.mem_filter.mp hv).2)
    (by intro u hu; simp at hu) hfs (by intro u hu; simp at hu)
    (by
      intro v hv
      exact hrange v (hperm.subset (List.mem_filter.mp hv).1))
  simpa using this

theorem Split_slash_pair (a b : String) (ha : '/' ∉ a.data) (hb : '/' ∉ b.data) :
    Split (a ++ "/" ++ b) '/' = [a, b] := by
  have hd : (a ++ "/" ++ b).data = a.data ++ '/' :: b.data := by
    simp [String.data_append]
  simp [Split, hd, splitChars_append _ _ _ ha, splitChars_of_not_mem _ _ hb]

theorem shownIP_ne_empty (ip : String) : Spec.shownIP ip ≠ "" := by
  unfold Spec.shownIP
  split_ifs with h
  · decide
  · exact h

theorem shownIP_no_slash (ip : String) (h : '/' ∉ ip.data) : '/' ∉ (Spec.shownIP ip).data := by
  unfold Spec.shownIP
  split_ifs
  · decide
  · exact h

/-- What `formatGroup` renders for the key of a host IP and a protocol without `/`. -/
theorem formatGroup_key (ip proto : String) (f l : Int) (hip : '/' ∉ ip.data)
    (hproto : '/' ∉ proto.data) :
    formatGroup (Spec.shownIP ip ++ "/" ++ proto) f l =
      if f ≠ l then
        Spec.shownIP ip ++ ":" ++ (Itoa f ++ "-" ++ Itoa l) ++ "->" ++ (Itoa f ++ "-" ++ Itoa l)
          ++ "/" ++ proto
      else Spec.shownIP ip ++ ":" ++ Itoa f ++ "->" ++ Itoa f ++ "/" ++ proto := by
  unfold formatGroup
  rw [Split_slash_pair _ _ (shownIP_no_slash ip hip) hproto]
  have hne := shownIP_ne_empty ip
  by_cases h : f = l
  · simp [h, hne]
  · simp [h, hne]

theorem consecutive_succ (ip proto : String) (p : Int) (n : Nat) :
    Spec.consecutive ip proto p (n + 1)
      = ⟨p, p, proto, ip⟩ :: Spec.consecutive ip proto (p + 1) n := by
  unfold Spec.consecutive
  rw [List.range_succ_eq_map, List.map_cons, List.map_map]
  refine congrArg₂ List.cons (by simp) ?_
  apply List.map_congr_left
  intro i _
  have : p + ((i + 1 : Nat) : Int) = p + 1 + (i : Int) := by push_cast; omega
  simp only [Function.comp, this]

theorem int32_id (x : Int) (h1 : -2 ^ 31 ≤ x) (h2 : x < 2 ^ 31) : int32 x = x := by
  unfold int32
  omega

theorem foldl_consecutive (ip proto : String) (f : Int) (n : Nat) :
    ∀ l : Int, -2 ^ 31 ≤ l → l + n < 2 ^ 31 →
      (Spec.consecutive ip proto (l + 1) n).foldl portsToString.step
          ⟨[], [(Spec.shownIP ip ++ "/" ++ proto, f, l)]⟩
        = ⟨[], [(Spec.shownIP ip ++ "/" ++ proto, f, l + n)]⟩ := by
  induction n with
  | zero => intro l _ _; simp [Spec.consecutive]
  | succ n ih =>
    intro l h1 h2
    rw [consecutive_succ, List.foldl_cons]
    have hstep : portsToString.step ⟨[], [(Spec.shownIP ip ++ "/" ++ proto, f, l)]⟩
        ⟨l + 1, l + 1, proto, ip⟩ = ⟨[], [(Spec.shownIP ip ++ "/" ++ proto, f, l + 1)]⟩ := by
      rw [step_grouped _ _ rfl]
      have hk : Spec.portKey ⟨l + 1, l + 1, proto, ip⟩ = Spec.shownIP ip ++ "/" ++ proto := rfl
      have h32 : int32 l = l := int32_id l h1 (by push_cast at h2; omega)
      simp [hk, h32]
    rw [hstep]
    have := ih (l + 1) (by omega) (by push_cast at h2 ⊢; omega)
    rw [this]
    have hn : l + 1 + (n : Int) = l + ((n + 1 : Nat) : Int) := by push_cast; omega
    rw [hn]

theorem consecutive_sorted (ip proto : String) (p : Int) (n : Nat) :
    (Spec.consecutive ip proto p n).Sorted fun a b => comparePorts b a = false := by
  rw [List.Sorted, Spec.consecutive, List.pairwise_map]
  refine (List.pairwise_lt_range n).imp ?_
  intro i j hij
  have h1 : p + (j : Int) ≠ p + (i : Int) := by omega
  have h2 : ¬ (p + (j : Int) < p + (i : Int)) := by omega
  simp [comparePorts, h1, h2]

theorem consecutive_equal_ports (ip proto : String) (p : Int) (n : Nat) :
    ∀ v ∈ Spec.consecutive ip proto p n, v.ContainerPort = v.HostPort := by
  intro v hv
  obtain ⟨i, _, rfl⟩ := List.mem_map.mp hv
  rfl

/-- The open groups after the loop has run over `n + 1` consecutive ports of one key. -/
theorem portsToString_consecutive (ip proto : String) (p : Int) (n : Nat)
    (hp : -2 ^ 31 ≤ p) (hq : p + n < 2 ^ 31) (ports : List PortMapping)
    (hperm : ports.Perm (Spec.consecutive ip proto p (n + 1))) :
    portsToString ports
      = (formatGroup (Spec.shownIP ip ++ "/" ++ proto) p (p + n),
          Spec.consecutive ip proto p (n + 1)) := by
  have hs := sortedPorts_eq_of_perm ports _ hperm (consecutive_sorted ip proto p (n + 1))
  rw [portsToString_eq, hs]
  have heq := consecutive_equal_ports ip proto p (n + 1)
  have hfe : (Spec.consecutive ip proto p (n + 1)).filter
      (fun v => decide (v.ContainerPort = v.HostPort)) = Spec.consecutive ip proto p (n + 1) :=
    List.filter_eq_self.mpr fun v hv => by simpa using heq v hv
  have hfn : (Spec.consecutive ip proto p (n + 1)).filter
      (fun v => decide (v.ContainerPort ≠ v.HostPort)) = [] :=
    List.filter_eq_nil_iff.mpr fun v hv => by simpa using heq v hv
  rw [hfe, hfn]
  have hfold : (Spec.consecutive ip proto p (n + 1)).foldl portsToString.step ⟨[], []⟩
      = ⟨[], [(Spec.shownIP ip ++ "/" ++ proto, p, p + n)]⟩ := by
    rw [consecutive_succ, List.foldl_cons]
    have h0 : portsToString.step ⟨[], []⟩ ⟨p, p, proto, ip⟩
        = ⟨[], [(Spec.shownIP ip ++ "/" ++ proto, p, p)]⟩ := by
      rw [step_grouped _ _ rfl]
      rfl
    rw [h0]
    exact foldl_consecutive ip proto p n p hp hq
  rw [hfold]
  simp [Join, String.intercalate, String.intercalate.go]

theorem successfulRecords_append (env : Env) (opts : PsOptions) (l₁ l₂ : List Container) :
    Spec.successfulRecords env opts (l₁ ++ l₂)
      = Spec.successfulRecords env opts l₁ ++ Spec.successfulRecords env opts l₂ := by
  simp [Spec.successfulRecords, List.filterMap_append]

theorem successfulRecords_failed (env : Env) (opts : PsOptions) (bad : Container)
    (pso : PsContainerOutput) (e : Error)
    (h : NewBatchContainer env bad opts = Outcome.returned (pso, some e)) :
    Spec.successfulRecords env opts [bad] = [] := by
  simp [Spec.successfulRecords, h]

theorem successfulRecords_length (env : Env) (opts : PsOptions) (l : List Container) :
    (Spec.successfulRecords env opts l).length
      = (l.filter (Spec.readSucceeds env opts)).length := by
  induction l with
  | nil => rfl
  | cons c cs ih =>
    have hcons : Spec.successfulRecords env opts (c :: cs)
        = Spec.successfulRecords env opts [c] ++ Spec.successfulRecords env opts cs :=
      successfulRecords_append env opts [c] cs
    have hone : (Spec.successfulRecords env opts [c]).length
        = if Spec.readSucceeds env opts c = true then 1 else 0 := by
      rcases hres : NewBatchContainer env c opts with ⟨r, _ | e⟩ | _ | _ <;>
        simp [Spec.successfulRecords, Spec.readSucceeds, hres]
    rw [hcons, List.length_append, ih, List.filter_cons, hone]
    split_ifs
    · rw [List.length_cons]; omega
    · omega

/-! ### The worker pool of `PBatch`: every run ends, and what it delivers -/

/-! ### The worker pool -/

theorem pick_mem (g : Goroutine) (gs : List Goroutine) (k : Nat) :
    (g :: gs).getD (k % (gs.length + 1)) g ∈ g :: gs := by
  have hlt : k % (gs.length + 1) < (g :: gs).length := by
    simp only [List.length_cons]
    exact Nat.mod_lt _ (Nat.succ_pos _)
  rw [List.getD_eq_getElem _ _ hlt]
  exact List.getElem_mem hlt

theorem mem_runnable (p : Pool) (g : Goroutine) (h : g ∈ p.runnable) :
    p.panic = none ∧ p.waited = false ∧ p.canStep g = true ∧
      (g = Goroutine.main ∨ ∃ w, w < p.workers.length ∧ g = Goroutine.worker w) := by
  unfold Pool.runnable at h
  split_ifs at h with hc
  · simp at h
  · simp only [not_or, Option.isSome_iff_ne_none, ne_eq, not_not, Bool.not_eq_true] at hc
    rw [List.mem_filter] at h
    refine ⟨hc.1, hc.2, h.2, ?_⟩
    rcases List.mem_cons.mp h.1 with h1 | h1
    · exact Or.inl h1
    · obtain ⟨w, hw, rfl⟩ := List.mem_map.mp h1
      exact Or.inr ⟨w, List.mem_range.mp hw, rfl⟩

theorem runnable_of_canStep (p : Pool) (g : Goroutine) (hp : p.panic = none)
    (hw : p.waited = false) (hc : p.canStep g = true)
    (hg : g = Goroutine.main ∨ ∃ w, w < p.workers.length ∧ g = Goroutine.worker w) :
    g ∈ p.runnable := by
  unfold Pool.runnable
  rw [if_neg (by simp [hp, hw])]
  rw [List.mem_filter]
  refine ⟨?_, hc⟩
  rcases hg with rfl | ⟨w, hw, rfl⟩
  · exact List.mem_cons_self _ _
  · exact List.mem_cons_of_mem _ (List.mem_map.mpr ⟨w, List.mem_range.mpr hw, rfl⟩)

/-- An invariant of the steps is an invariant of the run. -/
theorem exec_invariant (P : Pool → Prop)
    (hstep : ∀ (p : Pool) (g : Goroutine), P p → g ∈ p.runnable → P (p.step g))
    (schedule : Nat → Nat) :
    ∀ (fuel n : Nat) (p : Pool), P p → P (PBatch.exec schedule fuel n p) := by
  intro fuel
  induction fuel with
  | zero => intro n p hp; exact hp
  | succ fuel ih =>
    intro n p hp
    rw [PBatch.exec]
    cases hr : p.runnable with
    | nil => exact hp
    | cons g gs =>
      simp only
      apply ih
      apply hstep p _ hp
      rw [hr]
      exact pick_mem g gs (schedule n)

theorem stepsLeft_set (ws : List WorkerState) (st : WorkerState) :
    ∀ w : Nat, w < ws.length →
      ((ws.set w st).map WorkerState.stepsLeft).sum
          + (ws.getD w WorkerState.exited).stepsLeft
        = (ws.map WorkerState.stepsLeft).sum + st.stepsLeft := by
  induction ws with
  | nil => intro w hw; simp at hw
  | cons a as ih =>
    intro w hw
    cases w with
    | zero => simp only [List.set_cons_zero, List.map_cons, List.sum_cons, List.getD_cons_zero]; omega
    | succ w =>
      have := ih w (by simpa using hw)
      simp only [List.set_cons_succ, List.map_cons, List.sum_cons, List.getD_cons_succ]
      omega

/-- Every step of a goroutine that can take one uses up one of the steps left. -/
theorem step_stepsLeft (p : Pool) (g : Goroutine) (h : g ∈ p.runnable) :
    (p.step g).stepsLeft < p.stepsLeft := by
  obtain ⟨hp, hw, hc, hg⟩ := mem_runnable p g h
  obtain ⟨pending, jobs, closed, results, errs, wg, workers, waited, panic, calls⟩ := p
  simp only at hp hw hg
  subst hp hw
  rcases hg with rfl | ⟨w, hlt, rfl⟩
  · -- the main goroutine
    simp only [Pool.step, PBatch.main, Pool.canStep] at hc ⊢
    cases pending with
    | cons j rest =>
      simp only [Pool.stepsLeft, List.length_cons, List.length_append, List.length_nil,
        List.length_singleton, Option.isSome_none, Bool.false_eq_true, if_false]
      omega
    | nil =>
      simp only [decide_eq_true_eq] at hc
      cases closed with
      | false => simp [Pool.stepsLeft]
      | true =>
        have hwg : wg = 0 := by simpa using hc
        subst hwg
        simp [Pool.stepsLeft]
  · -- the worker `w`
    have hset := fun st => stepsLeft_set workers st w hlt
    simp only [Pool.step, worker, Pool.canStep] at hc ⊢
    cases hst : workers.getD w WorkerState.exited with
    | receiving =>
      rw [hst] at hc hset
      simp only [WorkerState.stepsLeft] at hset
      cases jobs with
      | cons j js =>
        have := hset (WorkerState.running j)
        simp only [Pool.stepsLeft, Option.isSome_none, Bool.false_eq_true, if_false,
          List.length_cons, WorkerState.stepsLeft] at this ⊢
        omega
      | nil =>
        simp only at hc
        subst hc
        have := hset WorkerState.exited
        simp only [if_true, Pool.stepsLeft, Option.isSome_none,
          Bool.false_eq_true, if_false, List.length_nil, WorkerState.stepsLeft] at this ⊢
        omega
    | running j =>
      rw [hst] at hc hset
      simp only [WorkerState.stepsLeft] at hset
      simp only at hc ⊢
      have := hset WorkerState.receiving
      rcases hf : j.parallelFunc () with ⟨r, _ | e⟩ | m | _
      · simp only [hf, Pool.stepsLeft, Option.isSome_none, Bool.false_eq_true, if_false,
          WorkerState.stepsLeft] at this ⊢
        omega
      · simp only [hf, Pool.stepsLeft, Option.isSome_none, Bool.false_eq_true, if_false,
          WorkerState.stepsLeft] at this ⊢
        omega
      · simp [hf, Pool.stepsLeft]
      · simp [hf] at hc
    | exited =>
      rw [hst] at hc
      simp at hc

/-- With as much fuel as there are steps left, the run ends in a pool in which no goroutine
can take a step. -/
theorem exec_rest (schedule : Nat → Nat) :
    ∀ (fuel n : Nat) (p : Pool), p.stepsLeft ≤ fuel →
      (PBatch.exec schedule fuel n p).runnable = [] := by
  intro fuel
  induction fuel with
  | zero =>
    intro n p hp
    rw [PBatch.exec]
    cases hr : p.runnable with
    | nil => rfl
    | cons g gs =>
      have := step_stepsLeft p g (by rw [hr]; exact List.mem_cons_self _ _)
      omega
  | succ fuel ih =>
    intro n p hp
    rw [PBatch.exec]
    cases hr : p.runnable with
    | nil => exact hr
    | cons g gs =>
      simp only
      apply ih
      have := step_stepsLeft p _ (by rw [hr]; exact pick_mem g gs (schedule n))
      omega

theorem inFlight_set (ws : List WorkerState) (st : WorkerState) :
    ∀ w : Nat, w < ws.length →
      (inFlight (ws.set w st) ++ (ws.getD w WorkerState.exited).job.toList).Perm
        (st.job.toList ++ inFlight ws) := by
  induction ws with
  | nil => intro w hw; simp at hw
  | cons a as ih =>
    intro w hw
    cases w with
    | zero =>
      simp only [List.set_cons_zero, List.getD_cons_zero, inFlight, List.filterMap_cons]
      cases hs : st.job <;> cases ha : a.job <;>
        simp only [Option.toList, List.nil_append, List.append_nil, List.singleton_append,
          List.Perm.refl]
      · exact List.perm_append_singleton _ _
      · exact List.Perm.cons _ (List.perm_append_singleton _ _)
    | succ w =>
      have := ih w (by simpa using hw)
      simp only [List.set_cons_succ, List.getD_cons_succ, inFlight, List.filterMap_cons] at this ⊢
      cases ha : a.job with
      | none => simpa using this
      | some x =>
        simp only [List.cons_append]
        exact (List.Perm.cons x this).trans (List.perm_middle.symm)

theorem running_mem_inFlight (ws : List WorkerState) (w : Nat) (j : workerInput)
    (h : ws.getD w WorkerState.exited = WorkerState.running j) : j ∈ inFlight ws := by
  have hlt : w < ws.length := by
    by_contra hn
    rw [List.getD_eq_default _ _ (by omega)] at h
    exact WorkerState.noConfusion h
  rw [List.getD_eq_getElem _ _ hlt] at h
  unfold inFlight
  rw [List.mem_filterMap]
  exact ⟨ws[w], List.getElem_mem hlt, by rw [h]; rfl⟩

/-- A step of the main goroutine keeps the pool in order. -/
theorem inOrder_main (all : List workerInput) (n : Nat) (p : Pool)
    (hI : p.InOrder all n) (hw : p.waited = false)
    (hc : p.canStep Goroutine.main = true) : (PBatch.main p).InOrder all n := by
  obtain ⟨pending, jobs, closed, results, errs, wg, workers, waited, panic, calls⟩ := p
  obtain ⟨h1, h2, h3, h4, h5, h6, h7, h8, h9⟩ := hI
  simp only [Pool.unfinished] at h1 h2 h3 h4 h5 h6 h7 h8 h9 hw hc
  subst hw
  cases pending with
  | cons j rest =>
    have hcl : closed = false := by
      cases closed with
      | false => rfl
      | true => exact absurd (h6 rfl) (by simp)
    subst hcl
    refine ⟨h1, h2, ?_, ?_, ?_, ?_, ?_, ?_, ?_⟩
    · simp only [PBatch.main, List.length_append, List.length_singleton]
      rw [h3]
      push_cast
      omega
    · simpa [PBatch.main, Pool.unfinished] using h4
    · simpa [PBatch.main, Pool.unfinished] using h5
    · intro h
      simp [PBatch.main] at h
    · intro h
      exact absurd (h7 h).2 (by simp)
    · intro x hx
      apply h8
      simpa [PBatch.main, Pool.unfinished] using hx
    · intro h
      simp [PBatch.main] at h
  | nil =>
    cases closed with
    | false =>
      refine ⟨h1, h2, h3, ?_, ?_, ?_, ?_, ?_, ?_⟩
      · simpa [PBatch.main, Pool.unfinished] using h4
      · simpa [PBatch.main, Pool.unfinished] using h5
      · intro _; rfl
      · intro h
        exact absurd (h7 h).2 (by simp)
      · intro x hx
        apply h8
        simpa [PBatch.main, Pool.unfinished] using hx
      · intro h
        simp [PBatch.main] at h
    | true =>
      have hwg : wg = 0 := by simpa [Pool.canStep] using hc
      subst hwg
      refine ⟨h1, h2, ?_, ?_, ?_, ?_, ?_, ?_, ?_⟩
      · simpa [PBatch.main] using h3
      · simpa [PBatch.main, Pool.unfinished] using h4
      · simpa [PBatch.main, Pool.unfinished] using h5
      · intro _; rfl
      · intro h
        simpa [PBatch.main] using h7 (by simpa [PBatch.main] using h)
      · intro x hx
        apply h8
        simpa [PBatch.main, Pool.unfinished] using hx
      · intro _
        simp [PBatch.main]

/-- A step of a worker keeps the pool in order. -/
theorem inOrder_worker (all : List workerInput) (n : Nat) (p : Pool) (w : Nat)
    (hI : p.InOrder all n) (hlt : w < p.workers.length) (hw : p.waited = false)
    (hc : p.canStep (Goroutine.worker w) = true) : (worker w p).InOrder all n := by
  obtain ⟨pending, jobs, closed, results, errs, wg, workers, waited, panic, calls⟩ := p
  obtain ⟨h1, h2, h3, h4, h5, h6, h7, h8, h9⟩ := hI
  simp only [Pool.unfinished] at h1 h2 h3 h4 h5 h6 h7 h8 h9 hw hc hlt
  subst hw
  have hset := fun st => inFlight_set workers st w hlt
  simp only [worker, Pool.canStep] at hc ⊢
  cases hst : workers.getD w WorkerState.exited with
  | receiving =>
    rw [hst] at hc hset
    simp only [WorkerState.job, Option.toList, List.append_nil] at hset
    simp only at hc ⊢
    cases jobs with
    | cons j js =>
      have hF := hset (WorkerState.running j)
      simp only [WorkerState.job, Option.toList, List.singleton_append] at hF
      have hU : (inFlight (workers.set w (WorkerState.running j)) ++ (js ++ pending)).Perm
          (inFlight workers ++ (j :: js ++ pending)) :=
        (hF.append_right _).trans (by simpa using List.perm_middle.symm)
      refine ⟨h1, by simpa using h2, ?_, ?_, ?_, h6, ?_, ?_, ?_⟩
      · simp only
        rw [h3, hF.length_eq]
        simp only [List.length_cons]
        push_cast
        omega
      · simp only [Pool.unfinished]
        exact ((hU.filterMap _).append_left _).trans h4
      · simp only [Pool.unfinished]
        exact ((hU.map _).append_left _).trans h5
      · intro h
        simp only at h
        rcases List.mem_or_eq_of_mem_set h with h | h
        · exact absurd (h7 h).1 (by simp)
        · exact WorkerState.noConfusion h
      · intro x hx
        simp only [Pool.unfinished] at hx
        exact h8 x (hU.subset hx)
      · intro h
        simp at h
    | nil =>
      simp only at hc
      subst hc
      have hF := hset WorkerState.exited
      simp only [WorkerState.job, Option.toList, List.nil_append] at hF
      have hU : (inFlight (workers.set w WorkerState.exited) ++ ([] ++ pending)).Perm
          (inFlight workers ++ ([] ++ pending)) := hF.append_right _
      refine ⟨h1, by simpa using h2, ?_, ?_, ?_, h6, ?_, ?_, ?_⟩
      · simp only [if_true]
        rw [h3, hF.length_eq]
      · simp only [if_true, Pool.unfinished]
        exact ((hU.filterMap _).append_left _).trans h4
      · simp only [if_true, Pool.unfinished]
        exact ((hU.map _).append_left _).trans h5
      · intro _
        simp
      · intro x hx
        simp only [if_true, Pool.unfinished] at hx
        exact h8 x (hU.subset hx)
      · intro h
        simp at h
  | running j =>
    rw [hst] at hc hset
    simp only [WorkerState.job, Option.toList] at hset
    simp only at hc ⊢
    have hF := hset WorkerState.receiving
    simp only [WorkerState.job, Option.toList, List.nil_append] at hF
    have hF' : (j :: inFlight (workers.set w WorkerState.receiving)).Perm (inFlight workers) :=
      (List.perm_append_singleton _ _).symm.trans hF
    have hU : (j :: (inFlight (workers.set w WorkerState.receiving) ++ (jobs ++ pending))).Perm
        (inFlight workers ++ (jobs ++ pending)) := by
      have := hF'.append_right (jobs ++ pending)
      simpa using this
    have hjmem : j ∈ inFlight workers ++ (jobs ++ pending) :=
      List.mem_append_left _ (running_mem_inFlight workers w j hst)
    obtain ⟨⟨r, err⟩, hf⟩ := h8 j hjmem
    have hlen : (inFlight workers).length
        = (inFlight (workers.set w WorkerState.receiving)).length + 1 := by
      rw [← hF'.length_eq, List.length_cons]
    simp only [hf]
    have h7' : WorkerState.exited ∈ workers.set w WorkerState.receiving →
        jobs = [] ∧ closed = true := by
      intro h
      rcases List.mem_or_eq_of_mem_set h with h | h
      · exact h7 h
      · exact WorkerState.noConfusion h
    have h8' : ∀ x ∈ inFlight (workers.set w WorkerState.receiving) ++ (jobs ++ pending),
        ∃ res, x.parallelFunc () = Outcome.returned res :=
      fun x hx => h8 x (hU.subset (List.mem_cons_of_mem _ hx))
    have h5' : (calls ++ [RuntimeCall.Batch j.cid]
        ++ (inFlight (workers.set w WorkerState.receiving) ++ (jobs ++ pending)).map
            fun j => RuntimeCall.Batch j.cid).Perm (all.map fun j => RuntimeCall.Batch j.cid) := by
      refine List.Perm.trans ?_ h5
      rw [List.append_assoc]
      apply List.Perm.append_left
      simpa using hU.map fun j => RuntimeCall.Batch j.cid
    have h3' : wg - 1 = (((inFlight (workers.set w WorkerState.receiving)).length
        + jobs.length : Nat) : Int) := by
      rw [h3, hlen]
      push_cast
      omega
    cases err with
    | none =>
      have hrec : j.record = some r := by simp [workerInput.record, hf]
      refine ⟨h1, by simpa using h2, h3', ?_, h5', h6, h7', h8', ?_⟩
      · simp only [Pool.unfinished]
        refine List.Perm.trans ?_ h4
        rw [List.append_assoc]
        apply List.Perm.append_left
        have := hU.filterMap workerInput.record
        simpa [List.filterMap_cons, hrec] using this
      · intro h
        simp at h
    | some e =>
      have hrec : j.record = none := by simp [workerInput.record, hf]
      refine ⟨h1, by simpa using h2, h3', ?_, h5', h6, h7', h8', ?_⟩
      · simp only [Pool.unfinished]
        refine List.Perm.trans ?_ h4
        apply List.Perm.append_left
        have := hU.filterMap workerInput.record
        simpa [List.filterMap_cons, hrec] using this
      · intro h
        simp at h
  | exited =>
    rw [hst] at hc
    simp at hc

/-- Every step of a goroutine that can take one keeps the pool in order. -/
theorem inOrder_step (all : List workerInput) (n : Nat) (p : Pool) (g : Goroutine)
    (hI : p.InOrder all n) (hg : g ∈ p.runnable) : (p.step g).InOrder all n := by
  obtain ⟨_, hw, hc, hg⟩ := mem_runnable p g hg
  rcases hg with rfl | ⟨w, hlt, rfl⟩
  · exact inOrder_main all n p hI hw hc
  · exact inOrder_worker all n p w hI hlt hw hc

/-- In a pool in order with a worker (or without an unfinished job), some goroutine can take a
step until the main goroutine is back from `wg.Wait()`. -/
theorem inOrder_progress (all : List workerInput) (n : Nat) (p : Pool)
    (hI : p.InOrder all n) (hn : 1 ≤ n ∨ all = []) (hw : p.waited = false) :
    ∃ g, g ∈ p.runnable := by
  obtain ⟨h1, h2, h3, h4, h5, h6, h7, h8, h9⟩ := hI
  have main_ok : p.canStep Goroutine.main = true → ∃ g, g ∈ p.runnable := fun hc =>
    ⟨Goroutine.main, runnable_of_canStep p _ h1 hw hc (Or.inl rfl)⟩
  have worker_ok : ∀ w, w < p.workers.length → p.canStep (Goroutine.worker w) = true →
      ∃ g, g ∈ p.runnable := fun w hlt hc =>
    ⟨Goroutine.worker w, runnable_of_canStep p _ h1 hw hc (Or.inr ⟨w, hlt, rfl⟩)⟩
  cases hpend : p.pending with
  | cons j rest => exact main_ok (by simp [Pool.canStep, hpend])
  | nil =>
    by_cases hcl : p.jobsClosed = false
    · exact main_ok (by simp [Pool.canStep, hpend, hcl])
    by_cases hwg : p.wg = 0
    · exact main_ok (by simp [Pool.canStep, hpend, hwg])
    -- the main goroutine waits: a job is in flight or in the channel
    have hun : p.unfinished ≠ [] := by
      intro h
      simp only [Pool.unfinished, List.append_eq_nil] at h
      rw [h3, h.1, h.2.1] at hwg
      exact hwg rfl
    have hn1 : 1 ≤ n := by
      rcases hn with hn | hn
      · exact hn
      · subst hn
        have hlen := h5.length_eq
        simp only [List.map_nil, List.length_nil, List.length_append, List.length_map] at hlen
        exact absurd (List.eq_nil_of_length_eq_zero (by omega)) hun
    cases hfl : inFlight p.workers with
    | cons j js =>
      have hj : j ∈ inFlight p.workers := by rw [hfl]; exact List.mem_cons_self _ _
      unfold inFlight at hj
      obtain ⟨st, hst, hjob⟩ := List.mem_filterMap.mp hj
      obtain ⟨w, hlt, hget⟩ := List.mem_iff_getElem.mp hst
      have hrun : st = WorkerState.running j := by
        cases st with
        | running j' => simp only [WorkerState.job, Option.some.injEq] at hjob; rw [hjob]
        | receiving => simp [WorkerState.job] at hjob
        | exited => simp [WorkerState.job] at hjob
      obtain ⟨res, hres⟩ := h8 j (List.mem_append_left _ (by rw [hfl]; exact List.mem_cons_self _ _))
      apply worker_ok w hlt
      simp only [Pool.canStep]
      rw [List.getD_eq_getElem _ _ hlt, hget, hrun]
      simp [hres]
    | nil =>
      have hjobs : p.jobs ≠ [] := by
        intro h
        rw [h3, hfl, h] at hwg
        exact hwg rfl
      have hlt : 0 < p.workers.length := by omega
      have hne : WorkerState.exited ∉ p.workers := fun h => hjobs (h7 h).1
      have hst : p.workers[0] ∈ p.workers := List.getElem_mem hlt
      apply worker_ok 0 hlt
      simp only [Pool.canStep]
      rw [List.getD_eq_getElem _ _ hlt]
      cases hs : p.workers[0] with
      | receiving =>
        cases hj : p.jobs with
        | nil => exact absurd hj hjobs
        | cons a as => rfl
      | running j =>
        have : j ∈ inFlight p.workers := by
          unfold inFlight
          exact List.mem_filterMap.mpr ⟨_, hst, by rw [hs]; rfl⟩
        rw [hfl] at this
        simp at this
      | exited =>
        rw [hs] at hst
        exact absurd hst hne

theorem inputs_record (env : Env) (opts : PsOptions) (containers : List Container) :
    ∀ i : Nat, (PBatch.inputs env opts i containers).filterMap workerInput.record
      = Spec.successfulRecords env opts containers := by
  induction containers with
  | nil => intro i; rfl
  | cons c cs ih =>
    intro i
    have hcons : Spec.successfulRecords env opts (c :: cs)
        = Spec.successfulRecords env opts [c] ++ Spec.successfulRecords env opts cs :=
      successfulRecords_append env opts [c] cs
    rw [PBatch.inputs, List.filterMap_cons, ih, hcons]
    rcases hres : NewBatchContainer env c opts with ⟨r, _ | e⟩ | _ | _ <;>
      simp [workerInput.record, Spec.successfulRecords, hres]

theorem inputs_calls (env : Env) (opts : PsOptions) (containers : List Container) :
    ∀ i : Nat, (PBatch.inputs env opts i containers).map (fun j => RuntimeCall.Batch j.cid)
      = containers.map fun c => RuntimeCall.Batch c.ID := by
  induction containers with
  | nil => intro i; rfl
  | cons c cs ih =>
    intro i
    rw [PBatch.inputs, List.map_cons, ih, List.map_cons]

theorem inputs_length (env : Env) (opts : PsOptions) (containers : List Container) :
    ∀ i : Nat, (PBatch.inputs env opts i containers).length = containers.length := by
  induction containers with
  | nil => intro i; rfl
  | cons c cs ih =>
    intro i
    rw [PBatch.inputs, List.length_cons, ih, List.length_cons]

theorem inputs_returns (env : Env) (opts : PsOptions) (containers : List Container)
    (hret : ∀ c ∈ containers, ∃ res, NewBatchContainer env c opts = Outcome.returned res) :
    ∀ i : Nat, ∀ j ∈ PBatch.inputs env opts i containers,
      ∃ res, j.parallelFunc () = Outcome.returned res := by
  induction containers with
  | nil => intro i j hj; simp [PBatch.inputs] at hj
  | cons c cs ih =>
    intro i j hj
    rw [PBatch.inputs] at hj
    rcases List.mem_cons.mp hj with h | h
    · subst h
      exact hret c (List.mem_cons_self _ _)
    · exact ih (fun c hc => hret c (List.mem_cons_of_mem _ hc)) (i + 1) j h

/-- The number of workers that `PBatch` starts. -/
theorem pool_workers (env : Env) (containers : List Container) (workers : Int)
    (opts : PsOptions) :
    (PBatch.pool env containers workers opts).workers.length
      = (min workers (containers.length : Int)).toNat := by
  simp only [PBatch.pool, List.length_replicate]
  congr 1
  split_ifs <;> omega

theorem pool_stepsLeft (env : Env) (containers : List Container) (workers : Int)
    (opts : PsOptions) :
    (PBatch.pool env containers workers opts).stepsLeft
      = 3 * containers.length + (PBatch.pool env containers workers opts).workers.length + 2 := by
  have hsum : ∀ k : Nat, ((List.replicate k WorkerState.receiving).map
      WorkerState.stepsLeft).sum = k := by
    intro k
    induction k with
    | zero => rfl
    | succ k ih =>
      rw [List.replicate_succ, List.map_cons, List.sum_cons, ih]
      simp only [WorkerState.stepsLeft]
      omega
  simp only [Pool.stepsLeft, PBatch.pool, inputs_length, hsum, List.length_replicate,
    Option.isSome_none, Bool.false_eq_true, if_false, List.length_nil]
  omega

/-- The pool that `PBatch` starts from is in order, when every batch read returns. -/
theorem pool_inOrder (env : Env) (containers : List Container) (workers : Int)
    (opts : PsOptions)
    (hret : ∀ c ∈ containers, ∃ res, NewBatchContainer env c opts = Outcome.returned res) :
    (PBatch.pool env containers workers opts).InOrder (PBatch.inputs env opts 0 containers)
      (PBatch.pool env containers workers opts).workers.length := by
  have hfl : ∀ k : Nat, inFlight (List.replicate k WorkerState.receiving) = [] := by
    intro k
    induction k with
    | zero => rfl
    | succ k ih =>
      rw [List.replicate_succ]
      simp only [inFlight, List.filterMap_cons, WorkerState.job] at ih ⊢
      exact ih
  refine ⟨rfl, rfl, ?_, ?_, ?_, ?_, ?_, ?_, ?_⟩
  · simp [PBatch.pool, hfl]
  · simp [PBatch.pool, Pool.unfinished, hfl]
  · simp [PBatch.pool, Pool.unfinished, hfl]
  · intro h
    simp [PBatch.pool] at h
  · intro h
    simp only [PBatch.pool] at h
    exact WorkerState.noConfusion (List.eq_of_mem_replicate h)
  · intro j hj
    simp only [PBatch.pool, Pool.unfinished, hfl, List.nil_append] at hj
    exact inputs_returns env opts containers hret 0 j hj
  · intro h
    simp [PBatch.pool] at h

/-- What `PBatch` returns with at least one worker (or nothing to read) and batch reads that
all return, whatever the scheduler does: the records of the successful reads, in the order in
which they were delivered, filtered unless `All`, `Latest` or `Last >= 1` is set; the batch
reads made are those of the containers, each once. -/
theorem PBatch_returns (env : Env) (containers : List Container) (workers : Int)
    (opts : PsOptions) (hw : 1 ≤ workers ∨ containers = [])
    (hret : ∀ c ∈ containers, ∃ res, NewBatchContainer env c opts = Outcome.returned res) :
    ∃ (delivered : List PsContainerOutput) (calls : List RuntimeCall),
      delivered.Perm (Spec.successfulRecords env opts containers) ∧
      calls.Perm (containers.map fun c => RuntimeCall.Batch c.ID) ∧
      PBatch env containers workers opts
        = (Outcome.returned (delivered.filter fun res =>
              if opts.All = false ∧ opts.Latest = false ∧ opts.Last < 1 then
                decide (res.IsInfra = false ∧ res.State = ContainerStatus.ContainerStateRunning)
              else true), calls) := by
  have hI0 := pool_inOrder env containers workers opts hret
  have hn : 1 ≤ (PBatch.pool env containers workers opts).workers.length
      ∨ PBatch.inputs env opts 0 containers = [] := by
    rcases hw with hw | hw
    · cases containers with
      | nil => exact Or.inr rfl
      | cons c cs =>
        left
        rw [pool_workers]
        simp only [List.length_cons]
        omega
    · subst hw
      exact Or.inr rfl
  have hfuel : (PBatch.pool env containers workers opts).stepsLeft
      ≤ 3 * containers.length + (PBatch.pool env containers workers opts).workers.length + 2 :=
    le_of_eq (pool_stepsLeft env containers workers opts)
  have hrest := exec_rest env.schedule _ 0 _ hfuel
  have hI := exec_invariant (fun p => p.InOrder (PBatch.inputs env opts 0 containers)
      (PBatch.pool env containers workers opts).workers.length)
    (fun p g hp hg => inOrder_step _ _ p g hp hg) env.schedule
    (3 * containers.length + (PBatch.pool env containers workers opts).workers.length + 2) 0 _
    hI0
  have key : ∀ pf : Pool, pf.runnable = [] →
      pf.InOrder (PBatch.inputs env opts 0 containers)
        (PBatch.pool env containers workers opts).workers.length →
      ∃ (delivered : List PsContainerOutput) (calls : List RuntimeCall),
        delivered.Perm (Spec.successfulRecords env opts containers) ∧
        calls.Perm (containers.map fun c => RuntimeCall.Batch c.ID) ∧
        (match pf.panic with
          | some m => (Outcome.panicked m, pf.calls)
          | none =>
            if pf.waited = true then
              (Outcome.returned (pf.results.filter fun res =>
                if opts.All = false ∧ opts.Latest = false ∧ opts.Last < 1 then
                  decide (res.IsInfra = false
                    ∧ res.State = ContainerStatus.ContainerStateRunning)
                else true), pf.calls)
            else (Outcome.blocked, pf.calls))
          = (Outcome.returned (delivered.filter fun res =>
              if opts.All = false ∧ opts.Latest = false ∧ opts.Last < 1 then
                decide (res.IsInfra = false
                  ∧ res.State = ContainerStatus.ContainerStateRunning)
              else true), calls) := by
    intro pf hrest hI
    have hwaited : pf.waited = true := by
      by_contra hnw
      obtain ⟨g, hg⟩ := inOrder_progress _ _ pf hI hn (by simpa using hnw)
      rw [hrest] at hg
      simp at hg
    obtain ⟨h1, h2, h3, h4, h5, h6, h7, h8, h9⟩ := hI
    obtain ⟨hpend, hwg⟩ := h9 hwaited
    have hz : (inFlight pf.workers).length + pf.jobs.length = 0 := by
      rw [h3] at hwg
      exact_mod_cast hwg
    have hun : pf.unfinished = [] := by
      simp only [Pool.unfinished, hpend, List.append_nil, List.append_eq_nil]
      exact ⟨List.eq_nil_of_length_eq_zero (by omega), List.eq_nil_of_length_eq_zero (by omega)⟩
    rw [hun] at h4 h5
    simp only [List.filterMap_nil, List.map_nil, List.append_nil] at h4 h5
    rw [inputs_record] at h4
    rw [inputs_calls] at h5
    refine ⟨pf.results, pf.calls, h4, h5, ?_⟩
    rw [h1]
    simp only [hwaited, if_true]
  unfold PBatch
  exact key _ hrest hI

theorem step_workers_length (p : Pool) (g : Goroutine) :
    (p.step g).workers.length = p.workers.length := by
  cases g with
  | main =>
    simp only [Pool.step, PBatch.main]
    split
    · rfl
    · split_ifs <;> rfl
  | worker w =>
    simp only [Pool.step, worker]
    split
    · split
      · simp
      · split_ifs
        · simp
        · rfl
    · split
      · rename_i r err _
        cases err <;> simp
      · rfl
      · rfl
    · rfl

/-- The number of workers stays what it was when the pool was set up. -/
theorem exec_workers_length (schedule : Nat → Nat) (fuel n : Nat) (p : Pool) :
    (PBatch.exec schedule fuel n p).workers.length = p.workers.length :=
  exec_invariant (fun q => q.workers.length = p.workers.length)
    (fun q g hq _ => (step_workers_length q g).trans hq) schedule fuel n p rfl

theorem inFlight_length_le (ws : List WorkerState) : (inFlight ws).length ≤ ws.length :=
  List.length_filterMap_le _ _

/-- Every run of the pool ends within the steps that `PBatch` allows for it: in the pool from
which `PBatch` reads its result no goroutine can take a step, whatever the containers, the
worker budget and the scheduler are. So `PBatch` gives `Outcome.blocked` only when the main
goroutine waits in `wg.Wait()` and no worker can go on. -/
theorem PBatch_run_ends (env : Env) (containers : List Container) (workers : Int)
    (opts : PsOptions) :
    (PBatch.exec env.schedule
      (3 * containers.length + (PBatch.pool env containers workers opts).workers.length + 2) 0
      (PBatch.pool env containers workers opts)).runnable = [] :=
  exec_rest env.schedule _ 0 _ (le_of_eq (pool_stepsLeft env containers workers opts))

/-- Without a worker the main goroutine adds the jobs, closes the channel and waits for ever:
no batch read is made and `PBatch` does not return. -/
theorem PBatch_no_worker (env : Env) (containers : List Container) (workers : Int)
    (opts : PsOptions) (hw : workers < 1) (hne : containers ≠ []) :
    PBatch env containers workers opts = (Outcome.blocked, []) := by
  have hpos : 1 ≤ containers.length := by
    cases containers with
    | nil => exact absurd rfl hne
    | cons c cs => simp
  have hW : (PBatch.pool env containers workers opts).workers = [] := by
    apply List.eq_nil_of_length_eq_zero
    rw [pool_workers]
    omega
  have hstep : ∀ (p : Pool) (g : Goroutine),
      (p.workers = [] ∧ p.calls = [] ∧ p.panic = none ∧ p.waited = false
        ∧ p.wg = (p.jobs.length : Int) ∧ 1 ≤ p.jobs.length + p.pending.length) →
      g ∈ p.runnable →
      ((p.step g).workers = [] ∧ (p.step g).calls = [] ∧ (p.step g).panic = none
        ∧ (p.step g).waited = false ∧ (p.step g).wg = ((p.step g).jobs.length : Int)
        ∧ 1 ≤ (p.step g).jobs.length + (p.step g).pending.length) := by
    intro p g hJ hg
    obtain ⟨h1, h2, h3, h4, h5, h6⟩ := hJ
    obtain ⟨_, _, hc, hmw⟩ := mem_runnable p g hg
    rcases hmw with rfl | ⟨w, hlt, _⟩
    · obtain ⟨pending, jobs, closed, results, errs, wg, workers, waited, panic, calls⟩ := p
      simp only at h1 h2 h3 h4 h5 h6
      subst h1 h2 h3 h4 h5
      simp only [Pool.step, PBatch.main, Pool.canStep] at hc ⊢
      cases pending with
      | cons j rest =>
        refine ⟨rfl, rfl, rfl, rfl, ?_, ?_⟩
        · simp
        · simp only [List.length_append, List.length_singleton, List.length_cons] at h6 ⊢
          omega
      | nil =>
        simp only [List.length_nil, Nat.add_zero] at h6
        cases closed with
        | false => exact ⟨rfl, rfl, rfl, rfl, rfl, by simpa using h6⟩
        | true =>
          simp only [Bool.true_eq_false, false_or, decide_eq_true_eq] at hc
          omega
    · rw [h1] at hlt
      simp at hlt
  have hJ := exec_invariant _ hstep env.schedule
    (3 * containers.length + (PBatch.pool env containers workers opts).workers.length + 2) 0
    (PBatch.pool env containers workers opts)
    ⟨hW, rfl, rfl, rfl, rfl, by
      simp only [PBatch.pool, List.length_nil, Nat.zero_add, inputs_length]
      exact hpos⟩
  obtain ⟨_, h2, h3, h4, _, _⟩ := hJ
  unfold PBatch
  simp only [h3, h4, h2, Bool.false_eq_true, if_false]

theorem single_step (j : workerInput) (p : Pool) (g : Goroutine) (h : p.Single j)
    (hg : g ∈ p.runnable) : (p.step g).Single j := by
  obtain ⟨hp, hw, hc, hmw⟩ := mem_runnable p g hg
  obtain ⟨pending, jobs, closed, results, errs, wg, workers, waited, panic, calls⟩ := p
  simp only at hp hw hmw
  subst hp hw
  rcases h with ⟨_, _, h3, h4, h⟩ | ⟨m, _, h, _⟩ | ⟨r, err, hf, _, h1, h2, h3, h4, h5, h6⟩
  · simp only at h3 h4 h
    subst h3 h4
    rcases h with ⟨h1, h2, h3, h4, h5⟩ | ⟨h1, h2, h3, h4⟩ | ⟨h1, h2, h3, h4⟩
    · -- the job is still to be sent
      subst h1 h2 h3 h4 h5
      rcases hmw with rfl | ⟨w, hlt, rfl⟩
      · refine Or.inl ⟨rfl, rfl, rfl, rfl, Or.inr (Or.inl ⟨rfl, rfl, rfl, rfl⟩)⟩
      · simp only [List.length_singleton, Nat.lt_one_iff] at hlt
        subst hlt
        simp [Pool.canStep] at hc
    · -- the job is in the channel
      subst h1 h2 h3 h4
      rcases hmw with rfl | ⟨w, hlt, rfl⟩
      · simp only [Pool.canStep, Bool.decide_or, Bool.or_eq_true, decide_eq_true_eq] at hc
        rcases hc with hc | hc
        · subst hc
          exact Or.inl ⟨rfl, rfl, rfl, rfl, Or.inr (Or.inl ⟨rfl, rfl, rfl, rfl⟩)⟩
        · exact absurd hc (by decide)
      · simp only [List.length_singleton, Nat.lt_one_iff] at hlt
        subst hlt
        exact Or.inl ⟨rfl, rfl, rfl, rfl, Or.inr (Or.inr ⟨rfl, rfl, rfl, rfl⟩)⟩
    · -- the job is with the worker
      subst h1 h2 h3 h4
      rcases hmw with rfl | ⟨w, hlt, rfl⟩
      · simp only [Pool.canStep, Bool.decide_or, Bool.or_eq_true, decide_eq_true_eq] at hc
        rcases hc with hc | hc
        · subst hc
          exact Or.inl ⟨rfl, rfl, rfl, rfl, Or.inr (Or.inr ⟨rfl, rfl, rfl, rfl⟩)⟩
        · exact absurd hc (by decide)
      · simp only [List.length_singleton, Nat.lt_one_iff] at hlt
        subst hlt
        simp only [Pool.step, worker, List.getD_cons_zero]
        rcases hf : j.parallelFunc () with ⟨r, _ | e⟩ | m | _
        · exact Or.inr (Or.inr ⟨r, none, hf, rfl, rfl, rfl, rfl, rfl, rfl, Or.inl rfl⟩)
        · exact Or.inr (Or.inr ⟨r, some e, hf, rfl, rfl, rfl, rfl, rfl, rfl, Or.inl rfl⟩)
        · exact Or.inr (Or.inl ⟨m, hf, rfl, rfl⟩)
        · simp [Pool.canStep, hf] at hc
  · simp at h
  · simp only at h1 h2 h3 h4 h5 h6
    subst h1 h2 h3 h4 h5
    rcases hmw with rfl | ⟨w, hlt, rfl⟩
    · simp only [Pool.step, PBatch.main]
      cases closed with
      | false => exact Or.inr (Or.inr ⟨r, err, hf, rfl, rfl, rfl, rfl, rfl, rfl, h6⟩)
      | true => exact Or.inr (Or.inr ⟨r, err, hf, rfl, rfl, rfl, rfl, rfl, rfl, h6⟩)
    · rcases h6 with h6 | h6
      · subst h6
        simp only [List.length_singleton, Nat.lt_one_iff] at hlt
        subst hlt
        simp only [Pool.step, worker, List.getD_cons_zero]
        cases closed with
        | false => exact Or.inr (Or.inr ⟨r, err, hf, rfl, rfl, rfl, rfl, rfl, rfl, Or.inl rfl⟩)
        | true => exact Or.inr (Or.inr ⟨r, err, hf, rfl, rfl, rfl, rfl, rfl, rfl, Or.inr rfl⟩)
      · subst h6
        simp only [List.length_singleton, Nat.lt_one_iff] at hlt
        subst hlt
        simp [Pool.canStep] at hc

/-- What `PBatch` does with one container and at least one worker, whatever the scheduler does:
the read is made once; its record is returned when it succeeds (with `Latest` set the final
filter keeps it), nothing when it fails; a read that panics or never ends makes `PBatch` do
the same, and a read that never ends is not logged. -/
theorem PBatch_singleton (env : Env) (c : Container) (workers : Int) (opts : PsOptions)
    (hw : 1 ≤ workers) (hL : opts.Latest = true) :
    PBatch env [c] workers opts =
      match NewBatchContainer env c opts with
      | Outcome.returned (rec, none) => (Outcome.returned [rec], [RuntimeCall.Batch c.ID])
      | Outcome.returned (_, some _) => (Outcome.returned [], [RuntimeCall.Batch c.ID])
      | Outcome.panicked m => (Outcome.panicked m, [RuntimeCall.Batch c.ID])
      | Outcome.blocked => (Outcome.blocked, []) := by
  have hn : ¬ (opts.All = false ∧ opts.Latest = false ∧ opts.Last < 1) := by
    rintro ⟨_, h, _⟩
    rw [h] at hL
    exact Bool.noConfusion hL
  have hpool : PBatch.pool env [c] workers opts
      = { pending := [{ parallelFunc := fun _ => NewBatchContainer env c opts, opts := opts,
                        cid := c.ID, job := 0 }],
          jobs := [], jobsClosed := false, results := [], batchErrors := [], wg := 0,
          workers := [WorkerState.receiving], waited := false, panic := none, calls := [] } := by
    have h1 : (if (([c] : List Container).length : Int) < workers
        then (([c] : List Container).length : Int) else workers) = 1 := by
      simp only [List.length_singleton, Nat.cast_one]
      split_ifs <;> omega
    unfold PBatch.pool
    simp only [h1]
    rfl
  have hrest := exec_rest env.schedule
    (3 * [c].length + (PBatch.pool env [c] workers opts).workers.length + 2) 0
    (PBatch.pool env [c] workers opts) (le_of_eq (pool_stepsLeft env [c] workers opts))
  have hS := exec_invariant
    (Pool.Single { parallelFunc := fun _ => NewBatchContainer env c opts, opts := opts,
                   cid := c.ID, job := 0 })
    (fun p g h hg => single_step _ p g h hg) env.schedule
    (3 * [c].length + (PBatch.pool env [c] workers opts).workers.length + 2) 0
    (PBatch.pool env [c] workers opts)
    (by rw [hpool]; exact Or.inl ⟨rfl, rfl, rfl, rfl, Or.inl ⟨rfl, rfl, rfl, rfl, rfl⟩⟩)
  have key : ∀ pf : Pool, pf.runnable = [] →
      pf.Single { parallelFunc := fun _ => NewBatchContainer env c opts, opts := opts,
                  cid := c.ID, job := 0 } →
      (match pf.panic with
        | some m => (Outcome.panicked m, pf.calls)
        | none =>
          if pf.waited = true then
            (Outcome.returned (pf.results.filter fun res =>
              if opts.All = false ∧ opts.Latest = false ∧ opts.Last < 1 then
                decide (res.IsInfra = false ∧ res.State = ContainerStatus.ContainerStateRunning)
              else true), pf.calls)
          else (Outcome.blocked, pf.calls))
        = match NewBatchContainer env c opts with
          | Outcome.returned (rec, none) => (Outcome.returned [rec], [RuntimeCall.Batch c.ID])
          | Outcome.returned (_, some _) => (Outcome.returned [], [RuntimeCall.Batch c.ID])
          | Outcome.panicked m => (Outcome.panicked m, [RuntimeCall.Batch c.ID])
          | Outcome.blocked => (Outcome.blocked, []) := by
    intro pf hr hS
    have hmain : ∀ q : Pool, q.runnable = [] → q.panic = none → q.waited = false →
        q.canStep Goroutine.main = false := by
      intro q hq h1 h2
      by_contra hcs
      have := runnable_of_canStep q Goroutine.main h1 h2 (by simpa using hcs) (Or.inl rfl)
      rw [hq] at this
      simp at this
    obtain ⟨pending, jobs, closed, results, errs, wg, ws, waited, panic, calls⟩ := pf
    rcases hS with ⟨h1, h2, h3, h4, h⟩ | ⟨m, hf, h1, h2⟩ | ⟨r, err, hf, h0, h1, h2, h3, h4, h5, h6⟩
    · simp only at h1 h2 h3 h4 h
      subst h1 h2 h3 h4
      have hwork : ∀ q : Pool, q.runnable = [] → q.panic = none → q.waited = false →
          0 < q.workers.length → q.canStep (Goroutine.worker 0) = false := by
        intro q hq h1 h2 h3
        by_contra hcs
        have := runnable_of_canStep q (Goroutine.worker 0) h1 h2 (by simpa using hcs)
          (Or.inr ⟨0, h3, rfl⟩)
        rw [hq] at this
        simp at this
      have hm := hmain _ hr rfl rfl
      rcases h with ⟨h1, h2, h3, h4, h5⟩ | ⟨h1, h2, h3, h4⟩ | ⟨h1, h2, h3, h4⟩
      · subst h1
        simp [Pool.canStep] at hm
      · subst h1 h2 h3 h4
        have hk := hwork _ hr rfl rfl (by simp)
        simp [Pool.canStep] at hk
      · subst h1 h2 h3 h4
        have hk := hwork _ hr rfl rfl (by simp)
        simp only [Pool.canStep, List.getD_cons_zero] at hk
        rcases hf : NewBatchContainer env c opts with ⟨r, _ | e⟩ | m | _
        · simp [hf] at hk
        · simp [hf] at hk
        · simp [hf] at hk
        · simp
    · simp only at hf h1 h2
      subst h1 h2
      rw [hf]
    · simp only at hf h0 h1 h2 h3 h4 h5 h6
      subst h0 h1 h2 h3 h4 h5
      have hwt : waited = true := by
        by_contra hwt
        have hwf : waited = false := by simpa using hwt
        subst hwf
        have hm := hmain _ hr rfl rfl
        simp [Pool.canStep] at hm
      subst hwt
      rw [hf]
      simp only [hn, if_false, List.filter_true, if_true]
      cases err <;> rfl
  unfold PBatch
  exact key _ hrest hS

/-- The order of the records is the order in which the workers deliver them: `web`, `db` and
`infra` read by two workers come back in this order under one scheduler and as `db`, `infra`,
`web` under another. -/
theorem PBatch_delivery_order :
    (PBatch Example.env [Example.web, Example.db, Example.infra] 2 Example.all).1
      = Outcome.returned (Spec.successfulRecords Example.env Example.all
          [Example.web, Example.db, Example.infra]) ∧
    (PBatch Example.envLate [Example.web, Example.db, Example.infra] 2 Example.all).1
      = Outcome.returned (Spec.successfulRecords Example.env Example.all
          [Example.db, Example.infra, Example.web]) ∧
    (PBatch Example.envLate [Example.web, Example.db, Example.infra] 2 Example.all).2
      = [RuntimeCall.Batch Example.db.ID, RuntimeCall.Batch Example.infra.ID,
          RuntimeCall.Batch Example.web.ID] :=
  ⟨rfl, rfl, rfl⟩

/-- C19 (counterexample): with a worker budget of 0 and the one container `web`, `PBatch`
returns no records at all, with `All` set or not and under either scheduler: no worker is
there to take the job, no batch read is made, and the wait for the job never ends. -/
theorem PBatch_result_no_worker :
    PBatch Example.env [Example.web] 0 (Example.last 0) = (Outcome.blocked, []) ∧
    PBatch Example.envLate [Example.web] 0 Example.all = (Outcome.blocked, []) :=
  ⟨rfl, rfl⟩

/-- C19 (amended): with at least one worker (or nothing to read) and batch reads that all
return, `PBatch` returns, whatever the scheduler does. The records `delivered` on the results
channel are those of the successful reads, none added, duplicated or altered, in the order of
delivery. When none of `All`, `Latest`, `Last >= 1` is set, `PBatch` returns those of them
whose `IsInfra` is false and whose raw state is Running; otherwise it returns them all. -/
theorem PBatch_result (env : Env) (containers : List Container) (workers : Int)
    (opts : PsOptions) (hw : 1 ≤ workers ∨ containers = [])
    (hret : ∀ c ∈ containers, ∃ res, NewBatchContainer env c opts = Outcome.returned res) :
    ∃ delivered : List PsContainerOutput,
      delivered.Perm (Spec.successfulRecords env opts containers) ∧
      (opts.All = false ∧ opts.Latest = false ∧ opts.Last < 1 →
        (PBatch env containers workers opts).1
          = Outcome.returned (delivered.filter fun rec =>
              decide (rec.IsInfra = false
                ∧ rec.State = ContainerStatus.ContainerStateRunning))) ∧
      (opts.All = true ∨ opts.Latest = true ∨ 1 ≤ opts.Last →
        (PBatch env containers workers opts).1 = Outcome.returned delivered) := by
  obtain ⟨delivered, calls, hperm, _, hres⟩ := PBatch_returns env containers workers opts hw hret
  refine ⟨delivered, hperm, ?_, ?_⟩
  · intro h
    rw [hres]
    simp only [h, and_self, if_true]
  · intro h
    have hn : ¬ (opts.All = false ∧ opts.Latest = false ∧ opts.Last < 1) := by
      rintro ⟨h1, h2, h3⟩
      rcases h with h | h | h
      · rw [h1] at h; exact Bool.noConfusion h
      · rw [h2] at h; exact Bool.noConfusion h
      · omega
    rw [hres]
    simp only [hn, if_false, List.filter_true]

/-- Witness for C19: `web` (running), `infra` (paused, infra) and `broken` (exit code
unreadable) with two workers: the default view keeps `web` only. -/
theorem PBatch_result_witness :
    ∃ delivered : List PsContainerOutput,
      delivered.Perm (Spec.successfulRecords Example.env (Example.last 0)
        [Example.web, Example.infra, Example.broken]) ∧
      (PBatch Example.env [Example.web, Example.infra, Example.broken] 2 (Example.last 0)).1
        = Outcome.returned (delivered.filter fun rec =>
            decide (rec.IsInfra = false ∧ rec.State = ContainerStatus.ContainerStateRunning)) ∧
      ((Spec.successfulRecords Example.env (Example.last 0)
          [Example.web, Example.infra, Example.broken]).map fun rec => rec.Names)
        = ["web", "infra"] ∧
      ((delivered.filter fun rec =>
          decide (rec.IsInfra = false ∧ rec.State = ContainerStatus.ContainerStateRunning)).map
          fun rec => rec.Names) = ["web"] := by
  obtain ⟨delivered, hperm, hdef, _⟩ := PBatch_result Example.env
    [Example.web, Example.infra, Example.broken] 2 (Example.last 0) (Or.inl (by decide))
    (by
      intro c hc
      simp only [List.mem_cons, List.mem_singleton, List.mem_nil_iff, or_false] at hc
      rcases hc with h | h | h <;> subst h <;> exact ⟨_, rfl⟩)
  have h := hdef ⟨rfl, rfl, by decide⟩
  refine ⟨delivered, hperm, h, by decide, ?_⟩
  have hval : (PBatch Example.env [Example.web, Example.infra, Example.broken] 2
      (Example.last 0)).1
      = Outcome.returned (Spec.successfulRecords Example.env (Example.last 0) [Example.web]) :=
    rfl
  rw [hval] at h
  simp only [Outcome.returned.injEq] at h
  rw [← h]
  decide

/-- C21: with `All` set and at least one worker, if the batch read of one container fails with
an error (and the other reads return), `PBatch` returns, whatever the scheduler does, and
what it returns is the records of the other containers whose read succeeds, each as
`NewBatchContainer` produced it and each once, in the order of delivery: nothing for the
failing container, no error reported, and as many records as there are successful reads. -/
theorem PBatch_one_failure (env : Env) (pre post : List Container) (bad : Container)
    (workers : Int) (opts : PsOptions) (pso : PsContainerOutput) (e : Error)
    (hAll : opts.All = true) (hw : 1 ≤ workers)
    (hbad : NewBatchContainer env bad opts = Outcome.returned (pso, some e))
    (hret : ∀ c ∈ pre ++ post, ∃ res, NewBatchContainer env c opts = Outcome.returned res) :
    ∃ delivered : List PsContainerOutput,
      (PBatch env (pre ++ bad :: post) workers opts).1 = Outcome.returned delivered ∧
      delivered.Perm (Spec.successfulRecords env opts (pre ++ post)) ∧
      delivered.length = ((pre ++ bad :: post).filter (Spec.readSucceeds env opts)).length := by
  have hret' : ∀ c ∈ pre ++ bad :: post,
      ∃ res, NewBatchContainer env c opts = Outcome.returned res := by
    intro c hc
    rcases List.mem_append.mp hc with h | h
    · exact hret c (List.mem_append_left _ h)
    · rcases List.mem_cons.mp h with h | h
      · subst h; exact ⟨_, hbad⟩
      · exact hret c (List.mem_append_right _ h)
  have hsame : Spec.successfulRecords env opts (pre ++ bad :: post)
      = Spec.successfulRecords env opts (pre ++ post) := by
    have : pre ++ bad :: post = pre ++ ([bad] ++ post) := rfl
    rw [this, successfulRecords_append, successfulRecords_append,
      successfulRecords_failed env opts bad pso e hbad, List.nil_append,
      ← successfulRecords_append]
  obtain ⟨delivered, calls, hperm, _, hres⟩ :=
    PBatch_returns env (pre ++ bad :: post) workers opts (Or.inl hw) hret'
  have hn : ¬ (opts.All = false ∧ opts.Latest = false ∧ opts.Last < 1) := by
    rintro ⟨h1, _⟩
    rw [h1] at hAll
    exact Bool.noConfusion hAll
  refine ⟨delivered, ?_, hsame ▸ hperm, ?_⟩
  · rw [hres]
    simp only [hn, if_false, List.filter_true]
  · rw [hperm.length_eq, successfulRecords_length]

/-- Witness for C21: `web`, then `broken` (its exit code cannot be read), then `infra`, read
with `All` set by two workers under the scheduler of `envLate`: the two records of `web` and
`infra` come back, that of `infra` first. -/
theorem PBatch_one_failure_witness :
    ∃ delivered : List PsContainerOutput,
      (PBatch Example.envLate ([Example.web] ++ Example.broken :: [Example.infra]) 2
        Example.all).1 = Outcome.returned delivered ∧
      delivered.Perm (Spec.successfulRecords Example.envLate Example.all
        ([Example.web] ++ [Example.infra])) ∧
      delivered.length = 2 ∧ delivered.map (fun rec => rec.Names) = ["infra", "web"] := by
  obtain ⟨delivered, h1, h2, h3⟩ := PBatch_one_failure Example.envLate [Example.web]
    [Example.infra] Example.broken 2 Example.all PsContainerOutput.zero
    (Error.Wrapf (Error.external "no such exit file") "unable to obtain container exit code")
    rfl (by decide) rfl
    (by
      intro c hc
      simp only [List.singleton_append, List.mem_cons, List.mem_singleton, List.mem_nil_iff,
        or_false] at hc
      rcases hc with h | h <;> subst h <;> exact ⟨_, rfl⟩)
  refine ⟨delivered, h1, h2, by rw [h3]; decide, ?_⟩
  have hval : (PBatch Example.envLate ([Example.web] ++ Example.broken :: [Example.infra]) 2
      Example.all).1
      = Outcome.returned (Spec.successfulRecords Example.envLate Example.all
          [Example.infra, Example.web]) := rfl
  rw [hval] at h1
  simp only [Outcome.returned.injEq] at h1
  rw [← h1]
  decide

/-- C22 (counterexample): with a worker budget of 0 and the two containers `web` and `infra`,
under either scheduler, no worker is spawned, no batch job is run (no batch read is made),
and `PBatch` does not return; and with a budget of -1 the number of workers spawned, none, is
not `min(workerBudget, K)`. -/
theorem PBatch_budget_zero_blocks :
    (PBatch.pool Example.env [Example.web, Example.infra] 0 (Example.last 0)).workers = [] ∧
    PBatch Example.env [Example.web, Example.infra] 0 (Example.last 0)
      = (Outcome.blocked, []) ∧
    PBatch Example.envLate [Example.web, Example.infra] 0 (Example.last 0)
      = (Outcome.blocked, []) ∧
    ((PBatch.pool Example.env [Example.web, Example.infra] (-1)
        (Example.last 0)).workers.length : Int)
      ≠ min (-1) (([Example.web, Example.infra] : List Container).length : Int) :=
  ⟨rfl, rfl, rfl, by decide⟩

/-- C22 (amended): for `K` containers and a worker budget of at least 0, also one below `K`,
`PBatch` spawns `min(workers, K)` workers and, after any number of steps of the run, whatever
the scheduler does, there are as many workers as were spawned and the jobs in flight
(received by a worker and not finished) are no more than the budget; and with a budget of at
least 1 (or no container), when every batch read returns, `PBatch` returns, and the batch
reads made before it returns, each logged when its job is done, are those of the `K`
containers, each exactly once. -/
theorem PBatch_worker_pool (env : Env) (containers : List Container) (workers : Int)
    (opts : PsOptions) (hw : 0 ≤ workers) :
    ((PBatch.pool env containers workers opts).workers.length : Int)
        = min workers (containers.length : Int) ∧
    (∀ steps : Nat,
      (PBatch.exec env.schedule steps 0 (PBatch.pool env containers workers opts)).workers.length
          = (PBatch.pool env containers workers opts).workers.length ∧
      ((inFlight (PBatch.exec env.schedule steps 0
          (PBatch.pool env containers workers opts)).workers).length : Int) ≤ workers) ∧
    (1 ≤ workers ∨ containers = [] →
      (∀ c ∈ containers, ∃ res, NewBatchContainer env c opts = Outcome.returned res) →
      ∃ (delivered : List PsContainerOutput) (calls : List RuntimeCall),
        PBatch env containers workers opts = (Outcome.returned delivered, calls) ∧
        calls.Perm (containers.map fun c => RuntimeCall.Batch c.ID)) := by
  have hlen : ((PBatch.pool env containers workers opts).workers.length : Int)
      = min workers (containers.length : Int) := by
    rw [pool_workers]
    omega
  refine ⟨hlen, ?_, ?_⟩
  · intro steps
    have h1 := exec_workers_length env.schedule steps 0 (PBatch.pool env containers workers opts)
    refine ⟨h1, ?_⟩
    have h2 := inFlight_length_le
      (PBatch.exec env.schedule steps 0 (PBatch.pool env containers workers opts)).workers
    rw [h1] at h2
    omega
  · intro hw1 hret
    obtain ⟨delivered, calls, _, hcalls, hres⟩ :=
      PBatch_returns env containers workers opts hw1 hret
    exact ⟨_, calls, hres, hcalls⟩

/-- Witness for C22: `web`, `infra` and `db` with a budget of 2 under the scheduler of
`envLate`: two workers, after six steps both have a job in flight, and the three reads are
made before `PBatch` returns. -/
theorem PBatch_worker_pool_witness :
    ((PBatch.pool Example.envLate [Example.web, Example.infra, Example.db] 2
        Example.all).workers.length : Int) = 2 ∧
    (inFlight (PBatch.exec Example.envLate.schedule 6 0
        (PBatch.pool Example.envLate [Example.web, Example.infra, Example.db] 2
          Example.all)).workers).length = 2 ∧
    ∃ (delivered : List PsContainerOutput) (calls : List RuntimeCall),
      PBatch Example.envLate [Example.web, Example.infra, Example.db] 2 Example.all
        = (Outcome.returned delivered, calls) ∧
      calls.Perm ([Example.web, Example.infra, Example.db].map
        fun c => RuntimeCall.Batch c.ID) := by
  obtain ⟨h1, _, h3⟩ := PBatch_worker_pool Example.envLate
    [Example.web, Example.infra, Example.db] 2 Example.all (by decide)
  refine ⟨h1.trans (by decide), rfl, h3 (Or.inl (by decide)) ?_⟩
  intro c hc
  simp only [List.mem_cons, List.mem_singleton, List.mem_nil_iff, or_false] at hc
  rcases hc with h | h | h <;> subst h <;> exact ⟨_, rfl⟩

/-- C26 (counterexample): with `Latest` set, no filter and a worker budget of 0,
`GetPsContainerOutput` asks for the latest container and then, under either scheduler, makes
no batch read at all and never returns. -/
theorem GetPsContainerOutput_latest_no_worker :
    GetPsContainerOutput Example.env Example.runtime
        { Example.last 0 with Latest := true } [] 0
      = (Outcome.blocked, [RuntimeCall.GetLatestContainer]) ∧
    GetPsContainerOutput Example.envLate Example.runtime
        { Example.last 0 with Latest := true } [] 0
      = (Outcome.blocked, [RuntimeCall.GetLatestContainer]) :=
  ⟨rfl, rfl⟩

/-- C26 (amended): with `Latest` set, filters that all compile, a runtime that reports `c` as
its most recently created container, and a worker budget of at least 1, `GetPsContainerOutput`
makes, after the lookups of the filter compilation, one latest-container query and exactly one
batch read, that of `c`, logged when it is done (no listing, and the compiled filters are not
applied; a read that never ends is not logged); it returns the one record of `c` when its read
succeeds, whatever the state of `c` and whether or not it is an infra container, and no record
(and no error) when its read fails. -/
theorem GetPsContainerOutput_latest (env : Env) (r : Runtime) (opts : PsOptions)
    (filters : List String) (maxWorkers : Int) (fs : List (Container → Bool))
    (calls : List RuntimeCall) (c : Container)
    (hL : opts.Latest = true)
    (hc : GetPsContainerOutput.compile r filters [] = ((fs, none), calls))
    (hl : r.GetLatestContainer = Except.ok c) (hw : 1 ≤ maxWorkers) :
    (GetPsContainerOutput env r opts filters maxWorkers).2
        = calls ++ [RuntimeCall.GetLatestContainer] ++
            (match NewBatchContainer env c opts with
              | Outcome.blocked => []
              | _ => [RuntimeCall.Batch c.ID]) ∧
    (∀ x ∈ calls, x.isLookup = true) ∧
    (∀ rec, NewBatchContainer env c opts = Outcome.returned (rec, none) →
      (GetPsContainerOutput env r opts filters maxWorkers).1 = Outcome.returned ([rec], none)) ∧
    (∀ rec e, NewBatchContainer env c opts = Outcome.returned (rec, some e) →
      (GetPsContainerOutput env r opts filters maxWorkers).1 = Outcome.returned ([], none)) := by
  have hcalls := compile_calls r filters []
  rw [hc] at hcalls
  have hne : ¬ (opts.Latest = false) := by rw [hL]; exact Bool.noConfusion
  unfold GetPsContainerOutput
  rw [hc]
  simp only [if_neg hne, hl]
  rw [PBatch_singleton env c maxWorkers opts hw hL]
  refine ⟨?_, hcalls, ?_, ?_⟩
  · rcases NewBatchContainer env c opts with ⟨rec, _ | e⟩ | _ | _ <;> rfl
  · intro rec h
    rw [h]
  · intro rec e h
    rw [h]

/-- Witness for C26: with `Latest` set and the filter `name=db`, which `web` does not satisfy,
the runtime's latest container `web` is read and its record returned; and a latest container
that is a paused infra container is returned as well. -/
theorem GetPsContainerOutput_latest_witness :
    (∃ rec, (GetPsContainerOutput Example.env Example.runtime
        { Example.last 0 with Latest := true } ["name=db"] 1).1
          = Outcome.returned ([rec], none) ∧ rec.Names = "web") ∧
    (∃ rec, (GetPsContainerOutput Example.envLate
        { Example.runtime with GetLatestContainer := Except.ok Example.infra }
        { Example.last 0 with Latest := true } [] 3).1
          = Outcome.returned ([rec], none) ∧ rec.IsInfra = true
            ∧ rec.State = ContainerStatus.ContainerStatePaused) :=
  ⟨⟨_, (GetPsContainerOutput_latest Example.env Example.runtime
      { Example.last 0 with Latest := true } ["name=db"] 1 _ _ Example.web rfl rfl rfl
      (by decide)).2.2.1 _ rfl, rfl⟩,
    ⟨_, (GetPsContainerOutput_latest Example.envLate
      { Example.runtime with GetLatestContainer := Except.ok Example.infra }
      { Example.last 0 with Latest := true } [] 3 _ _ Example.infra rfl rfl rfl
      (by decide)).2.2.1 _ rfl, rfl, rfl⟩⟩

/-! ### Port groups -/

theorem GroupsDescribe_congr (E E' : List PortMapping) (groups : List (String × Int × Int))
    (h : ∀ v, v ∈ E ↔ v ∈ E') (hd : Spec.GroupsDescribe E groups) :
    Spec.GroupsDescribe E' groups := by
  unfold Spec.GroupsDescribe Spec.IsMaximalRun at hd ⊢
  simpa only [h] using hd

theorem sorted_filter_comm (ports : List PortMapping) (p : PortMapping → Bool) :
    (ports.insertionSort fun a b => comparePorts b a = false).filter p
      = (ports.filter p).insertionSort fun a b => comparePorts b a = false := by
  symm
  apply sortedPorts_eq_of_perm
  · exact ((List.perm_insertionSort _ ports).filter p).symm
  · exact (sorted_sortedPorts ports).filter p

/-- What `formatGroup` makes of a key with a further slash. A `HostIP` string that is no
address, such as the CIDR block `10.0.0.0/8`, gives the group key `10.0.0.0/8/tcp`, which is
split at every slash when the group is rendered: the mapping of port 80 to port 80 is not
shown as `10.0.0.0/8:80->80/tcp`. -/
theorem portsToString_slash_in_host_ip :
    (portsToString (Spec.consecutive "10.0.0.0/8" "tcp" 80 1)).1 = "10.0.0.0:80->80/8" ∧
    (portsToString (Spec.consecutive "10.0.0.0/8" "tcp" 80 1)).1
      ≠ Spec.shownIP "10.0.0.0/8" ++ ":" ++ Itoa 80 ++ "->" ++ Itoa 80 ++ "/" ++ "tcp" := by
  decide

/-- C23: for every host IP `ip` and protocol `proto`, start port `p` and count `n ≥ 1`, the `n`
mappings with that host IP and protocol and host port = container port = `p, p+1, ..., p+n-1`,
given in any order, are formatted as the single entry `ip:p-q->p-q/proto` with `q = p+n-1`
when `n ≥ 2` and as `ip:p->p/proto` when `n = 1`, an empty host IP being shown as `0.0.0.0`.
The Go fields are a `string`, a `string` and two `int32`: `hip` and `hproto` say of the two
strings what holds of every IP address (also the empty one) and of every protocol name, that
there is no slash in them, and `hp` and `hq` that the ports are `int32` values. -/
theorem portsToString_consecutive_range (ip proto : String) (p : Int) (n : Nat)
    (ports : List PortMapping) (hip : '/' ∉ ip.data) (hproto : '/' ∉ proto.data)
    (hn : 1 ≤ n) (hp : -2 ^ 31 ≤ p) (hq : p + n - 1 < 2 ^ 31)
    (hperm : ports.Perm (Spec.consecutive ip proto p n)) :
    (portsToString ports).1 =
      if n = 1 then Spec.shownIP ip ++ ":" ++ Itoa p ++ "->" ++ Itoa p ++ "/" ++ proto
      else Spec.shownIP ip ++ ":" ++ (Itoa p ++ "-" ++ Itoa (p + n - 1)) ++ "->"
        ++ (Itoa p ++ "-" ++ Itoa (p + n - 1)) ++ "/" ++ proto := by
  obtain ⟨m, rfl⟩ : ∃ m, n = m + 1 := ⟨n - 1, by omega⟩
  have hq' : p + (m : Int) < 2 ^ 31 := by push_cast at hq; omega
  rw [portsToString_consecutive ip proto p m hp hq' ports hperm, formatGroup_key ip proto _ _
    hip hproto]
  have hsub : p + ((m + 1 : Nat) : Int) - 1 = p + (m : Int) := by push_cast; omega
  rw [hsub]
  by_cases hm : m = 0
  · subst hm
    simp
  · have h1 : p ≠ p + (m : Int) := by omega
    have h2 : ¬ (m + 1 = 1) := by omega
    rw [if_pos h1, if_neg h2]

/-- Witness for C23: ports 81, 80, 82 on tcp with no host IP give `0.0.0.0:80-82->80-82/tcp`. -/
theorem portsToString_consecutive_range_witness :
    (portsToString [Example.tcp 81 81, Example.tcp 80 80, Example.tcp 82 82]).1
      = "0.0.0.0:80-82->80-82/tcp" :=
  (portsToString_consecutive_range "" "tcp" 80 3
    [Example.tcp 81 81, Example.tcp 80 80, Example.tcp 82 82] (by decide) (by decide)
    (by decide) (by norm_num) (by norm_num) (by decide)).trans (by decide)

/-- C24: a mapping with host port ≠ container port only appends its own entry
`<hostIP>:<hostPort>-><containerPort>/<proto>` (empty host IP shown as `0.0.0.0`) and leaves
the groups as they are; so the output of `portsToString` is these entries, one for each such
mapping of the list (in sorted order), followed by exactly the groups that the list without
these mappings yields. -/
theorem portsToString_individual (ports : List PortMapping) :
    (∀ (st : PortLoop) (v : PortMapping), v.ContainerPort ≠ v.HostPort →
      portsToString.step st v
        = { st with portDisplay := st.portDisplay ++ [Spec.portEntry v] }) ∧
    (portsToString ports).1 =
      Join (((ports.insertionSort fun a b => comparePorts b a = false).filter
            fun v => decide (v.ContainerPort ≠ v.HostPort)).map Spec.portEntry
          ++ ((((ports.filter fun v => decide (v.ContainerPort = v.HostPort)).insertionSort
              fun a b => comparePorts b a = false).foldl portsToString.step
              ⟨[], []⟩).groups.map fun g => formatGroup g.1 g.2.1 g.2.2)) ", " ∧
    ((ports.insertionSort fun a b => comparePorts b a = false).filter
        fun v => decide (v.ContainerPort ≠ v.HostPort)).Perm
      (ports.filter fun v => decide (v.ContainerPort ≠ v.HostPort)) ∧
    (portsToString (ports.filter fun v => decide (v.ContainerPort = v.HostPort))).1 =
      Join ((((ports.filter fun v => decide (v.ContainerPort = v.HostPort)).insertionSort
          fun a b => comparePorts b a = false).foldl portsToString.step
          ⟨[], []⟩).groups.map fun g => formatGroup g.1 g.2.1 g.2.2) ", " := by
  refine ⟨step_individual, ?_, (List.perm_insertionSort _ ports).filter _, ?_⟩
  · rw [portsToString_eq, sorted_filter_comm ports fun v => decide (v.ContainerPort = v.HostPort)]
  · rw [portsToString_eq, sorted_filter_comm, sorted_filter_comm]
    have h1 : ((ports.filter fun v => decide (v.ContainerPort = v.HostPort)).filter
        fun v => decide (v.ContainerPort ≠ v.HostPort)) = [] := by
      rw [List.filter_filter, List.filter_eq_nil_iff]
      intro v _
      simp
    have h2 : ((ports.filter fun v => decide (v.ContainerPort = v.HostPort)).filter
        fun v => decide (v.ContainerPort = v.HostPort))
        = ports.filter fun v => decide (v.ContainerPort = v.HostPort) := by
      rw [List.filter_filter]
      congr 1
      funext v
      simp
    rw [h1, h2]
    rfl

/-- Witness for C24: the single mapping of host port 9090 to container port 80 on tcp is shown
as `0.0.0.0:9090->80/tcp`; and between ports 80 and 82 the mapping of host port 9091 to
container port 81 has its own entry and joins nothing. -/
theorem portsToString_individual_witness :
    (portsToString [Example.tcp 9090 80]).1 = "0.0.0.0:9090->80/tcp" ∧
    (portsToString [Example.tcp 80 80, Example.tcp 9091 81, Example.tcp 82 82]).1
      = "0.0.0.0:9091->81/tcp, 0.0.0.0:80->80/tcp" :=
  ⟨(portsToString_individual [Example.tcp 9090 80]).2.1.trans (by decide),
    (portsToString_individual
      [Example.tcp 80 80, Example.tcp 9091 81, Example.tcp 82 82]).2.1.trans (by decide)⟩

/-- C25: a mapping with host port = container port whose key (host IP, shown as `0.0.0.0` when
empty, then `/`, then the protocol) already has a group, and whose container port is not that
group's last port + 1, leaves the loop state as it is: no group extended, none opened, no
entry. So (ports of the 32-bit range) the output of `portsToString` is the individual entries
followed by one rendered group for each key of the mappings with equal ports, and that group
is the maximal run of consecutive ports starting at the smallest port of the key. -/
theorem portsToString_groups (ports : List PortMapping)
    (hrange : ∀ v ∈ ports, -2 ^ 31 ≤ v.ContainerPort ∧ v.ContainerPort < 2 ^ 31) :
    (∀ (st : PortLoop) (v : PortMapping) (g : String × Int × Int),
      v.ContainerPort = v.HostPort → -2 ^ 31 < v.ContainerPort → v.ContainerPort < 2 ^ 31 →
      st.groups.find? (fun g => g.1 = Spec.portKey v) = some g →
      v.ContainerPort ≠ g.2.2 + 1 →
      portsToString.step st v = st) ∧
    ∃ groups : List (String × Int × Int),
      Spec.GroupsDescribe (ports.filter fun v => decide (v.ContainerPort = v.HostPort)) groups ∧
      (portsToString ports).1 =
        Join (((ports.insertionSort fun a b => comparePorts b a = false).filter
              fun v => decide (v.ContainerPort ≠ v.HostPort)).map Spec.portEntry
            ++ groups.map fun g => formatGroup g.1 g.2.1 g.2.2) ", " := by
  constructor
  · intro st v g heq hlo hhi hfind hne
    rw [step_grouped st v heq, hfind]
    have h32 : int32 (v.ContainerPort - 1) = v.ContainerPort - 1 :=
      int32_of_range _ (by omega) (by omega)
    have hne' : ¬ g.2.2 = int32 (v.ContainerPort - 1) := by
      rw [h32]
      omega
    simp only [hne', if_false]
  · refine ⟨_, GroupsDescribe_congr _ _ _ ?_ (groups_describe ports hrange), ?_⟩
    · intro v
      rw [List.mem_filter, List.mem_filter, (List.perm_insertionSort _ ports).mem_iff]
    · rw [portsToString_eq]

/-- Witness for C25: ports 80 and 82 on tcp with no host IP give only `0.0.0.0:80->80/tcp`. -/
theorem portsToString_groups_witness :
    (∃ groups : List (String × Int × Int),
      Spec.GroupsDescribe ([Example.tcp 80 80, Example.tcp 82 82].filter
        fun v => decide (v.ContainerPort = v.HostPort)) groups ∧
      (portsToString [Example.tcp 80 80, Example.tcp 82 82]).1 =
        Join ((([Example.tcp 80 80, Example.tcp 82 82].insertionSort
              fun a b => comparePorts b a = false).filter
              fun v => decide (v.ContainerPort ≠ v.HostPort)).map Spec.portEntry
            ++ groups.map fun g => formatGroup g.1 g.2.1 g.2.2) ", ") ∧
    (portsToString [Example.tcp 80 80, Example.tcp 82 82]).1 = "0.0.0.0:80->80/tcp" :=
  ⟨(portsToString_groups [Example.tcp 80 80, Example.tcp 82 82] (by
      intro v hv
      simp only [List.mem_cons, List.mem_singleton, List.mem_nil_iff, or_false] at hv
      rcases hv with h | h <;> subst h <;> constructor <;> decide)).2,
    by decide⟩

/-- C27 (counterexample): called on the list of ports 82, 80, `portsToString` leaves the
caller's list as 80, 82. -/
theorem portsToString_reorders_argument :
    (portsToString [Example.tcp 82 82, Example.tcp 80 80]).2
      = [Example.tcp 80 80, Example.tcp 82 82] ∧
    (portsToString [Example.tcp 82 82, Example.tcp 80 80]).2
      ≠ [Example.tcp 82 82, Example.tcp 80 80] := by
  decide

/-- C27 (amended): after the call the caller's port-mapping list holds the same elements as
before, rearranged in ascending order of `comparePorts` (no element is ordered before an
earlier one); it is in the same order as before exactly when it was already in that order. -/
theorem portsToString_sorts_argument (ports : List PortMapping) :
    (portsToString ports).2.Perm ports ∧
    (portsToString ports).2.Sorted (fun a b => comparePorts b a = false) ∧
    ((portsToString ports).2 = ports ↔ ports.Sorted fun a b => comparePorts b a = false) := by
  rw [portsToString_eq]
  refine ⟨List.perm_insertionSort _ ports, sorted_sortedPorts ports, ?_, ?_⟩
  · intro h
    have hs := sorted_sortedPorts ports
    rw [show (ports.insertionSort fun a b => comparePorts b a = false) = ports from h] at hs
    exact hs
  · intro h
    exact sortedPorts_eq_of_perm ports ports (List.Perm.refl _) h

/-- Witness for C27: the list of ports 82, 80 is rearranged, and the sorted list of ports 80, 82
is left in its order. -/
theorem portsToString_sorts_argument_witness :
    (portsToString [Example.tcp 82 82, Example.tcp 80 80]).2.Perm
        [Example.tcp 82 82, Example.tcp 80 80] ∧
    (portsToString [Example.tcp 80 80, Example.tcp 82 82]).2
        = [Example.tcp 80 80, Example.tcp 82 82] :=
  ⟨(portsToString_sorts_argument [Example.tcp 82 82, Example.tcp 80 80]).1,
    (portsToString_sorts_argument [Example.tcp 80 80, Example.tcp 82 82]).2.2.mpr (by decide)⟩

theorem GetPsContainerOutput_of_compile_error (env : Env) (r : Runtime) (opts : PsOptions)
    (filters : List String) (maxWorkers : Int) (err : Error)
    (h : (GetPsContainerOutput.compile r filters []).1 = ([], some err)) :
    (GetPsContainerOutput env r opts filters maxWorkers).1 = Outcome.returned ([], some err) := by
  cases hc : GetPsContainerOutput.compile r filters [] with
  | mk res calls =>
    rw [hc] at h
    simp only at h
    subst h
    unfold GetPsContainerOutput
    rw [hc]

theorem compileError_gen_error (r : Runtime) (k v : String) (hk : '=' ∉ k.data) (e : Error)
    (calls : List RuntimeCall)
    (hg : generateContainerFilterFuncs k v r = (Except.error e, calls)) :
    compileError r (k ++ "=" ++ v) = some (Error.Wrapf e "invalid filter") := by
  have hs := SplitN2_key_value k v hk
  have hlen : ¬ (SplitN2 (k ++ "=" ++ v) '=').length < 2 := by rw [hs]; simp
  have hg' : generateContainerFilterFuncs ((SplitN2 (k ++ "=" ++ v) '=').getD 0 "")
      ((SplitN2 (k ++ "=" ++ v) '=').getD 1 "") r = (Except.error e, calls) := by
    rw [hs]; exact hg
  unfold compileError
  rw [compile_cons_gen_error r _ hlen e calls hg']

/-- C28: if the runtime's lookup of `NAME` fails, the filters `before` and `since` with operand
`NAME` do not compile: `generateContainerFilterFuncs` returns the error "unable to find
container by name or id of NAME" and no predicate, the filter strings `before=NAME` and
`since=NAME` have that error, wrapped as an invalid filter, as their compile error, and
`GetPsContainerOutput` called with a filter list that holds one of them returns an error and
no records. -/
theorem before_since_unresolved (r : Runtime) (NAME : String) (e : Error)
    (h : r.LookupContainer NAME = Except.error e) :
    generateContainerFilterFuncs "before" NAME r
        = (Except.error (Error.Errorf ("unable to find container by name or id of " ++ NAME)),
            [RuntimeCall.LookupContainer NAME]) ∧
    generateContainerFilterFuncs "since" NAME r
        = (Except.error (Error.Errorf ("unable to find container by name or id of " ++ NAME)),
            [RuntimeCall.LookupContainer NAME]) ∧
    compileError r ("before" ++ "=" ++ NAME)
        = some (Error.Wrapf
            (Error.Errorf ("unable to find container by name or id of " ++ NAME))
            "invalid filter") ∧
    compileError r ("since" ++ "=" ++ NAME)
        = some (Error.Wrapf
            (Error.Errorf ("unable to find container by name or id of " ++ NAME))
            "invalid filter") ∧
    ∀ (env : Env) (opts : PsOptions) (filters : List String) (maxWorkers : Int),
      "before" ++ "=" ++ NAME ∈ filters ∨ "since" ++ "=" ++ NAME ∈ filters →
      ∃ err, (GetPsContainerOutput env r opts filters maxWorkers).1
        = Outcome.returned ([], some err) := by
  have hb : generateContainerFilterFuncs "before" NAME r
      = (Except.error (Error.Errorf ("unable to find container by name or id of " ++ NAME)),
          [RuntimeCall.LookupContainer NAME]) := by
    rw [gen_before, h]
  have hs : generateContainerFilterFuncs "since" NAME r
      = (Except.error (Error.Errorf ("unable to find container by name or id of " ++ NAME)),
          [RuntimeCall.LookupContainer NAME]) := by
    rw [gen_since, h]
  have hcb := compileError_gen_error r "before" NAME (by decide) _ _ hb
  have hcs := compileError_gen_error r "since" NAME (by decide) _ _ hs
  refine ⟨hb, hs, hcb, hcs, ?_⟩
  intro env opts filters maxWorkers hmem
  have hex : ∃ f ∈ filters, (compileError r f).isSome = true := by
    rcases hmem with hm | hm
    · exact ⟨_, hm, by rw [hcb]; rfl⟩
    · exact ⟨_, hm, by rw [hcs]; rfl⟩
  obtain ⟨_, _, _, err, _, _, _, hres⟩ := compile_first_error r filters hex []
  exact ⟨err, GetPsContainerOutput_of_compile_error env r opts filters maxWorkers err hres⟩

/-- Witness for C28: the example runtime knows no container `ghost`; `ps` with the filters
`name=web` and `since=ghost` returns the lookup error and no records. -/
theorem before_since_unresolved_witness :
    compileError Example.runtime "before=ghost"
        = some (Error.Wrapf
            (Error.Errorf "unable to find container by name or id of ghost") "invalid filter") ∧
    (GetPsContainerOutput Example.env Example.runtime (Example.last 0)
        ["name=web", "since=ghost"] 4).1
      = Outcome.returned ([], some (Error.Wrapf
          (Error.Errorf "unable to find container by name or id of ghost") "invalid filter")) :=
  ⟨(before_since_unresolved Example.runtime "ghost" (Error.external "no such container")
      rfl).2.2.1,
    rfl⟩

/-- C29: with `NoTrunc` set and a batch read that succeeds, a record is produced, and its ID,
pod id and command are the container's ID, its pod id and its space-joined command, whole,
whatever their lengths. -/
theorem full_fields (env : Env) (ctr : Container) (opts : PsOptions)
    (hNT : opts.NoTrunc = true) (hr : ctr.readable opts) :
    ∃ pso, NewBatchContainer env ctr opts = Outcome.returned (pso, none) ∧
      pso.ID = ctr.ID ∧ pso.Pod = ctr.PodID ∧ pso.Command = Join ctr.Command " " := by
  refine ⟨_, NewBatchContainer_returned env ctr opts hr (Or.inl hNT), ?_, ?_, ?_⟩ <;>
    simp [hNT]

/-- Witness for C29: the container `job`, with a 20-character ID, a 20-character pod id and
the command `sleep 100000000000000`. -/
theorem full_fields_witness :
    ∃ pso, NewBatchContainer Example.env Example.job { Example.last 0 with NoTrunc := true }
        = Outcome.returned (pso, none) ∧
      pso.ID = "cccccccccccccccccccc" ∧ pso.Pod = "0123456789abcdef0123" ∧
      pso.Command = "sleep 100000000000000" := by
  obtain ⟨pso, hpso, hid, hpod, hcmd⟩ := full_fields Example.env Example.job
    { Example.last 0 with NoTrunc := true } rfl ⟨rfl, fun _ => rfl, rfl, rfl, fun _ => rfl⟩
  refine ⟨pso, hpso, ?_, ?_, ?_⟩
  · rw [hid]; decide
  · rw [hpod]; decide
  · rw [hcmd]; decide

/-- C30: the status filter compiles exactly for the operands created, running, paused,
stopped, exited and unknown (compared exactly): for these `generateContainerFilterFuncs`
returns the status predicate, for every other operand the error "V is not a valid status",
which is the compile error of the filter string `status=V`; so `status=bogus`, `status=` and
`status=Running` do not compile. -/
theorem status_operand_accepted (v : String) (r : Runtime) :
    ((generateContainerFilterFuncs "status" v r).1.isOk = true
      ↔ v ∈ ["created", "running", "paused", "stopped", "exited", "unknown"]) ∧
    (v ∈ ["created", "running", "paused", "stopped", "exited", "unknown"] →
      generateContainerFilterFuncs "status" v r = (Except.ok (statusFilter v), []) ∧
      compileError r ("status" ++ "=" ++ v) = none) ∧
    (v ∉ ["created", "running", "paused", "stopped", "exited", "unknown"] →
      generateContainerFilterFuncs "status" v r
        = (Except.error (Error.Errorf (v ++ " is not a valid status")), []) ∧
      compileError r ("status" ++ "=" ++ v)
        = some (Error.Wrapf (Error.Errorf (v ++ " is not a valid status")) "invalid filter")) ∧
    (∀ x ∈ ["bogus", "", "Running"],
      (generateContainerFilterFuncs "status" x r).1.isOk = false) := by
  have hmem : StringInSlice v ["created", "running", "paused", "stopped", "exited", "unknown"]
      = true ↔ v ∈ ["created", "running", "paused", "stopped", "exited", "unknown"] := by
    unfold StringInSlice
    simp only [List.contains_iff_exists_mem_beq, beq_iff_eq]
    constructor
    · rintro ⟨a, ha, rfl⟩
      exact ha
    · intro ha
      exact ⟨v, ha, rfl⟩
  have hin : v ∈ ["created", "running", "paused", "stopped", "exited", "unknown"] →
      generateContainerFilterFuncs "status" v r = (Except.ok (statusFilter v), []) := by
    intro h
    rw [gen_status, if_neg (not_not.mpr (hmem.mpr h))]
  have hout : v ∉ ["created", "running", "paused", "stopped", "exited", "unknown"] →
      generateContainerFilterFuncs "status" v r
        = (Except.error (Error.Errorf (v ++ " is not a valid status")), []) := by
    intro h
    rw [gen_status, if_pos (fun h' => h (hmem.mp h'))]
  refine ⟨?_, ?_, ?_, ?_⟩
  · constructor
    · intro h
      by_contra hn
      rw [hout hn] at h
      exact Bool.noConfusion h
    · intro h
      rw [hin h]
      rfl
  · intro h
    refine ⟨hin h, ?_⟩
    have hs := SplitN2_key_value "status" v (by decide)
    have hlen : ¬ (SplitN2 ("status" ++ "=" ++ v) '=').length < 2 := by rw [hs]; simp
    have hg' : generateContainerFilterFuncs ((SplitN2 ("status" ++ "=" ++ v) '=').getD 0 "")
        ((SplitN2 ("status" ++ "=" ++ v) '=').getD 1 "") r = (Except.ok (statusFilter v), []) := by
      rw [hs]; exact hin h
    unfold compileError
    rw [compile_cons_gen_ok r _ hlen _ _ hg']
    rfl
  · intro h
    exact ⟨hout h, compileError_gen_error r "status" v (by decide) _ _ (hout h)⟩
  · intro x hx
    simp only [List.mem_cons, List.mem_singleton, List.mem_nil_iff, or_false] at hx
    rcases hx with h | h | h <;> subst h <;> rfl

/-- Witness for C30: `running` is accepted; `bogus`, the empty operand and `Running` are not. -/
theorem status_operand_accepted_witness :
    (generateContainerFilterFuncs "status" "running" Example.runtime).1.isOk = true ∧
    compileError Example.runtime "status=bogus"
      = some (Error.Wrapf (Error.Errorf "bogus is not a valid status") "invalid filter") ∧
    compileError Example.runtime "status="
      = some (Error.Wrapf (Error.Errorf " is not a valid status") "invalid filter") ∧
    compileError Example.runtime "status=Running"
      = some (Error.Wrapf (Error.Errorf "Running is not a valid status") "invalid filter") :=
  ⟨(status_operand_accepted "running" Example.runtime).1.mpr (by decide),
    ((status_operand_accepted "bogus" Example.runtime).2.2.1 (by decide)).2,
    ((status_operand_accepted "" Example.runtime).2.2.1 (by decide)).2,
    ((status_operand_accepted "Running" Example.runtime).2.2.1 (by decide)).2⟩

/-! ### Substring filters, the port order, and the reference container -/

theorem Contains_iff (s v : String) :
    Contains s v = true ↔ ∃ pre post : String, s = pre ++ v ++ post := by
  unfold Contains
  rw [decide_eq_true_iff]
  constructor
  · rintro ⟨a, b, h⟩
    refine ⟨String.mk a, String.mk b, ?_⟩
    apply String.ext
    simp only [String.data_append]
    exact h.symm
  · rintro ⟨pre, post, h⟩
    refine ⟨pre.data, post.data, ?_⟩
    rw [h]
    simp only [String.data_append]

/-- C31: for every operand `V` the filters `id` and `name` compile (without a runtime call); the
predicate of `id=V` is true exactly of the containers whose full ID is `pre ++ V ++ post` for
some strings `pre` and `post`, the predicate of `name=V` exactly of those whose name is; so a
container satisfies the `id` filter of its own full ID and the `name` filter of its own
name. -/
theorem id_name_filter_semantics (V : String) (r : Runtime) :
    ∃ fid fname : Container → Bool,
      generateContainerFilterFuncs "id" V r = (Except.ok fid, []) ∧
      generateContainerFilterFuncs "name" V r = (Except.ok fname, []) ∧
      (∀ c : Container, fid c = true ↔ ∃ pre post : String, c.ID = pre ++ V ++ post) ∧
      (∀ c : Container, fname c = true ↔ ∃ pre post : String, c.Name = pre ++ V ++ post) ∧
      (∀ c : Container, c.ID = V → fid c = true) ∧
      (∀ c : Container, c.Name = V → fname c = true) := by
  refine ⟨fun c => Contains c.ID V, fun c => Contains c.Name V, gen_id V r, gen_name V r,
    fun c => Contains_iff c.ID V, fun c => Contains_iff c.Name V, ?_, ?_⟩
  · intro c h
    exact (Contains_iff c.ID V).mpr ⟨"", "", by rw [h]; simp⟩
  · intro c h
    exact (Contains_iff c.Name V).mpr ⟨"", "", by rw [h]; simp⟩

/-- Witness for C31: the container `web` satisfies `id=89ab` and `name=eb`, the container `db`
satisfies neither. -/
theorem id_name_filter_semantics_witness :
    ∃ fid fname : Container → Bool,
      generateContainerFilterFuncs "id" "89ab" Example.runtime = (Except.ok fid, []) ∧
      generateContainerFilterFuncs "name" "eb" Example.runtime = (Except.ok fname, []) ∧
      fid Example.web = true ∧ fname Example.web = true ∧
      fid Example.db = false ∧ fname Example.db = false := by
  obtain ⟨fid, _, hid, _, hidiff, _, _, _⟩ := id_name_filter_semantics "89ab" Example.runtime
  obtain ⟨_, fname, _, hname, _, hnameiff, _, _⟩ := id_name_filter_semantics "eb" Example.runtime
  have e1 : ∀ c : Container, fid c = Contains c.ID "89ab" := fun c =>
    Bool.eq_iff_iff.mpr ((hidiff c).trans (Contains_iff c.ID "89ab").symm)
  have e2 : ∀ c : Container, fname c = Contains c.Name "eb" := fun c =>
    Bool.eq_iff_iff.mpr ((hnameiff c).trans (Contains_iff c.Name "eb").symm)
  refine ⟨fid, fname, hid, hname, ?_, ?_, ?_, ?_⟩
  · rw [e1]; decide
  · rw [e2]; decide
  · rw [e1]; decide
  · rw [e2]; decide

theorem comparePorts_iff (a b : PortMapping) :
    comparePorts a b = true ↔
      a.ContainerPort < b.ContainerPort ∨ (a.ContainerPort = b.ContainerPort ∧
        (a.HostIP < b.HostIP ∨ (a.HostIP = b.HostIP ∧
          (a.HostPort < b.HostPort ∨ (a.HostPort = b.HostPort ∧ a.Protocol < b.Protocol))))) := by
  rw [comparePorts_iff_key]
  simp only [Spec.portOrderKey, Prod.Lex.lt_iff]

theorem portsToString_fold (ports : List PortMapping) :
    portsToString ports =
      (Join (((ports.insertionSort fun a b => comparePorts b a = false).foldl
              portsToString.step ⟨[], []⟩).portDisplay
          ++ ((ports.insertionSort fun a b => comparePorts b a = false).foldl
              portsToString.step ⟨[], []⟩).groups.map fun g => formatGroup g.1 g.2.1 g.2.2) ", ",
        ports.insertionSort fun a b => comparePorts b a = false) := by
  unfold portsToString
  by_cases h : ports.length = 0
  · have hn : ports = [] := List.eq_nil_of_length_eq_zero h
    subst hn
    rfl
  · rw [if_neg h]

/-- C35: `comparePorts a b` holds exactly when `a` is before `b` in the lexicographic order on
(containerPort, hostIP, hostPort, protocol); it is irreflexive and transitive, and of two
mappings that differ in one of the four fields exactly one is before the other. The loop of
`portsToString` runs over the mappings of its argument arranged so that each is before (or
equal to) all that follow it. -/
theorem comparePorts_strict_order :
    (∀ a b : PortMapping, comparePorts a b = true ↔
      a.ContainerPort < b.ContainerPort ∨ (a.ContainerPort = b.ContainerPort ∧
        (a.HostIP < b.HostIP ∨ (a.HostIP = b.HostIP ∧
          (a.HostPort < b.HostPort ∨
            (a.HostPort = b.HostPort ∧ a.Protocol < b.Protocol)))))) ∧
    (∀ a : PortMapping, comparePorts a a = false) ∧
    (∀ a b c : PortMapping, comparePorts a b = true → comparePorts b c = true →
      comparePorts a c = true) ∧
    (∀ a b : PortMapping,
      a.ContainerPort ≠ b.ContainerPort ∨ a.HostIP ≠ b.HostIP ∨ a.HostPort ≠ b.HostPort
        ∨ a.Protocol ≠ b.Protocol →
      (comparePorts a b = true ∧ comparePorts b a = false)
        ∨ (comparePorts a b = false ∧ comparePorts b a = true)) ∧
    ∀ ports : List PortMapping, ∃ sorted : List PortMapping,
      sorted.Perm ports ∧
      sorted.Pairwise (fun a b => comparePorts a b = true ∨ a = b) ∧
      (portsToString ports).1 =
        Join ((sorted.foldl portsToString.step ⟨[], []⟩).portDisplay
          ++ (sorted.foldl portsToString.step ⟨[], []⟩).groups.map
              fun g => formatGroup g.1 g.2.1 g.2.2) ", " := by
  have hirr : ∀ a : PortMapping, comparePorts a a = false := by
    intro a
    rw [← Bool.not_eq_true, comparePorts_iff_key]
    exact lt_irrefl _
  refine ⟨comparePorts_iff, hirr, ?_, ?_, ?_⟩
  · intro a b c hab hbc
    rw [comparePorts_iff_key] at hab hbc ⊢
    exact lt_trans hab hbc
  · intro a b hne
    have hab : a ≠ b := by
      rintro rfl
      simp at hne
    have hkey : Spec.portOrderKey a ≠ Spec.portOrderKey b :=
      fun h => hab (portOrderKey_injective a b h)
    rcases lt_or_gt_of_ne hkey with h | h
    · left
      refine ⟨(comparePorts_iff_key a b).mpr h, ?_⟩
      rw [← Bool.not_eq_true, comparePorts_iff_key]
      exact not_lt.mpr (le_of_lt h)
    · right
      refine ⟨?_, (comparePorts_iff_key b a).mpr h⟩
      rw [← Bool.not_eq_true, comparePorts_iff_key]
      exact not_lt.mpr (le_of_lt h)
  · intro ports
    refine ⟨ports.insertionSort fun a b => comparePorts b a = false,
      List.perm_insertionSort _ ports, ?_, ?_⟩
    · refine List.Pairwise.imp ?_ (sorted_sortedPorts ports)
      intro a b h
      rw [portLE_iff] at h
      rcases lt_or_eq_of_le h with h | h
      · exact Or.inl ((comparePorts_iff_key a b).mpr h)
      · exact Or.inr (portOrderKey_injective a b h)
    · rw [portsToString_fold]

/-- Witness for C35: 80/tcp with no host IP is before 80/tcp on `10.0.0.1`, which is before
81/tcp with no host IP, so the first is before the last; and none is before itself. -/
theorem comparePorts_strict_order_witness :
    comparePorts (Example.tcp 80 80) ⟨80, 80, "tcp", "10.0.0.1"⟩ = true ∧
    comparePorts ⟨80, 80, "tcp", "10.0.0.1"⟩ (Example.tcp 81 81) = true ∧
    comparePorts (Example.tcp 80 80) (Example.tcp 81 81) = true ∧
    comparePorts (Example.tcp 80 80) (Example.tcp 80 80) = false := by
  have h1 : comparePorts (Example.tcp 80 80) ⟨80, 80, "tcp", "10.0.0.1"⟩ = true :=
    (comparePorts_strict_order.1 _ _).mpr
      (Or.inr ⟨rfl, Or.inl (String.lt_iff_toList_lt.mpr (by decide))⟩)
  have h2 : comparePorts ⟨80, 80, "tcp", "10.0.0.1"⟩ (Example.tcp 81 81) = true := by decide
  exact ⟨h1, h2, comparePorts_strict_order.2.2.1 _ _ _ h1 h2,
    comparePorts_strict_order.2.1 _⟩

/-- C38: two lists of port mappings that are permutations of each other are formatted as the
same string. -/
theorem portsToString_perm (ports ports' : List PortMapping) (h : ports.Perm ports') :
    (portsToString ports).1 = (portsToString ports').1 := by
  have hs : (ports.insertionSort fun a b => comparePorts b a = false)
      = ports'.insertionSort fun a b => comparePorts b a = false :=
    sortedPorts_eq_of_perm ports _ (h.trans (List.perm_insertionSort _ ports').symm)
      (sorted_sortedPorts ports')
  rw [portsToString_fold, portsToString_fold, hs]

/-- Witness for C38: ports 82, 9090 to 80, 80, 81 in two orders. -/
theorem portsToString_perm_witness :
    (portsToString [Example.tcp 82 82, Example.tcp 9090 80, Example.tcp 80 80,
        Example.tcp 81 81]).1
      = (portsToString [Example.tcp 81 81, Example.tcp 80 80, Example.tcp 82 82,
        Example.tcp 9090 80]).1 ∧
    (portsToString [Example.tcp 81 81, Example.tcp 80 80, Example.tcp 82 82,
        Example.tcp 9090 80]).1 = "0.0.0.0:9090->80/tcp, 0.0.0.0:80-82->80-82/tcp" :=
  ⟨portsToString_perm _ _ (by decide), by decide⟩

/-- C39: when the runtime resolves `R` to the container `ref`, the filters `before=R` and
`since=R` compile, and of their two predicates no container satisfies both, a container
created at the same instant as `ref` (so `ref` itself) satisfies neither, and a container
created at another instant satisfies exactly one. -/
theorem before_since_exclusive (r : Runtime) (R : String) (ref : Container)
    (h : r.LookupContainer R = Except.ok ref) :
    ∃ fb fs : Container → Bool,
      generateContainerFilterFuncs "before" R r
        = (Except.ok fb, [RuntimeCall.LookupContainer R]) ∧
      generateContainerFilterFuncs "since" R r
        = (Except.ok fs, [RuntimeCall.LookupContainer R]) ∧
      (∀ c : Container, ¬ (fb c = true ∧ fs c = true)) ∧
      (∀ c : Container, c.Config.CreatedTime = ref.Config.CreatedTime →
        fb c = false ∧ fs c = false) ∧
      (fb ref = false ∧ fs ref = false) ∧
      (∀ c : Container, c.Config.CreatedTime ≠ ref.Config.CreatedTime →
        (fb c = true ∧ fs c = false) ∨ (fb c = false ∧ fs c = true)) := by
  refine ⟨fun c => decide (c.Config.CreatedTime < ref.Config.CreatedTime),
    fun c => decide (ref.Config.CreatedTime < c.Config.CreatedTime), ?_, ?_, ?_, ?_, ?_, ?_⟩
  · rw [gen_before, h]
  · rw [gen_since, h]
  · intro c
    simp only [decide_eq_true_eq]
    omega
  · intro c hc
    simp only [decide_eq_false_iff_not]
    omega
  · simp
  · intro c hc
    simp only [decide_eq_true_eq, decide_eq_false_iff_not]
    omega

/-- Witness for C39: the reference container `web` of the example runtime, created at 10; the
container `db`, created at 5, satisfies `before` and not `since`. -/
theorem before_since_exclusive_witness :
    ∃ fb fs : Container → Bool,
      generateContainerFilterFuncs "before" "web" Example.runtime
        = (Except.ok fb, [RuntimeCall.LookupContainer "web"]) ∧
      generateContainerFilterFuncs "since" "web" Example.runtime
        = (Except.ok fs, [RuntimeCall.LookupContainer "web"]) ∧
      fb Example.web = false ∧ fs Example.web = false ∧
      fb Example.db = true ∧ fs Example.db = false := by
  obtain ⟨fb, fs, hb, hs, _, _, href, hdiff⟩ :=
    before_since_exclusive Example.runtime "web" Example.web rfl
  refine ⟨fb, fs, hb, hs, href.1, href.2, ?_⟩
  rcases hdiff Example.db (by decide) with h1 | h1
  · exact h1
  · exfalso
    rw [gen_since] at hs
    simp only [Example.runtime, if_true, Prod.mk.injEq, Except.ok.injEq, and_true] at hs
    rw [← hs] at h1
    exact absurd h1.2 (by decide)

/-- C36 (the code at a failing input): the container `short`, whose ID is `abc`, read without
`NoTrunc`: the batch reads succeed, and the slice of the first 12 characters of the ID is out
of range, so no record is produced; with `NoTrunc` set the same container gives a record with
the ID `abc`. -/
theorem NewBatchContainer_short_id_panics :
    NewBatchContainer Example.env Example.short (Example.last 0)
      = Outcome.panicked "slice bounds out of range" ∧
    (∃ pso, NewBatchContainer Example.env Example.short { Example.last 0 with NoTrunc := true }
      = Outcome.returned (pso, none) ∧ pso.ID = "abc") :=
  ⟨rfl, _, rfl, rfl⟩

end Shared

/-! ## The varlink `Ps` endpoint -/

namespace Varlinkapi

open Shared

/-- C40 (the code at a failing input): `Ps` with the namespace columns requested, on a runtime
whose container `web` has the IPC namespace `4026531839` and the cgroup namespace
`4026531835`. The record of `web` carries both values; the reply carries the cgroup value in
`Ipc` as well as in `Cgroup`, and the record's `MNT`, `NET`, `PIDNS`, `User` and `UTS` in the
fields of the same name. In general the loop body assigns `ctr.Cgroup` to `Ipc`. -/
theorem Ps_ipc_is_cgroup :
    (∃ rec c,
      (GetPsContainerOutput Example.envNs Example.runtime Example.nsOpts [] 1).1
        = Outcome.returned ([rec], none) ∧
      Ps Example.envNs Example.runtime 1 Example.nsOpts none (fun t => toString t)
        = Outcome.returned (Reply.Ps [c]) ∧
      rec.IPC = "4026531839" ∧ rec.Cgroup = "4026531835" ∧
      c.Ipc = "4026531835" ∧ c.Ipc ≠ rec.IPC ∧
      c.Cgroup = rec.Cgroup ∧ c.Mnt = rec.MNT ∧ c.Net = rec.NET ∧ c.PidNs = rec.PIDNS ∧
      c.User = rec.User ∧ c.Uts = rec.UTS) ∧
    ∀ (formatTime : Int → String) (ctr : PsContainerOutput) (c : PsContainer),
      Ps.container formatTime ctr = Outcome.returned c →
      c.Ipc = ctr.Cgroup ∧ c.Cgroup = ctr.Cgroup ∧ c.Mnt = ctr.MNT ∧ c.Net = ctr.NET ∧
        c.PidNs = ctr.PIDNS ∧ c.User = ctr.User ∧ c.Uts = ctr.UTS := by
  constructor
  · exact ⟨_, _, rfl, rfl, by decide, by decide, by decide, by decide, rfl, rfl, rfl, rfl, rfl,
      rfl⟩
  · intro formatTime ctr c h
    unfold Ps.container at h
    cases hs : ctr.Size with
    | none =>
      rw [hs] at h
      exact Outcome.noConfusion h
    | some size =>
      rw [hs] at h
      simp only [Outcome.returned.injEq] at h
      subst h
      exact ⟨rfl, rfl, rfl, rfl, rfl, rfl, rfl⟩

end Varlinkapi
